import Mathlib

/-!
Verification of the QuickPlate template library (src/TemplateProcessor.ts).

The development shallowly embeds the TemplateProcessor class: JavaScript
strings become `List Char` (wrapped in `String` at the interfaces),
JavaScript values become the inductive `JSValue` (numbers are modelled as
rationals, with a separate `nan` constructor standing for the IEEE NaN),
and code that can raise a TypeError, or that iterates an unbounded
rewrite-and-rescan loop, returns `Except JSErr`.  Each regular expression
of the source is hand-compiled to a deterministic scanner implementing the
leftmost-match, global-replace semantics the JavaScript engine gives it.
-/

namespace QuickPlate

/-- Apostrophe character, written by code point to keep sources plain. -/
def apos : Char := Char.ofNat 39

/-- Open brace character. -/
def obr : Char := Char.ofNat 123

/-- Close brace character. -/
def cbr : Char := Char.ofNat 125

/-- JavaScript word character for the placeholder body class
    (regex class of word, digit, underscore, hyphen). -/
def isWordChar (c : Char) : Bool :=
  c.isAlphanum || c = '_' || c = '-'

/-- JavaScript regex word class (letters, digits, underscore) used by
    loop, block and swap identifiers. -/
def isIdentChar (c : Char) : Bool :=
  c.isAlphanum || c = '_'

/-- JavaScript whitespace class (ASCII part; exotic unicode spaces are not
    exercised by any claim). -/
def isSpaceChar (c : Char) : Bool :=
  c = ' ' || c = '\t' || c = '\n' || c = '\r' || c = Char.ofNat 11 || c = Char.ofNat 12

/-- Decide whether `pat` is a prefix of `l`. -/
def startsWith : List Char → List Char → Bool
  | [], _ => true
  | _ :: _, [] => false
  | p :: ps, c :: cs => p = c && startsWith ps cs

/-- Index of the first occurrence of `pat` in `l`, if any. -/
def findSubIdx (l pat : List Char) : Option Nat :=
  go l 0
where
  go : List Char → Nat → Option Nat
    | [], i => if pat = [] then some i else none
    | c :: cs, i => if startsWith pat (c :: cs) then some i else go cs (i + 1)

/-- Substring containment test. -/
def containsSub (l pat : List Char) : Bool :=
  (findSubIdx l pat).isSome

/-- JS `String.replace` with a plain-string pattern: replace the first
    occurrence only. -/
def replaceFirstSub (l pat rep : List Char) : List Char :=
  match l with
  | [] => if pat = [] then rep else []
  | c :: cs =>
    if startsWith pat (c :: cs) then rep ++ (c :: cs).drop pat.length
    else c :: replaceFirstSub cs pat rep

/-- Scanner for the global replace of a plain nonempty substring pattern
    (non-overlapping, left to right, replacements are not rescanned).
    Structurally fueled; every step consumes at least one input
    character, so fuel above the length is never exhausted. -/
def replaceAllGo (p : Char) (ps rep : List Char) : Nat → List Char → List Char
  | 0, _ => []
  | _, [] => []
  | fuel + 1, c :: cs =>
    if startsWith (p :: ps) (c :: cs) then
      rep ++ replaceAllGo p ps rep fuel (cs.drop ps.length)
    else
      c :: replaceAllGo p ps rep fuel cs

/-- JS global replace of a plain substring pattern. -/
def replaceAllSub (l pat rep : List Char) : List Char :=
  match pat with
  | [] => l
  | p :: ps => replaceAllGo p ps rep (l.length + 1) l

theorem dropWhile_length_le (p : Char → Bool) (l : List Char) :
    (l.dropWhile p).length ≤ l.length := by
  induction l with
  | nil => simp
  | cons c cs ih =>
    by_cases h : p c
    · simpa [List.dropWhile, h] using Nat.le_succ_of_le ih
    · simp [List.dropWhile, h]

/-- JS `String.prototype.trim` (both ends, JS whitespace class). -/
def trimChars (l : List Char) : List Char :=
  ((l.dropWhile isSpaceChar).reverse.dropWhile isSpaceChar).reverse

/-- ASCII lower-casing, as JS `toLowerCase` on the ASCII range. -/
def lowerChars (l : List Char) : List Char :=
  l.map Char.toLower

/-- Backtick character, written by code point to keep sources plain. -/
def btick : Char := Char.ofNat 96

/-- The GetSubstitution algorithm run by `String.prototype.replace` on a
    string replacement value: dollar-dollar yields a dollar, dollar-amp
    the matched text, dollar-backtick the text before the match,
    dollar-apostrophe the text after it, and a dollar followed by digits
    a capture (two digits preferred when they name one), everything else
    being copied verbatim.  `matched`, `before` and `after` are relative
    to the string the replace ran on; `caps` are the pattern's captures
    (empty at every string-pattern call site and for the capture-free
    block-marker regex). -/
def getSubstitutionGo (matched before after : List Char) (caps : List (List Char)) :
    Nat → List Char → List Char
  | 0, _ => []
  | _, [] => []
  | fuel + 1, c :: rest =>
    if c = '$' then
      match rest with
      | [] => ['$']
      | d :: rest2 =>
        if d = '$' then
          '$' :: getSubstitutionGo matched before after caps fuel rest2
        else if d = '&' then
          matched ++ getSubstitutionGo matched before after caps fuel rest2
        else if d = btick then
          before ++ getSubstitutionGo matched before after caps fuel rest2
        else if d = apos then
          after ++ getSubstitutionGo matched before after caps fuel rest2
        else if d.isDigit then
          match rest2 with
          | e :: rest3 =>
            if e.isDigit = true ∧ 1 ≤ (d.toNat - 48) * 10 + (e.toNat - 48) ∧
                (d.toNat - 48) * 10 + (e.toNat - 48) ≤ caps.length then
              caps.getD ((d.toNat - 48) * 10 + (e.toNat - 48) - 1) [] ++
                getSubstitutionGo matched before after caps fuel rest3
            else if 1 ≤ d.toNat - 48 ∧ d.toNat - 48 ≤ caps.length then
              caps.getD (d.toNat - 48 - 1) [] ++
                getSubstitutionGo matched before after caps fuel (e :: rest3)
            else '$' :: getSubstitutionGo matched before after caps fuel (d :: e :: rest3)
          | [] =>
            if 1 ≤ d.toNat - 48 ∧ d.toNat - 48 ≤ caps.length then
              caps.getD (d.toNat - 48 - 1) [] ++
                getSubstitutionGo matched before after caps fuel []
            else '$' :: getSubstitutionGo matched before after caps fuel [d]
        else '$' :: getSubstitutionGo matched before after caps fuel (d :: rest2)
    else c :: getSubstitutionGo matched before after caps fuel rest

/-- Fuel wrapper for GetSubstitution: each step consumes at least one
    replacement character, so length-plus-one fuel always suffices. -/
def getSubstitution (matched before after : List Char) (caps : List (List Char))
    (rep : List Char) : List Char :=
  getSubstitutionGo matched before after caps (rep.length + 1) rep

theorem getSubstitutionGo_id (matched before after : List Char) (caps : List (List Char)) :
    ∀ (f : Nat) {rep : List Char}, rep.length < f → (∀ c ∈ rep, c ≠ '$') →
      getSubstitutionGo matched before after caps f rep = rep := by
  intro f
  induction f with
  | zero => intro rep h _; omega
  | succ f ih =>
    intro rep hl h
    cases rep with
    | nil => rfl
    | cons c rest =>
      have hc : c ≠ '$' := h c (by simp)
      simp only [List.length_cons] at hl
      simp only [getSubstitutionGo]
      rw [if_neg hc]
      exact congrArg (fun x => c :: x)
        (ih (by omega) (fun x hx => h x (by simp [hx])))

theorem getSubstitution_id (matched before after : List Char) (caps : List (List Char))
    {rep : List Char} (h : ∀ c ∈ rep, c ≠ '$') :
    getSubstitution matched before after caps rep = rep :=
  getSubstitutionGo_id matched before after caps (rep.length + 1) (by omega) h

/-- JavaScript runtime values, as far as the library observes them.
    Numbers are modelled as rationals; `nan` stands for the IEEE NaN
    (so `typeof` still classifies it as a number).  Object fields are an
    association list with distinct keys, first match wins. -/
inductive JSValue where
  | null
  | undefined
  | bool (b : Bool)
  | num (q : ℚ)
  | nan
  | str (s : String)
  | arr (elems : List JSValue)
  | obj (fields : List (String × JSValue))

/-- Errors the embedded code can produce: a thrown TypeError, or
    exhaustion of the fuel that bounds a rewrite-and-rescan loop the
    JavaScript source runs without bound (in the model, divergence of the
    source surfaces as `fuelOut`). -/
inductive JSErr where
  | typeError (msg : String)
  | fuelOut
deriving DecidableEq

/-- JS truthiness. -/
def jsTruthy : JSValue → Bool
  | .null => false
  | .undefined => false
  | .bool b => b
  | .num q => q ≠ 0
  | .nan => false
  | .str s => s ≠ ""
  | .arr _ => true
  | .obj _ => true

/-- JS `a || b`. -/
def jsOr (a b : JSValue) : JSValue :=
  if jsTruthy a then a else b

/-- JS `a && b`. -/
def jsAnd (a b : JSValue) : JSValue :=
  if jsTruthy a then b else a

/-- Decimal representation of an integer (as JS prints integral numbers). -/
def intRepr (n : ℤ) : String :=
  toString n

mutual

/-- JS `String(v)` coercion.  Number printing is modelled exactly for
    integral values; a non-integral rational is printed as a fraction
    (no claim depends on the textual form of a non-integral number). -/
def jsToString : JSValue → String
  | .null => "null"
  | .undefined => "undefined"
  | .bool b => if b then "true" else "false"
  | .num q => if q.den = 1 then intRepr q.num else intRepr q.num ++ "/" ++ toString q.den
  | .nan => "NaN"
  | .str s => s
  | .arr xs => String.intercalate "," (jsToStringElems xs)
  | .obj _ => "[object Object]"

/-- Array elements under `Array.prototype.join`: null and undefined
    print as the empty string. -/
def jsToStringElems : List JSValue → List String
  | [] => []
  | .null :: xs => "" :: jsToStringElems xs
  | .undefined :: xs => "" :: jsToStringElems xs
  | x :: xs => jsToString x :: jsToStringElems xs

end

/-- Top-level template data: a JavaScript object. -/
def TemplateData := List (String × JSValue)

/-- JS `data.hasOwnProperty(key)` on the top-level data object. -/
def hasOwnData (d : TemplateData) (k : String) : Bool :=
  (List.find? (fun kv => kv.1 = k) d).isSome

/-- JS `data[key]` on the top-level data object (absent keys give
    undefined). -/
def getProp (d : TemplateData) (k : String) : JSValue :=
  match List.find? (fun kv => kv.1 = k) d with
  | some kv => kv.2
  | none => .undefined

/-- Canonical array-index strings ("0", "1", ... without leading zeros),
    the own properties JS exposes on strings and arrays besides length. -/
def canonIndex (k : String) : Option Nat :=
  if k ≠ "" && k.data.all Char.isDigit && (k = "0" || k.data.head? ≠ some '0') then
    some (k.data.foldl (fun n c => n * 10 + (c.toNat - 48)) 0)
  else none

/-- JS `v.hasOwnProperty(key)`: throws on null and undefined; objects own
    their fields; strings and arrays own length and their index keys;
    other boxed primitives own nothing. -/
def jsHasOwn (v : JSValue) (k : String) : Except JSErr Bool :=
  match v with
  | .null => .error (.typeError "Cannot read properties of null")
  | .undefined => .error (.typeError "Cannot read properties of undefined")
  | .obj fs => .ok ((List.find? (fun kv => kv.1 = k) fs).isSome)
  | .str s => .ok (k = "length" || (canonIndex k).any (fun i => i < s.length))
  | .arr xs => .ok (k = "length" || (canonIndex k).any (fun i => i < xs.length))
  | _ => .ok false

/-- JS property read `v[key]` for a non-null receiver (every call site
    guards the receiver with truthiness or hasOwnProperty first). -/
def jsGetProp (v : JSValue) (k : String) : JSValue :=
  match v with
  | .obj fs =>
    match List.find? (fun kv => kv.1 = k) fs with
    | some kv => kv.2
    | none => .undefined
  | .str s =>
    if k = "length" then .num s.length
    else
      match canonIndex k with
      | some i => if h : i < s.data.length then .str (String.mk [s.data.get ⟨i, h⟩]) else .undefined
      | none => .undefined
  | .arr xs =>
    if k = "length" then .num xs.length
    else
      match canonIndex k with
      | some i => xs.getD i .undefined
      | none => .undefined
  | _ => .undefined

/-- JS `v.trim()`: defined on strings, a TypeError on any other truthy
    receiver (the call sites only reach it behind a truthiness guard). -/
def jsTrim (v : JSValue) : Except JSErr String :=
  match v with
  | .str s => .ok (String.mk (trimChars s.data))
  | .null => .error (.typeError "Cannot read properties of null")
  | .undefined => .error (.typeError "Cannot read properties of undefined")
  | _ => .error (.typeError "trim is not a function")

/-- The guard pattern of the source, `!v || v.trim() === s` for a string
    literal s: short-circuits on falsy values, otherwise trims. -/
def falsyOrTrimEq (v : JSValue) (s : String) : Except JSErr Bool :=
  if jsTruthy v then do
    let t ← jsTrim v
    pure (t = s)
  else pure true

/-- Replace every occurrence of the single character `c` by the string
    `r`: the semantics of one `.replace(/c/g, r)` pass of `escapeHtml`. -/
def rep1 (c : Char) (r : List Char) (l : List Char) : List Char :=
  l.flatMap (fun ch => if ch = c then r else [ch])

/-- The `escapeHtml` private method: null and undefined become the empty
    string, anything else is coerced with `String` and piped through the
    five sequential single-character global replaces of the source
    (amp, lt, gt, quot, apostrophe — in that order). -/
def escapeHtmlL (l : List Char) : List Char :=
  rep1 apos "&#39;".data
    (rep1 '"' "&quot;".data
      (rep1 '>' "&gt;".data
        (rep1 '<' "&lt;".data
          (rep1 '&' "&amp;".data l))))

/-- HTML-escape a JavaScript value, as `escapeHtml` does. -/
def escapeHtml (v : JSValue) : String :=
  match v with
  | .null => ""
  | .undefined => ""
  | _ => String.mk (escapeHtmlL (jsToString v).data)

/-- UTF-8 bytes of a character (standard scalar-value encoding). -/
def charUtf8 (c : Char) : List Nat :=
  let n := c.toNat
  if n < 0x80 then [n]
  else if n < 0x800 then
    [0xC0 + n / 64, 0x80 + n % 64]
  else if n < 0x10000 then
    [0xE0 + n / 4096, 0x80 + n / 64 % 64, 0x80 + n % 64]
  else
    [0xF0 + n / 262144, 0x80 + n / 4096 % 64, 0x80 + n / 64 % 64, 0x80 + n % 64]

/-- Upper-case hexadecimal digit. -/
def hexDigit (n : Nat) : Char :=
  if n < 10 then Char.ofNat (48 + n) else Char.ofNat (55 + n)

/-- Characters `encodeURIComponent` leaves unescaped. -/
def uriUnreserved (c : Char) : Bool :=
  c.isAlphanum || c = '-' || c = '_' || c = '.' || c = '!' || c = '~' ||
    c = '*' || c = apos || c = '(' || c = ')'

/-- JS `encodeURIComponent`. -/
def encodeURIComponent (s : String) : String :=
  String.mk (s.data.flatMap (fun c =>
    if uriUnreserved c then [c]
    else (charUtf8 c).flatMap (fun b => ['%', hexDigit (b / 16), hexDigit (b % 16)])))

/-- JS `parseFloat` on a decimal literal: leading whitespace, optional
    sign, digits with optional fraction and exponent; `none` models NaN.
    (The Infinity literal is not modelled; no claim exercises it.) -/
def parseFloatQ (s : String) : Option ℚ :=
  let l := s.data.dropWhile isSpaceChar
  let (sign, l) : ℤ × List Char :=
    match l with
    | '-' :: rest => (-1, rest)
    | '+' :: rest => (1, rest)
    | _ => (1, l)
  let intPart := l.takeWhile Char.isDigit
  let l₂ := l.dropWhile Char.isDigit
  let (fracPart, l₃) : List Char × List Char :=
    match l₂ with
    | '.' :: rest => (rest.takeWhile Char.isDigit, rest.dropWhile Char.isDigit)
    | _ => ([], l₂)
  if intPart = [] && fracPart = [] then none
  else
    let digitsVal : List Char → Nat := fun ds => ds.foldl (fun n c => n * 10 + (c.toNat - 48)) 0
    let expVal : ℤ :=
      match l₃ with
      | 'e' :: rest | 'E' :: rest =>
        let (es, rest₂) : ℤ × List Char :=
          match rest with
          | '-' :: r => (-1, r)
          | '+' :: r => (1, r)
          | _ => (1, rest)
        let eds := rest₂.takeWhile Char.isDigit
        if eds = [] then 0 else es * (digitsVal eds : ℤ)
      | _ => 0
    let mantNum : ℤ := sign * (digitsVal intPart * 10 ^ fracPart.length + digitsVal fracPart)
    some
      (if 0 ≤ expVal then mkRat (mantNum * 10 ^ expVal.toNat) (10 ^ fracPart.length)
       else mkRat mantNum (10 ^ fracPart.length * 10 ^ (-expVal).toNat))

/-- Number of filled glyphs the rating renderer produces for a valid
    non-negative number: floor, then clamp into zero to five. -/
def starsFilled (q : ℚ) : Nat :=
  (min 5 (max 0 ⌊q⌋)).toNat

/-- The `processSpecialPlaceholder` private method: vCard prefixing for
    addContact, glyph rendering for stars, HTML escaping otherwise. -/
def processSpecialPlaceholder (v : JSValue) (placeholder : String) : String :=
  if placeholder = "addContact" then
    "data:text/vcard;charset=utf-8," ++
      encodeURIComponent (jsToString (if jsTruthy v then v else .str ""))
  else if placeholder = "stars" then
    let numericValue : Option ℚ :=
      match v with
      | .str s => parseFloatQ s
      | .num q => some q
      | _ => none
    match numericValue with
    | some q =>
      if 0 ≤ q then
        String.mk (List.replicate (starsFilled q) '★' ++
          List.replicate (5 - starsFilled q) '☆')
      else "★★★★★"
    | none => "★★★★★"
  else
    escapeHtml v

/-- List-level suffix test (JS `endsWith`). -/
def endsWithList (l pat : List Char) : Bool :=
  startsWith pat.reverse l.reverse

/-- The URL-ish key heuristic of `processComplexDataInLoop`. -/
def isUrlishKey (k : String) : Bool :=
  endsWithList k.data "Url".data ||
    containsSub k.data "image".data || containsSub k.data "photo".data

/-- The `processImageUrl` private method.  The File branch of the source
    needs a DOM File object, which cannot arise in our value domain, so it
    is absent here. -/
def processImageUrl (url : JSValue) : String :=
  match url with
  | .str s => String.mk (escapeHtmlL s.data)
  | .null => "/images/placeholder.jpg"
  | .undefined => "/images/placeholder.jpg"
  | v => String.mk (escapeHtmlL (jsToString v).data)

/-- Match a placeholder token at the head of the input, which must sit
    just after an open brace: a nonempty run of word characters followed
    by a close brace.  Returns the token body and the input after the
    close brace.  This is the leftmost-match step of the regex the source
    builds from the default delimiters. -/
def tokenAt (cs : List Char) : Option (String × List Char) :=
  let run := cs.takeWhile isWordChar
  match run, cs.dropWhile isWordChar with
  | [], _ => none
  | _, d :: rest => if d = cbr then some (String.mk run, rest) else none
  | _, [] => none

theorem tokenAt_rest_length {cs : List Char} {nm : String} {rest : List Char}
    (h : tokenAt cs = some (nm, rest)) : rest.length < cs.length := by
  unfold tokenAt at h
  cases hrun : cs.takeWhile isWordChar with
  | nil => simp [hrun] at h
  | cons a as =>
    cases hdrop : cs.dropWhile isWordChar with
    | nil => simp [hrun, hdrop] at h
    | cons d ds =>
      simp only [hrun, hdrop] at h
      by_cases hd : d = cbr
      · simp [hd] at h
        obtain ⟨-, hrest⟩ := h
        subst hrest
        have hlen := congrArg List.length
          (List.takeWhile_append_dropWhile (p := isWordChar) (l := cs))
        rw [List.length_append, hrun, hdrop] at hlen
        simp only [List.length_cons] at hlen
        omega
      · simp [hd] at h

/-- Global placeholder replacement scanner with a pure callback: the
    callback receives the token body and the whole matched text and
    returns the replacement.  Structurally fueled; every step consumes at
    least one input character. -/
def scanTokensGo (cb : String → String → String) : Nat → List Char → List Char
  | 0, _ => []
  | _, [] => []
  | fuel + 1, c :: cs =>
    if c = obr then
      match tokenAt cs with
      | some (nm, rest) =>
        (cb nm (String.mk (obr :: nm.data ++ [cbr]))).data ++ scanTokensGo cb fuel rest
      | none => c :: scanTokensGo cb fuel cs
    else c :: scanTokensGo cb fuel cs

/-- Fuel wrapper for the token scanner. -/
def scanTokens (cb : String → String → String) (l : List Char) : List Char :=
  scanTokensGo cb (l.length + 1) l

/-- Global placeholder replacement scanner with a callback that can
    throw (used inside loop expansion, where the item lookup can).
    Structurally fueled like the pure scanner. -/
def scanTokensEGo (cb : String → String → Except JSErr String) :
    Nat → List Char → Except JSErr (List Char)
  | 0, _ => .ok []
  | _, [] => .ok []
  | fuel + 1, c :: cs =>
    if c = obr then
      match tokenAt cs with
      | some (nm, rest) => do
        let r ← cb nm (String.mk (obr :: nm.data ++ [cbr]))
        let tail ← scanTokensEGo cb fuel rest
        pure (r.data ++ tail)
      | none => do
        let tail ← scanTokensEGo cb fuel cs
        pure (c :: tail)
    else do
      let tail ← scanTokensEGo cb fuel cs
      pure (c :: tail)

/-- Fuel wrapper for the throwing token scanner. -/
def scanTokensE (cb : String → String → Except JSErr String) (l : List Char) :
    Except JSErr (List Char) :=
  scanTokensEGo cb (l.length + 1) l

/-- The `replacePlaceholders` private method (default delimiters): a
    token whose key the data owns is rendered through
    `processSpecialPlaceholder`; otherwise the matched text is kept. -/
def replacePlaceholders (d : TemplateData) (template : String) : String :=
  String.mk (scanTokens
    (fun nm mtch => if hasOwnData d nm then processSpecialPlaceholder (getProp d nm) nm else mtch)
    template.data)

/-- The replacement callback of `processComplexDataInLoop`: item context
    first (with the URL-ish heuristic), then the global data, then the
    matched text verbatim. -/
def loopTokenCb (item : JSValue) (globalData : TemplateData) (nm mtch : String) :
    Except JSErr String :=
  match jsHasOwn item nm with
  | .error e => .error e
  | .ok own =>
    if own then
      if isUrlishKey nm then pure (processImageUrl (jsGetProp item nm))
      else pure (processSpecialPlaceholder (jsGetProp item nm) nm)
    else if hasOwnData globalData nm then
      if isUrlishKey nm then pure (processImageUrl (getProp globalData nm))
      else pure (processSpecialPlaceholder (getProp globalData nm) nm)
    else pure mtch

/-- The `processComplexDataInLoop` private method (default delimiters). -/
def processComplexDataInLoop (itemTemplate : String) (item : JSValue)
    (globalData : TemplateData) : Except JSErr String := do
  let r ← scanTokensE (loopTokenCb item globalData) itemTemplate.data
  pure (String.mk r)

theorem startsWith_decomp {pat l : List Char} (h : startsWith pat l = true) :
    l = pat ++ l.drop pat.length := by
  induction pat generalizing l with
  | nil => simp
  | cons p ps ih =>
    cases l with
    | nil => simp [startsWith] at h
    | cons c cs =>
      simp only [startsWith, Bool.and_eq_true, decide_eq_true_eq] at h
      obtain ⟨rfl, h2⟩ := h
      simpa using ih h2

theorem findSubIdx_go_spec {pat : List Char} :
    ∀ {l : List Char} {i0 j : Nat}, findSubIdx.go pat l i0 = some j →
      i0 ≤ j ∧ j - i0 ≤ l.length ∧ startsWith pat (l.drop (j - i0)) = true := by
  intro l
  induction l with
  | nil =>
    intro i0 j h
    unfold findSubIdx.go at h
    by_cases hp : pat = []
    · simp [hp] at h
      subst hp h
      simp [startsWith]
    · simp [hp] at h
  | cons c cs ih =>
    intro i0 j h
    unfold findSubIdx.go at h
    by_cases hs : startsWith pat (c :: cs) = true
    · simp [hs] at h
      subst h
      simpa using hs
    · simp [hs] at h
      obtain ⟨h1, h2, h3⟩ := ih h
      refine ⟨by omega, by simp; omega, ?_⟩
      have : (c :: cs).drop (j - i0) = cs.drop (j - (i0 + 1)) := by
        have : j - i0 = (j - (i0 + 1)) + 1 := by omega
        simp [this]
      rwa [this]

theorem findSubIdx_spec {l pat : List Char} {i : Nat} (h : findSubIdx l pat = some i) :
    l = l.take i ++ pat ++ l.drop (i + pat.length) ∧ i ≤ l.length := by
  unfold findSubIdx at h
  obtain ⟨h1, h2, h3⟩ := findSubIdx_go_spec h
  simp only [Nat.sub_zero] at h2 h3
  have hd := startsWith_decomp h3
  constructor
  · conv_lhs => rw [← List.take_append_drop i l]
    rw [List.append_assoc]
    congr 1
    rw [hd, List.drop_drop]
  · omega

/-- Literal text of the loop start marker prefix. -/
def loopStartPat : List Char := obr :: "LOOP_START:".data

/-- Literal text of the loop end marker for a given name. -/
def loopEndPat (nm : String) : List Char := obr :: "LOOP_END:".data ++ nm.data ++ [cbr]

/-- Leftmost match of the loop-region regex: scan for the start marker,
    read the greedy identifier and its closing brace, then take the lazy
    body up to the first matching end marker.  A start marker with no
    matching end is skipped one character at a time, as the regex engine
    does.  Returns (text before the match, name, body, text after). -/
def findLoopGo : List Char → Option (List Char × String × List Char × List Char)
  | [] => none
  | c :: cs =>
    (if startsWith loopStartPat (c :: cs) then
      let afterOpen := (c :: cs).drop loopStartPat.length
      let nm := afterOpen.takeWhile isIdentChar
      let afterNm := afterOpen.dropWhile isIdentChar
      if nm.isEmpty then (findLoopGo cs).map (fun r => (c :: r.1, r.2))
      else
        match afterNm with
        | d :: rest =>
          if d = cbr then
            match findSubIdx rest (loopEndPat (String.mk nm)) with
            | some i =>
              some ([], String.mk nm, rest.take i,
                rest.drop (i + (loopEndPat (String.mk nm)).length))
            | none => (findLoopGo cs).map (fun r => (c :: r.1, r.2))
          else (findLoopGo cs).map (fun r => (c :: r.1, r.2))
        | [] => (findLoopGo cs).map (fun r => (c :: r.1, r.2))
    else (findLoopGo cs).map (fun r => (c :: r.1, r.2)))

/-- The reserved index token. -/
def indexPat : List Char := obr :: "index".data ++ [cbr]

/-- One loop entry: substitute the reserved index token, then resolve
    placeholders item-first with the outer data as fallback. -/
def renderLoopEntry (d : TemplateData) (body : List Char) (i : Nat) (item : JSValue) :
    Except JSErr String :=
  processComplexDataInLoop
    (String.mk (replaceAllSub body indexPat (toString i).data)) item d

/-- Render the entries of a loop in order, with their ordinal positions. -/
def renderEntries (d : TemplateData) (body : List Char) : Nat → List JSValue →
    Except JSErr (List String)
  | _, [] => .ok []
  | i, item :: rest => do
    let r ← renderLoopEntry d body i item
    let rs ← renderEntries d body (i + 1) rest
    pure (r :: rs)

/-- The output a matched loop region is replaced with: empty unless the
    referenced key holds a nonempty array, else the newline-joined
    renderings of its entries. -/
def loopOutput (d : TemplateData) (nm : String) (body : List Char) : Except JSErr String :=
  let loopData := jsOr (getProp d nm) (.arr [])
  match loopData with
  | .arr items =>
    if items.length > 0 then do
      let rs ← renderEntries d body 0 items
      pure (String.intercalate "\n" rs)
    else pure ""
  | _ => pure ""

/-- The rewrite-and-rescan loop of `processLoops`: replace the leftmost
    loop region and restart from the beginning, bounded by fuel (the
    JavaScript loop is unbounded; an input on which it diverges surfaces
    as fuelOut here).  The source replaces with a string value (a
    string-pattern `replace` of the matched text, whose first literal
    occurrence is the match itself), so the rendered output passes
    through GetSubstitution with no captures. -/
def processLoopsF (d : TemplateData) : Nat → List Char → Except JSErr (List Char)
  | 0, _ => .error .fuelOut
  | fuel + 1, l =>
    match findLoopGo l with
    | none => .ok l
    | some (pre, nm, body, rest) => do
      let out ← loopOutput d nm body
      processLoopsF d fuel
        (pre ++ getSubstitution
          (loopStartPat ++ (nm.data ++ cbr :: (body ++ loopEndPat nm)))
          pre rest [] out.data ++ rest)

/-- The `processLoops` private method. -/
def processLoops (d : TemplateData) (t : String) : Except JSErr String := do
  let r ← processLoopsF d (t.data.length + 1) t.data
  pure (String.mk r)

/-- The bounded do-while of `processNestedLoops`: run `processLoops`
    until a pass changes nothing or five passes have run, returning the
    input of the last pass.  The counter counts the passes still allowed
    to recurse (four after the first pass). -/
def nestedLoopsGo (d : TemplateData) : Nat → String → Except JSErr String
  | 0, current => do
    let _ ← processLoops d current
    pure current
  | left + 1, current => do
    let next ← processLoops d current
    if next ≠ current then nestedLoopsGo d left next
    else pure current

/-- The `processNestedLoops` private method. -/
def processNestedLoops (d : TemplateData) (t : String) : Except JSErr String :=
  nestedLoopsGo d 4 t

/-- Split an input at the first close angle bracket: the gt-free segment
    and what follows the bracket (the way a greedy not-gt class followed
    by a literal bracket matches). -/
def segSplit (l : List Char) : Option (List Char × List Char) :=
  match l.dropWhile (fun c => c ≠ '>') with
  | _ :: rest => some (l.takeWhile (fun c => c ≠ '>'), rest)
  | [] => none

/-- Does the open-tag segment contain an id attribute with the given
    value, under either quote style on either side. -/
def idAttrInSeg (idStr seg : List Char) : Bool :=
  containsSub seg ("id=".data ++ ['"'] ++ idStr ++ ['"']) ||
  containsSub seg ("id=".data ++ ['"'] ++ idStr ++ [apos]) ||
  containsSub seg ("id=".data ++ [apos] ++ idStr ++ ['"']) ||
  containsSub seg ("id=".data ++ [apos] ++ idStr ++ [apos])

/-- Does the open-tag segment contain a double-quoted class attribute
    whose value contains `cls` (the not-quote/token/not-quote shape of
    the source pattern). -/
def classHasToken (cls : List Char) : List Char → Bool
  | [] => false
  | c :: cs =>
    (startsWith ("class=".data ++ ['"']) (c :: cs) &&
      (let afterQ := (c :: cs).drop 7
       containsSub (afterQ.takeWhile (fun ch => ch ≠ '"')) cls &&
         afterQ.dropWhile (fun ch => ch ≠ '"') ≠ [])) ||
    classHasToken cls cs

/-- Lazy scan for a literal closing tag: number of characters consumed up
    to and including the first occurrence of `close`; without the dotall
    flag a newline before it kills the match. -/
def scanClose (close : List Char) (allowNl : Bool) : List Char → Option Nat
  | [] => none
  | c :: cs =>
    if startsWith close (c :: cs) then some close.length
    else if !allowNl && (c = '\n' || c = '\r') then none
    else (scanClose close allowNl cs).map (fun n => n + 1)

/-- Lazy scan for a generic closing tag (slash-any-gt): consumed length
    through the first close-slash pair followed eventually by a gt. -/
def scanCloseAny : List Char → Option Nat
  | [] => none
  | c :: cs =>
    (if c = '<' && startsWith ['/'] cs then
      match findSubIdx (cs.drop 1) ['>'] with
      | some i => some (2 + i + 1)
      | none => (scanCloseAny cs).map (fun n => n + 1)
    else (scanCloseAny cs).map (fun n => n + 1))

/-- Matcher for the social anchor pattern: an anchor open tag whose
    segment carries the id, through the first anchor close tag (dotall).
    Returns the matched length. -/
def tryAnchor (idStr : String) (l : List Char) : Option Nat :=
  match l with
  | '<' :: 'a' :: rest =>
    match segSplit rest with
    | some (seg, after) =>
      if idAttrInSeg idStr.data seg then
        (scanClose "</a>".data true after).map (fun n => 2 + seg.length + 1 + n)
      else none
    | none => none
  | _ => none

/-- Matcher for the container variant: any open tag carrying the id,
    through the first generic closing tag (dotall). -/
def tryAnyElem (idStr : String) (l : List Char) : Option Nat :=
  match l with
  | '<' :: rest =>
    match segSplit rest with
    | some (seg, after) =>
      if idAttrInSeg idStr.data seg then
        (scanCloseAny after).map (fun n => 1 + seg.length + 1 + n)
      else none
    | none => none
  | _ => none

/-- Matcher for a paragraph with a class containing the token, through
    the first paragraph close tag; no dotall, so the content must stay on
    one line. -/
def tryClassPara (cls : String) (l : List Char) : Option Nat :=
  match l with
  | '<' :: 'p' :: rest =>
    match segSplit rest with
    | some (seg, after) =>
      if classHasToken cls.data seg then
        (scanClose "</p>".data false after).map (fun n => 2 + seg.length + 1 + n)
      else none
    | none => none
  | _ => none

/-- Matcher for a paragraph carrying a given id, through the first
    paragraph close tag; no dotall. -/
def tryIdPara (idStr : String) (l : List Char) : Option Nat :=
  match l with
  | '<' :: 'p' :: rest =>
    match segSplit rest with
    | some (seg, after) =>
      if idAttrInSeg idStr.data seg then
        (scanClose "</p>".data false after).map (fun n => 2 + seg.length + 1 + n)
      else none
    | none => none
  | _ => none

/-- Global removal: scan left to right, delete each leftmost match and
    continue after it (replacements are the empty string and are not
    rescanned within one pass); structurally fueled. -/
def scanRemoveGo (tm : List Char → Option Nat) : Nat → List Char → List Char
  | 0, _ => []
  | _, [] => []
  | fuel + 1, c :: cs =>
    match tm (c :: cs) with
    | some n =>
      if n = 0 then c :: scanRemoveGo tm fuel cs
      else scanRemoveGo tm fuel ((c :: cs).drop n)
    | none => c :: scanRemoveGo tm fuel cs

/-- Fuel wrapper for the removal scanner. -/
def scanRemove (tm : List Char → Option Nat) (l : List Char) : List Char :=
  scanRemoveGo tm (l.length + 1) l

/-- The social link table of `processConditionalElements`. -/
def socialMediaFields : List (String × String) :=
  [("instagramLink", "instagram"), ("tikTokLink", "tiktok"),
   ("facebookLink", "facebook"), ("linkedInLink", "linkedin"),
   ("dribbbleLink", "dribbble"), ("youtubeLink", "youtube"),
   ("slackLink", "slack"), ("vimeoLink", "vimeo"),
   ("emailLink", "email"), ("callLink", "call"), ("textLink", "sms")]

/-- The resolved value of one social field: direct key, then the
    socialMedia sub-object under two casing conventions, then the empty
    string (the or-chain of the source, left associated). -/
def socialFieldValue (d : TemplateData) (fld : String) : JSValue :=
  let sm := getProp d "socialMedia"
  jsOr
    (jsOr
      (jsOr (getProp d fld)
        (jsAnd sm (jsGetProp sm (String.mk (replaceFirstSub fld.data "Link".data [])))))
      (jsAnd sm (jsGetProp sm (String.mk (replaceFirstSub (lowerChars fld.data) "link".data [])))))
    (.str "")

/-- One iteration of the social-link removal loop. -/
def condSocialStep (d : TemplateData) (acc : List Char) (fld id : String) :
    Except JSErr (List Char) := do
  let b ← falsyOrTrimEq (socialFieldValue d fld) ""
  if b then
    pure (scanRemove (tryAnyElem id) (scanRemove (tryAnchor id) acc))
  else pure acc

/-- The typeof-object test of JavaScript (objects, arrays and null). -/
def jsTypeofObject : JSValue → Bool
  | .obj _ => true
  | .arr _ => true
  | .null => true
  | _ => false

/-- The `processConditionalElements` private method: social links by id,
    then the phone, website, address and title elements. -/
def processConditionalElements (d : TemplateData) (t : String) : Except JSErr String := do
  let l₁ ← socialMediaFields.foldlM
    (fun acc p => condSocialStep d acc p.1 p.2) t.data
  let bPhone ← falsyOrTrimEq (getProp d "phone") ""
  let l₂ := if bPhone then scanRemove (tryClassPara "phone") l₁ else l₁
  let bWeb ← falsyOrTrimEq (getProp d "website") ""
  let l₃ := if bWeb then scanRemove (tryClassPara "website") l₂ else l₂
  let a := getProp d "address"
  let l₄ :=
    if !jsTruthy a || (jsTypeofObject a && !jsTruthy (jsGetProp a "streetAddress1")) then
      scanRemove (tryClassPara "address") l₃
    else l₃
  let bTitle ← falsyOrTrimEq (getProp d "title") ""
  let l₅ := if bTitle then scanRemove (tryIdPara "title") l₄ else l₄
  pure (String.mk l₅)

/-- Match the tail every section marker shares after its name: mandatory
    whitespace, the word section, optional whitespace, the comment close.
    Deterministic because the literals after each whitespace run start
    with non-whitespace.  Returns the consumed length. -/
def sectTail (l : List Char) : Option Nat :=
  let w := l.takeWhile isSpaceChar
  if w = [] then none
  else
    let l1 := l.dropWhile isSpaceChar
    if startsWith "section".data l1 then
      let l2 := l1.drop 7
      let w2 := l2.takeWhile isSpaceChar
      if startsWith "-->".data (l2.dropWhile isSpaceChar) then
        some (w.length + 7 + w2.length + 3)
      else none
    else none

/-- Match a closing section marker with the captured raw name at the head
    of the input; returns its length. -/
def closingAt (nm : List Char) (l : List Char) : Option Nat :=
  if startsWith "<!--".data l then
    let r := l.drop 4
    let w := (r.takeWhile isSpaceChar).length
    let r1 := r.drop w
    if startsWith "End".data r1 then
      let r2 := r1.drop 3
      if startsWith nm r2 then
        (sectTail (r2.drop nm.length)).map (fun t => 4 + w + 3 + nm.length + t)
      else none
    else none
  else none

/-- Lazy search for the closing marker: index of the first position where
    it matches, with its length there. -/
def findClosing (nm : List Char) : List Char → Option (Nat × Nat)
  | [] => none
  | c :: cs =>
    match closingAt nm (c :: cs) with
    | some cl => some (0, cl)
    | none => (findClosing nm cs).map (fun r => (r.1 + 1, r.2))

/-- The lazy-name loop of the section-open matcher: grow the candidate
    name one character at a time (the name class excludes the close angle
    bracket, so a candidate holding one stops the search); a candidate is
    accepted only if the shared tail matches after it and a closing
    marker for the captured name exists later.  Returns the raw name, the
    consumed length after the whitespace, the content length and the
    closing-marker length. -/
def sectNameGo : List Char → List Char → Option (List Char × Nat × Nat × Nat)
  | _, [] => none
  | nmAcc, c :: rest =>
    if nmAcc.any (fun ch => ch = '>') then none
    else
      match sectTail (c :: rest) with
      | some t =>
        (match findClosing nmAcc ((c :: rest).drop t) with
         | some (ci, cl) => some (nmAcc, nmAcc.length + t, ci, cl)
         | none => sectNameGo (nmAcc ++ [c]) rest)
      | none => sectNameGo (nmAcc ++ [c]) rest

/-- The name loop started at one whitespace offset: the candidate is the
    first character, the search extends it rightward. -/
def sectAtWs (rest : List Char) (w : Nat) : Option (Nat × List Char × Nat × Nat × Nat) :=
  match rest.drop w with
  | [] => none
  | c :: r2 => (sectNameGo [c] r2).map (fun r => (w, r))

/-- The greedy-whitespace loop of the section-open matcher: try the
    whitespace run length from the maximum down to zero, with the lazy
    name loop under each. -/
def sectWsLoop (rest : List Char) : Nat → Option (Nat × List Char × Nat × Nat × Nat)
  | 0 => sectAtWs rest 0
  | w + 1 =>
    match sectAtWs rest (w + 1) with
    | some r => some r
    | none => sectWsLoop rest w

/-- Match a whole section region at the head of the input: raw captured
    name, content, and full matched length. -/
def matchSectionAt (l : List Char) : Option (List Char × List Char × Nat) :=
  if startsWith "<!--".data l then
    let rest := l.drop 4
    match sectWsLoop rest (rest.takeWhile isSpaceChar).length with
    | some (w, nm, nt, ci, cl) =>
      some (nm, ((rest.drop w).drop nt).take ci, 4 + w + nt + ci + cl)
    | none => none
  else none

/-- Leftmost section-region match: text before it, raw name, content, and
    text after the whole match. -/
def findSection : List Char → Option (List Char × List Char × List Char × List Char)
  | [] => none
  | c :: cs =>
    match matchSectionAt (c :: cs) with
    | some (nm, content, n) => some ([], nm, content, (c :: cs).drop n)
    | none => (findSection cs).map (fun r => (c :: r.1, r.2))

/-- All placeholder token bodies of a text, in order (the matchAll of the
    generic rule of `shouldRemoveSection`); structurally fueled. -/
def listTokensGo : Nat → List Char → List String
  | 0, _ => []
  | _, [] => []
  | fuel + 1, c :: cs =>
    if c = obr then
      match tokenAt cs with
      | some (nm, rest) => nm :: listTokensGo fuel rest
      | none => listTokensGo fuel cs
    else listTokensGo fuel cs

/-- Fuel wrapper for the token lister. -/
def listTokens (l : List Char) : List String :=
  listTokensGo (l.length + 1) l

/-- The generic fallback of `shouldRemoveSection`: some referenced
    non-index key the data owns has a null, undefined, empty-string or
    empty-array value. -/
def genericEmptyCheck (d : TemplateData) (tokens : List String) : Bool :=
  tokens.any (fun nm =>
    nm ≠ "index" && hasOwnData d nm &&
      (match getProp d nm with
       | .null => true
       | .undefined => true
       | .str s => s = ""
       | .arr xs => xs.isEmpty
       | _ => false))

/-- The some-loop of the socials rule: a field with a non-blank value,
    looked up directly or under the socialMedia sub-object. -/
def socialsSomeCheck (d : TemplateData) : List String → Except JSErr Bool
  | [] => pure false
  | f :: fs => do
    let sm := getProp d "socialMedia"
    let v := jsOr
      (jsOr (getProp d f)
        (jsAnd sm (jsGetProp sm (String.mk (replaceFirstSub f.data "Link".data [])))))
      (.str "")
    let b ← (if jsTruthy v then do
        let t ← jsTrim v
        pure (t != "")
      else pure false)
    if b then pure true else socialsSomeCheck d fs

/-- The field list of the socials rule. -/
def socialsRuleFields : List String :=
  ["instagramLink", "tikTokLink", "facebookLink", "linkedInLink",
   "dribbbleLink", "youtubeLink", "slackLink", "vimeoLink", "emailLink",
   "callLink", "textLink"]

/-- The `shouldRemoveSection` private method: the fixed name-keyed rule
    table in source order, then the generic empty-value fallback. -/
def shouldRemoveSection (sectionName : List Char) (sectionContent : List Char)
    (d : TemplateData) : Except JSErr Bool :=
  let lower := lowerChars sectionName
  if containsSub lower "about me".data then
    falsyOrTrimEq (getProp d "aboutMeText") ""
  else if containsSub lower "logo".data then
    pure (!jsTruthy (getProp d "businessLogo"))
  else if containsSub lower "services".data then
    falsyOrTrimEq (getProp d "service") ""
  else if containsSub lower "reviews".data then
    let r := getProp d "reviews"
    pure (!jsTruthy r || (match r with | .arr xs => xs.isEmpty | _ => false))
  else if containsSub lower "buttons".data || containsSub lower "custom buttons".data then
    let r := getProp d "customButtons"
    pure (!jsTruthy r || (match r with | .arr xs => xs.isEmpty | _ => false))
  else if containsSub lower "contact info".data then
    pure false
  else if containsSub lower "socials".data || containsSub lower "social".data then do
    let b ← socialsSomeCheck d socialsRuleFields
    pure (!b)
  else
    pure (genericEmptyCheck d (listTokens sectionContent))

/-- The rewrite-and-rescan loop of `removeEmptySections`: replace the
    leftmost section (dropped entirely, or kept with the content spliced
    over the whole match) and restart, bounded by fuel.  The keep branch
    is a string-pattern `replace` of the matched text (whose first
    literal occurrence is the match itself) by the string-valued content,
    so the content passes through GetSubstitution with no captures; the
    matched text is recovered from the decomposition as the middle of the
    input between `pre` and `rest`. -/
def removeEmptySectionsF (d : TemplateData) : Nat → List Char → Except JSErr (List Char)
  | 0, _ => .error .fuelOut
  | fuel + 1, l =>
    match findSection l with
    | none => .ok l
    | some (pre, nm, content, rest) => do
      let rm ← shouldRemoveSection (trimChars nm) content d
      if rm then removeEmptySectionsF d fuel (pre ++ rest)
      else
        removeEmptySectionsF d fuel
          (pre ++ getSubstitution
            ((l.drop pre.length).take (l.length - pre.length - rest.length))
            pre rest [] content ++ rest)

/-- The `removeEmptySections` private method. -/
def removeEmptySections (d : TemplateData) (t : String) : Except JSErr String := do
  let r ← removeEmptySectionsF d (t.data.length + 1) t.data
  pure (String.mk r)

/-- Match a block open marker at the head of the input: comment open,
    optional whitespace, the BLOCK prefix, a nonempty greedy identifier,
    optional whitespace, comment close.  Returns the identifier and the
    consumed length. -/
def blockOpenAt (l : List Char) : Option (List Char × Nat) :=
  if startsWith "<!--".data l then
    let r := l.drop 4
    let w := (r.takeWhile isSpaceChar).length
    let r1 := r.drop w
    if startsWith "BLOCK:".data r1 then
      let r2 := r1.drop 6
      let nm := r2.takeWhile isIdentChar
      if nm = [] then none
      else
        let r3 := r2.drop nm.length
        let w2 := (r3.takeWhile isSpaceChar).length
        if startsWith "-->".data (r3.drop w2) then
          some (nm, 4 + w + 6 + nm.length + w2 + 3)
        else none
    else none
  else none

/-- Match a block close marker with the given identifier at the head of
    the input; returns its length. -/
def blockCloseAt (nm : List Char) (l : List Char) : Option Nat :=
  if startsWith "<!--".data l then
    let r := l.drop 4
    let w := (r.takeWhile isSpaceChar).length
    let r1 := r.drop w
    if startsWith "ENDBLOCK:".data r1 then
      let r2 := r1.drop 9
      if startsWith nm r2 then
        let r3 := r2.drop nm.length
        let w2 := (r3.takeWhile isSpaceChar).length
        if startsWith "-->".data (r3.drop w2) then
          some (4 + w + 9 + nm.length + w2 + 3)
        else none
      else none
    else none
  else none

/-- First position at which a matcher fires, with the matched length. -/
def findFirstMatch (m : List Char → Option Nat) : List Char → Option (Nat × Nat)
  | [] => none
  | c :: cs =>
    match m (c :: cs) with
    | some n => some (0, n)
    | none => (findFirstMatch m cs).map (fun r => (r.1 + 1, r.2))

theorem blockOpenAt_pos {l : List Char} {nm : List Char} {n : Nat}
    (h : blockOpenAt l = some (nm, n)) : 1 ≤ n := by
  unfold blockOpenAt at h
  split at h
  · dsimp only at h
    split at h
    · split at h
      · simp at h
      · split at h
        · simp at h
          omega
        · simp at h
    · simp at h
  · simp at h

/-- Leftmost whole block region: identifier, content, and the text after
    the region (the exec step of block extraction). -/
def findBlock : List Char → Option (String × List Char × List Char)
  | [] => none
  | c :: cs =>
    match blockOpenAt (c :: cs) with
    | some (nm, ol) =>
      (match findFirstMatch (blockCloseAt nm) ((c :: cs).drop ol) with
       | some (ci, cl) =>
         some (String.mk nm, ((c :: cs).drop ol).take ci, ((c :: cs).drop ol).drop (ci + cl))
       | none => findBlock cs)
    | none => findBlock cs

theorem findBlock_rest_lt :
    ∀ {l : List Char} {nm : String} {content rest : List Char},
      findBlock l = some (nm, content, rest) → rest.length < l.length := by
  intro l
  induction l with
  | nil => intro nm content rest h; simp [findBlock] at h
  | cons c cs ih =>
    intro nm content rest h
    unfold findBlock at h
    cases hop : blockOpenAt (c :: cs) with
    | none =>
      rw [hop] at h
      exact Nat.lt_succ_of_lt (ih h)
    | some r =>
      obtain ⟨nm0, ol⟩ := r
      rw [hop] at h
      dsimp only at h
      cases hcl : findFirstMatch (blockCloseAt nm0) ((c :: cs).drop ol) with
      | none =>
        rw [hcl] at h
        exact Nat.lt_succ_of_lt (ih h)
      | some p =>
        obtain ⟨ci, cl⟩ := p
        rw [hcl] at h
        simp only [Option.some.injEq, Prod.mk.injEq] at h
        obtain ⟨-, -, hrest⟩ := h
        have hol := blockOpenAt_pos hop
        have h1 : rest.length = ((c :: cs).drop ol).length - (ci + cl) := by
          rw [← hrest]; simp [Nat.sub_sub]
        simp only [List.length_drop, List.length_cons] at h1
        simp only [List.length_cons]
        omega

/-- Repeated exec of the block regex: every block region in order;
    structurally fueled (each match ends strictly later, so fuel above
    the length is never exhausted). -/
def extractBlocksGo : Nat → List Char → List (String × List Char)
  | 0, _ => []
  | fuel + 1, l =>
    match findBlock l with
    | some (nm, content, rest) => (nm, content) :: extractBlocksGo fuel rest
    | none => []

/-- Fuel wrapper for block extraction. -/
def extractBlocks (l : List Char) : List (String × List Char) :=
  extractBlocksGo (l.length + 1) l

/-- JS object write `m[k] = v`: overwrite in place or append. -/
def upsert (m : List (String × List Char)) (k : String) (v : List Char) :
    List (String × List Char) :=
  match m with
  | [] => [(k, v)]
  | (k', v') :: rest => if k' = k then (k', v) :: rest else (k', v') :: upsert rest k v

/-- The blocks record, built in first-appearance order. -/
def collectBlocks (l : List Char) : List (String × List Char) :=
  (extractBlocks l).foldl (fun m p => upsert m p.1 p.2) []

/-- Read `blocks[k]`. -/
def lookupBlocks (m : List (String × List Char)) (k : String) : Option (List Char) :=
  (List.find? (fun kv => kv.1 = k) m).map (fun kv => kv.2)

/-- Truthiness of `blocks[k]` (present and nonempty content). -/
def blockTruthy (m : List (String × List Char)) (k : String) : Bool :=
  match lookupBlocks m k with
  | some c => c ≠ []
  | none => false

/-- One swap of two block content payloads, guarded by the truthiness of
    both current contents, as in the source. -/
def swapBlocks (m : List (String × List Char)) (b1 b2 : String) :
    List (String × List Char) :=
  if blockTruthy m b1 && blockTruthy m b2 then
    let t := (lookupBlocks m b1).getD []
    upsert (upsert m b1 ((lookupBlocks m b2).getD [])) b2 t
  else m

/-- Match an inline swap directive at the head of the input: the SWAP
    token with two nonempty identifiers.  Returns both identifiers and
    the consumed length. -/
def swapAt (l : List Char) : Option (String × String × Nat) :=
  if startsWith (obr :: "SWAP:".data) l then
    let r := l.drop 6
    let a := r.takeWhile isIdentChar
    if a = [] then none
    else
      match r.drop a.length with
      | ':' :: r2 =>
        let b := r2.takeWhile isIdentChar
        if b = [] then none
        else
          match r2.drop b.length with
          | d :: _ =>
            if d = cbr then some (String.mk a, String.mk b, 6 + a.length + 1 + b.length + 1)
            else none
          | [] => none
      | _ => none
  else none

/-- All inline swap directives, in order (matchAll); structurally
    fueled. -/
def collectSwapsGo : Nat → List Char → List (String × String)
  | 0, _ => []
  | _, [] => []
  | fuel + 1, c :: cs =>
    match swapAt (c :: cs) with
    | some (a, b, n) =>
      if n = 0 then collectSwapsGo fuel cs
      else (a, b) :: collectSwapsGo fuel ((c :: cs).drop n)
    | none => collectSwapsGo fuel cs

/-- Fuel wrapper for the swap-directive collector. -/
def collectSwaps (l : List Char) : List (String × String) :=
  collectSwapsGo (l.length + 1) l

/-- Global replace of a matcher by a constant replacement (the
    replacement is not rescanned); structurally fueled. -/
def scanReplaceGo (tm : List Char → Option Nat) (rep : List Char) : Nat → List Char → List Char
  | 0, _ => []
  | _, [] => []
  | fuel + 1, c :: cs =>
    match tm (c :: cs) with
    | some n =>
      if n = 0 then c :: scanReplaceGo tm rep fuel cs
      else rep ++ scanReplaceGo tm rep fuel ((c :: cs).drop n)
    | none => c :: scanReplaceGo tm rep fuel cs

/-- Fuel wrapper for the constant-replacement scanner. -/
def scanReplace (tm : List Char → Option Nat) (rep : List Char) (l : List Char) : List Char :=
  scanReplaceGo tm rep (l.length + 1) l

/-- Global replace of a matcher by a string replacement value: as
    `scanReplaceGo`, but the replacement passes through GetSubstitution
    at each match, with the text before and after the match taken
    relative to the whole string the replace ran on (`pre` accumulates
    the part already scanned). -/
def scanReplaceSubGo (tm : List Char → Option Nat) (rep : List Char) :
    Nat → List Char → List Char → List Char
  | 0, _, _ => []
  | _, _, [] => []
  | fuel + 1, pre, c :: cs =>
    match tm (c :: cs) with
    | some n =>
      if n = 0 then c :: scanReplaceSubGo tm rep fuel (pre ++ [c]) cs
      else
        getSubstitution ((c :: cs).take n) pre ((c :: cs).drop n) [] rep ++
          scanReplaceSubGo tm rep fuel (pre ++ (c :: cs).take n) ((c :: cs).drop n)
    | none => c :: scanReplaceSubGo tm rep fuel (pre ++ [c]) cs

/-- Fuel wrapper for the substituting-replacement scanner. -/
def scanReplaceSub (tm : List Char → Option Nat) (rep : List Char) (l : List Char) :
    List Char :=
  scanReplaceSubGo tm rep (l.length + 1) [] l

/-- One data-supplied swap entry: reading from and to throws on a null or
    undefined entry; the keys are coerced to strings. -/
def dataSwapStep (m : List (String × List Char)) (sw : JSValue) :
    Except JSErr (List (String × List Char)) :=
  match sw with
  | .null => .error (.typeError "Cannot read properties of null")
  | .undefined => .error (.typeError "Cannot read properties of undefined")
  | _ =>
    pure (swapBlocks m (jsToString (jsGetProp sw "from")) (jsToString (jsGetProp sw "to")))

/-- Match a reorder container open marker at the head of the input. -/
def reorderOpenAt (l : List Char) : Option Nat :=
  if startsWith "<!--".data l then
    let r := l.drop 4
    let w := (r.takeWhile isSpaceChar).length
    let r1 := r.drop w
    if startsWith "REORDER".data r1 then
      let r2 := r1.drop 7
      let w2 := (r2.takeWhile isSpaceChar).length
      if startsWith "-->".data (r2.drop w2) then some (4 + w + 7 + w2 + 3)
      else none
    else none
  else none

/-- Match a reorder container close marker at the head of the input. -/
def reorderCloseAt (l : List Char) : Option Nat :=
  if startsWith "<!--".data l then
    let r := l.drop 4
    let w := (r.takeWhile isSpaceChar).length
    let r1 := r.drop w
    if startsWith "ENDREORDER".data r1 then
      let r2 := r1.drop 10
      let w2 := (r2.takeWhile isSpaceChar).length
      if startsWith "-->".data (r2.drop w2) then some (4 + w + 10 + w2 + 3)
      else none
    else none
  else none

/-- Match a whole reorder container (lazy content) at the head of the
    input; returns the full matched length. -/
def tryReorderSpan (l : List Char) : Option Nat :=
  match reorderOpenAt l with
  | some ol =>
    (findFirstMatch reorderCloseAt (l.drop ol)).map (fun r => ol + r.1 + r.2)
  | none => none

/-- Match a whole block region for one literal identifier at the head of
    the input (the per-block replacement regex); the greedy identifier
    capture makes the literal pattern equivalent to an equality check on
    the maximal identifier run. -/
def tryBlockSpan (nm : String) (l : List Char) : Option Nat :=
  match blockOpenAt l with
  | some (nm', ol) =>
    if String.mk nm' = nm then
      (findFirstMatch (blockCloseAt nm') (l.drop ol)).map (fun r => ol + r.1 + r.2)
    else none
  | none => none

/-- Content a reorder container is replaced with: the listed blocks'
    current contents concatenated in list order, skipping identifiers
    whose content is absent or empty. -/
def reorderContent (m : List (String × List Char)) (order : List JSValue) : List Char :=
  order.foldl
    (fun acc v =>
      let k := jsToString v
      if blockTruthy m k then acc ++ (lookupBlocks m k).getD [] else acc)
    []

/-- The `processLayoutReordering` private method: extract blocks, apply
    inline swaps and erase their directives, apply data-supplied swaps,
    splice the reorder container when a layout order is supplied (a
    function-valued replace, so no dollar substitution), then replace
    every remaining block region with its current content — a
    string-valued replace against the capture-free block-marker regex,
    so each block content passes through GetSubstitution. -/
def processLayoutReordering (d : TemplateData) (t : String) : Except JSErr String := do
  let l := t.data
  let blocks0 := collectBlocks l
  let swaps := collectSwaps l
  let blocks1 := swaps.foldl (fun m p => swapBlocks m p.1 p.2) blocks0
  let working1 :=
    if swaps.isEmpty then l
    else scanReplace (fun u => (swapAt u).map (fun r => r.2.2)) [] l
  let blocks2 ←
    match getProp d "swaps" with
    | .arr sws => sws.foldlM dataSwapStep blocks1
    | _ => pure blocks1
  let working2 :=
    match getProp d "layoutOrder" with
    | .arr order => scanReplace tryReorderSpan (reorderContent blocks2 order) working1
    | _ => working1
  let working3 := blocks2.foldl
    (fun w p => scanReplaceSub (tryBlockSpan p.1) p.2 w) working2
  pure (String.mk working3)

/-- Index of the last newline of a list, if any. -/
def lastNewlineIdx (l : List Char) : Option Nat :=
  (findSubIdx l.reverse ['\n']).map (fun i => l.length - 1 - i)

/-- First cleanup pass: the blank-run collapse regex (newline, blanks,
    newline, blanks, newline — greedy, so a run with three or more
    newlines matches from its first through its last newline) replaced
    globally by two newlines. -/
def cleanupPass1Go : Nat → List Char → List Char
  | 0, _ => []
  | _, [] => []
  | fuel + 1, c :: cs =>
    if c = '\n' then
      let run := (c :: cs).takeWhile isSpaceChar
      if run.countP (fun ch => ch = '\n') ≥ 3 then
        match lastNewlineIdx run with
        | some k => '\n' :: '\n' :: cleanupPass1Go fuel ((c :: cs).drop (k + 1))
        | none => c :: cleanupPass1Go fuel cs
      else c :: cleanupPass1Go fuel cs
    else c :: cleanupPass1Go fuel cs

/-- Fuel wrapper for the blank-run collapse. -/
def cleanupPass1 (l : List Char) : List Char :=
  cleanupPass1Go (l.length + 1) l

/-- Second cleanup pass: strip a trailing whitespace run. -/
def cleanupPass2 (l : List Char) : List Char :=
  (l.reverse.dropWhile isSpaceChar).reverse

/-- The `cleanupTemplate` private method. -/
def cleanupTemplate (t : String) : String :=
  String.mk (cleanupPass2 (cleanupPass1 t.data))

/-- Constructor options (delimiters are fixed to the default brace pair
    here; every claim uses the default, and the source splices the
    delimiter strings textually into its regexes, so only the default is
    given a regex semantics). -/
structure TemplateOptions where
  removeEmptySections : Bool := true
  processLoops : Bool := true
  processPlaceholders : Bool := true

/-- The defaulted options of a bare constructor call. -/
def defaultOptions : TemplateOptions := {}

/-- The `processAdvancedStructures` private method. -/
def processAdvancedStructures (opts : TemplateOptions) (d : TemplateData) (t : String) :
    Except JSErr String := do
  let r1 ← if opts.processLoops then processNestedLoops d t else pure t
  processConditionalElements d r1

/-- The public `process` method: loops, placeholders, advanced
    structures, layout, section pruning, cleanup — in source order. -/
def process (opts : TemplateOptions) (t : String) (d : TemplateData) :
    Except JSErr String := do
  let s1 ← if opts.processLoops then processLoops d t else pure t
  let s2 := if opts.processPlaceholders then replacePlaceholders d s1 else s1
  let s3 ← processAdvancedStructures opts d s2
  let s4 ← processLayoutReordering d s3
  let s5 ← if opts.removeEmptySections then removeEmptySections d s4 else pure s4
  pure (cleanupTemplate s5)

/-- Case-insensitive ASCII prefix test. -/
def startsWithCI : List Char → List Char → Bool
  | [], _ => true
  | _ :: _, [] => false
  | p :: ps, c :: cs => p.toLower = c.toLower && startsWithCI ps cs

/-- Lazy case-insensitive scan for a literal closing tag; consumed length
    through its first occurrence, newline-fatal without dotall. -/
def scanCloseCI (close : List Char) (allowNl : Bool) : List Char → Option Nat
  | [] => none
  | c :: cs =>
    if startsWithCI close (c :: cs) then some close.length
    else if !allowNl && (c = '\n' || c = '\r') then none
    else (scanCloseCI close allowNl cs).map (fun n => n + 1)

/-- Matcher for one tag pair of the markdown converter: open tag with any
    attributes, single-line lazy content, case-insensitive close tag.
    Returns the content capture and the matched length. -/
def tryTagPair (tag : String) (l : List Char) : Option (List Char × Nat) :=
  match l with
  | '<' :: rest =>
    if startsWithCI tag.data rest then
      let afterNm := rest.drop tag.length
      match segSplit afterNm with
      | some (seg, after) =>
        (scanCloseCI ("</".data ++ tag.data ++ [ '>' ]) false after).map
          (fun n => (after.take (n - (tag.length + 3)), 1 + tag.length + seg.length + 1 + n))
      | none => none
    else none
  | _ => none

/-- Matcher for a bare open tag (the ul-open removal). -/
def tryOpenTag (tag : String) (l : List Char) : Option Nat :=
  match l with
  | '<' :: rest =>
    if startsWithCI tag.data rest then
      (segSplit (rest.drop tag.length)).map (fun r => 1 + tag.length + r.1.length + 1)
    else none
  | _ => none

/-- Matcher for a case-insensitive literal. -/
def tryLitCI (pat : List Char) (l : List Char) : Option Nat :=
  if startsWithCI pat l then some pat.length else none

/-- Global replace by a match-dependent replacement; structurally
    fueled. -/
def scanReplaceFGo (tm : List Char → Option (List Char × Nat)) : Nat → List Char → List Char
  | 0, _ => []
  | _, [] => []
  | fuel + 1, c :: cs =>
    match tm (c :: cs) with
    | some (rep, n) =>
      if n = 0 then c :: scanReplaceFGo tm fuel cs
      else rep ++ scanReplaceFGo tm fuel ((c :: cs).drop n)
    | none => c :: scanReplaceFGo tm fuel cs

/-- Fuel wrapper for the match-dependent replacement scanner. -/
def scanReplaceF (tm : List Char → Option (List Char × Nat)) (l : List Char) : List Char :=
  scanReplaceFGo tm (l.length + 1) l

/-- All case-insensitive occurrence indices of a pattern. -/
def findAllCI (pat : List Char) : List Char → List Nat :=
  go 0
where
  go (i : Nat) : List Char → List Nat
    | [] => []
    | c :: cs =>
      if startsWithCI pat (c :: cs) then i :: go (i + 1) cs
      else go (i + 1) cs

/-- Is a character one of the two quote kinds. -/
def isQuote (c : Char) : Bool := c = '"' || c = apos

/-- Try one candidate href position for the anchor-to-markdown matcher:
    quote, quote-free url, quote, rest of the open tag to its bracket,
    then single-line lazy content to the close tag. -/
def tryLinkAt (afterA : List Char) (i : Nat) : Option (List Char × Nat) :=
  match afterA.drop (i + 5) with
  | q1 :: r1 =>
    if isQuote q1 then
      let url := r1.takeWhile (fun c => !isQuote c)
      match r1.drop url.length with
      | q2 :: r2 =>
        if isQuote q2 then
          match segSplit r2 with
          | some (seg2, after2) =>
            (scanCloseCI "</a>".data false after2).map (fun n =>
              let content := after2.take (n - 4)
              ('[' :: content ++ ']' :: '(' :: url ++ [')'],
                2 + i + 5 + 1 + url.length + 1 + seg2.length + 1 + n))
          | none => none
        else none
      | [] => none
    else none
  | [] => none

/-- Backtracking over candidate positions, greedy order (last first). -/
def tryCands (f : Nat → Option (List Char × Nat)) : List Nat → Option (List Char × Nat)
  | [] => none
  | i :: is =>
    match f i with
    | some r => some r
    | none => tryCands f is

/-- Matcher for the anchor-to-markdown rule: open anchor tag holding an
    href attribute after at least one character, turned into a markdown
    link.  The greedy prefix class makes the engine try the last href
    occurrence of the bracket-free span first. -/
def tryLink (l : List Char) : Option (List Char × Nat) :=
  match l with
  | '<' :: rest =>
    if startsWithCI ['a'] rest then
      let afterA := rest.drop 1
      let seg := afterA.takeWhile (fun c => c ≠ '>')
      let cands := (findAllCI "href=".data seg).filter (fun i => 1 ≤ i && i + 5 ≤ seg.length)
      tryCands (tryLinkAt afterA) cands.reverse
    else none
  | _ => none

/-- Try one candidate pair of src and alt positions for the image rule. -/
def tryImgAt (afterImg : List Char) (i : Nat) : Option (List Char × Nat) :=
  match afterImg.drop (i + 4) with
  | q1 :: r1 =>
    if isQuote q1 then
      let url := r1.takeWhile (fun c => !isQuote c)
      match r1.drop url.length with
      | q2 :: r2 =>
        if isQuote q2 then
          let seg2 := r2.takeWhile (fun c => c ≠ '>')
          let cands2 := (findAllCI "alt=".data seg2).filter (fun j => j + 4 ≤ seg2.length)
          tryCands
            (fun j =>
              match r2.drop (j + 4) with
              | q3 :: r3 =>
                if isQuote q3 then
                  let alt := r3.takeWhile (fun c => !isQuote c)
                  match r3.drop alt.length with
                  | q4 :: r4 =>
                    if isQuote q4 then
                      match segSplit r4 with
                      | some (seg3, _) =>
                        some ('!' :: '[' :: alt ++ ']' :: '(' :: url ++ [')'],
                          4 + i + 4 + 1 + url.length + 1 + j + 4 + 1 + alt.length + 1 +
                            seg3.length + 1)
                      | none => none
                    else none
                  | [] => none
                else none
              | [] => none)
            cands2.reverse
        else none
      | [] => none
    else none
  | [] => none

/-- Matcher for the image-to-markdown rule: an img tag with src then alt
    attributes, optionally self-closed. -/
def tryImg (l : List Char) : Option (List Char × Nat) :=
  match l with
  | '<' :: rest =>
    if startsWithCI "img".data rest then
      let afterImg := rest.drop 3
      let seg := afterImg.takeWhile (fun c => c ≠ '>')
      let cands := (findAllCI "src=".data seg).filter (fun i => 1 ≤ i && i + 4 ≤ seg.length)
      tryCands (tryImgAt afterImg) cands.reverse
    else none
  | _ => none

/-- The `htmlToMarkdown` private method: the source's chain of global
    replaces in order, then the blank-run collapse. -/
def htmlToMarkdown (t : String) : String :=
  let step := fun (l : List Char) (tag : String) (mk : List Char → List Char) =>
    scanReplaceF (fun u => (tryTagPair tag u).map (fun r => (mk r.1, r.2))) l
  let l0 := t.data
  let l1 := step l0 "h1" (fun c => '#' :: ' ' :: c)
  let l2 := step l1 "h2" (fun c => '#' :: '#' :: ' ' :: c)
  let l3 := step l2 "h3" (fun c => '#' :: '#' :: '#' :: ' ' :: c)
  let l4 := step l3 "p" (fun c => c ++ ['\n', '\n'])
  let l5 := scanReplace (tryOpenTag "ul") [] l4
  let l6 := scanReplace (tryLitCI "</ul>".data) ['\n'] l5
  let l7 := step l6 "li" (fun c => '-' :: ' ' :: c ++ ['\n'])
  let l8 := step l7 "strong" (fun c => '*' :: '*' :: c ++ ['*', '*'])
  let l9 := step l8 "b" (fun c => '*' :: '*' :: c ++ ['*', '*'])
  let l10 := step l9 "em" (fun c => '*' :: c ++ ['*'])
  let l11 := step l10 "i" (fun c => '*' :: c ++ ['*'])
  let l12 := scanReplaceF tryLink l11
  let l13 := scanReplaceF tryImg l12
  String.mk (cleanupPass1 l13)

/-- Matcher for any tag (the strip-tags pass of `htmlToText`). -/
def tryTag (l : List Char) : Option Nat :=
  match l with
  | '<' :: rest => (segSplit rest).map (fun r => 1 + r.1.length + 1)
  | _ => none

/-- Global whitespace-run collapse to one space; structurally fueled. -/
def wsCollapseGo : Nat → List Char → List Char
  | 0, _ => []
  | _, [] => []
  | fuel + 1, c :: cs =>
    if isSpaceChar c then ' ' :: wsCollapseGo fuel (cs.dropWhile isSpaceChar)
    else c :: wsCollapseGo fuel cs

/-- Fuel wrapper for the whitespace collapse. -/
def wsCollapse (l : List Char) : List Char :=
  wsCollapseGo (l.length + 1) l

/-- The `htmlToText` private method: strip tags, collapse whitespace,
    trim. -/
def htmlToText (t : String) : String :=
  String.mk (trimChars (wsCollapse (scanRemove tryTag t.data)))

/-- Tree nodes of the structured export. -/
inductive HNode where
  | text (content : String)
  | element (tag : String) (attrs : List (String × String)) (children : List HNode)

/-- Attribute-map write, last assignment wins. -/
def upsertAttr (m : List (String × String)) (k v : String) : List (String × String) :=
  match m with
  | [] => [(k, v)]
  | (k', v') :: rest => if k' = k then (k', v) :: rest else (k', v') :: upsertAttr rest k v

/-- Character class of attribute and tag names. -/
def isNameChar (c : Char) : Bool := c.isAlphanum || c = '-'

/-- Match one name-equals-quoted-value attribute at the head. -/
def tryAttr (l : List Char) : Option (String × String × Nat) :=
  match l with
  | c :: cs =>
    if isNameChar c then
      let nm := (c :: cs).takeWhile isNameChar
      match (c :: cs).drop nm.length with
      | '=' :: r1 =>
        (match r1 with
         | q1 :: r2 =>
           if isQuote q1 then
             let v := r2.takeWhile (fun ch => !isQuote ch)
             match r2.drop v.length with
             | q2 :: _ =>
               if isQuote q2 then
                 some (String.mk nm, String.mk v, nm.length + 2 + v.length + 1)
               else none
             | [] => none
           else none
         | [] => none)
      | _ => none
    else none
  | [] => none

/-- The matchAll loop of `parseAttributes`; structurally fueled. -/
def parseAttrsGo : Nat → List Char → List (String × String)
  | 0, _ => []
  | _, [] => []
  | fuel + 1, c :: cs =>
    match tryAttr (c :: cs) with
    | some (nm, v, n) =>
      if n = 0 then parseAttrsGo fuel cs
      else (nm, v) :: parseAttrsGo fuel ((c :: cs).drop n)
    | none => parseAttrsGo fuel cs

/-- The `parseAttributes` private method. -/
def parseAttributes (attrString : String) : List (String × String) :=
  (parseAttrsGo (attrString.data.length + 1) attrString.data).foldl
    (fun m p => upsertAttr m p.1 p.2) []

/-- Tag name at the head: a letter then letters, digits or hyphens. -/
def tagNameAt (l : List Char) : Option (List Char) :=
  match l with
  | c :: cs => if c.isAlpha then some (c :: cs.takeWhile isNameChar) else none
  | [] => none

/-- Match the element regex of `simpleHtmlParse` at the head: the paired
    branch (attributes to the bracket, any content lazily to the
    case-sensitive close tag), else the self-closing branch.  Returns the
    tag, the raw attribute capture, the inner content of a paired match,
    and the matched length. -/
def tryElement (l : List Char) : Option (String × String × Option (List Char) × Nat) :=
  match l with
  | '<' :: rest =>
    match tagNameAt rest with
    | some nm =>
      let afterNm := rest.drop nm.length
      let w := afterNm.takeWhile isSpaceChar
      let body := afterNm.drop w.length
      (match segSplit body with
       | some (attrs, after) =>
         let close := '<' :: '/' :: nm ++ ['>']
         (match scanClose close true after with
          | some n =>
            some (String.mk nm, String.mk attrs,
              some (after.take (n - close.length)),
              1 + nm.length + w.length + attrs.length + 1 + n)
          | none =>
            let attrs2 :=
              if attrs.getLast? = some '/' then
                (attrs.dropLast.reverse.dropWhile isSpaceChar).reverse
              else (attrs.reverse.dropWhile isSpaceChar).reverse
            some (String.mk nm, String.mk attrs2, none,
              1 + nm.length + w.length + attrs.length + 1))
       | none => none)
    | none => none
  | _ => none

/-- Leftmost element match with the text before it. -/
def findElem : List Char → Option (List Char × String × String × Option (List Char) × List Char)
  | [] => none
  | c :: cs =>
    match tryElement (c :: cs) with
    | some (tag, attrs, innerOpt, n) => some ([], tag, attrs, innerOpt, (c :: cs).drop n)
    | none => (findElem cs).map (fun r => (c :: r.1, r.2))

/-- The scanning loop of `simpleHtmlParse`, fueled: text between matches,
    trimmed and dropped when blank; children recurse only when the inner
    content holds an open bracket.  Every recursive call is on a strictly
    shorter list, so fuel one above the length is never exhausted. -/
def parseNodesF : Nat → List Char → List HNode
  | 0, _ => []
  | fuel + 1, l =>
    match findElem l with
    | none =>
      if trimChars l = [] then [] else [HNode.text (String.mk (trimChars l))]
    | some (pre, tag, attrs, innerOpt, rest) =>
      let preNodes :=
        if trimChars pre = [] then [] else [HNode.text (String.mk (trimChars pre))]
      let children :=
        match innerOpt with
        | some inner =>
          if containsSub inner ['<'] then parseNodesF fuel inner
          else [HNode.text (String.mk inner)]
        | none => []
      preNodes ++ HNode.element tag (parseAttributes attrs) children :: parseNodesF fuel rest

/-- The `simpleHtmlParse` private method. -/
def simpleHtmlParse (html : List Char) : List HNode :=
  parseNodesF (html.length + 1) html

/-- Matcher for an html comment span. -/
def tryComment (l : List Char) : Option Nat :=
  if startsWith "<!--".data l then
    (findSubIdx (l.drop 4) "-->".data).map (fun i => 4 + i + 3)
  else none

/-- The structured export artifact.  The source stamps it with the
    ambient clock; the timestamp is modelled as a constant since no claim
    observes it. -/
structure AstExport where
  nodes : List HNode
  timestamp : String

/-- The `parseHtmlToAst` private method: strip comments, parse. -/
def parseHtmlToAst (html : String) : AstExport :=
  { nodes := simpleHtmlParse (scanRemove tryComment html.data), timestamp := "" }

/-- Result values of the export operation. -/
inductive ExportResult where
  | str (s : String)
  | tree (a : AstExport)

/-- The public `export` method (named exportTemplate here because export
    is reserved): the five-way format dispatch with the hard error on an
    unrecognized discriminator. -/
def exportTemplate (template : String) (format : String) : Except String ExportResult :=
  if format = "html" then .ok (.str template)
  else if format = "markdown" then .ok (.str (htmlToMarkdown template))
  else if format = "text" then .ok (.str (htmlToText template))
  else if format = "json" || format = "ast" then .ok (.tree (parseHtmlToAst template))
  else .error ("Unsupported export format: " ++ format)

/-- The `getSupportedExportFormats` public method. -/
def getSupportedExportFormats : List String :=
  ["html", "markdown", "text", "json", "ast"]

/-- C3: the rating renderer on the stars key maps 4 to four filled and
    one empty glyph, the string 3 to three filled and two empty, 0 to
    five empty, and minus one, unparseable strings, and every non-number
    non-string value to five filled glyphs; every non-negative number is
    floored, clamped into the zero-to-five range, and rendered as that
    many filled glyphs followed by five-minus-that-many empty glyphs. -/
theorem stars_rating_spec :
    processSpecialPlaceholder (.num 4) "stars" = "★★★★☆" ∧
    processSpecialPlaceholder (.str "3") "stars" = "★★★☆☆" ∧
    processSpecialPlaceholder (.num 0) "stars" = "☆☆☆☆☆" ∧
    processSpecialPlaceholder (.num (-1)) "stars" = "★★★★★" ∧
    (∀ q : ℚ, q < 0 → processSpecialPlaceholder (.num q) "stars" = "★★★★★") ∧
    (∀ s : String, parseFloatQ s = none →
      processSpecialPlaceholder (.str s) "stars" = "★★★★★") ∧
    (∀ v : JSValue, (match v with
        | .num _ => False | .str _ => False | _ => True) →
      processSpecialPlaceholder v "stars" = "★★★★★") ∧
    (∀ q : ℚ, 0 ≤ q →
      processSpecialPlaceholder (.num q) "stars" =
        String.mk (List.replicate (min 5 (max 0 ⌊q⌋)).toNat '★' ++
          List.replicate (5 - (min 5 (max 0 ⌊q⌋)).toNat) '☆')) := by
  refine ⟨by rfl, by rfl, by rfl, by rfl, ?_, ?_, ?_, ?_⟩
  · intro q hq
    simp [processSpecialPlaceholder, not_le.mpr hq]
  · intro s hs
    simp [processSpecialPlaceholder, hs]
  · intro v hv
    cases v <;> simp_all [processSpecialPlaceholder]
  · intro q hq
    simp [processSpecialPlaceholder, hq, starsFilled]

/-- Witness for C3 at concrete inputs: the unparseable string branch and
    the general non-negative clamp at five halves. -/
theorem stars_rating_spec_witness :
    processSpecialPlaceholder (.str "invalid") "stars" = "★★★★★" ∧
    processSpecialPlaceholder (.num (mkRat 5 2)) "stars" =
      String.mk (List.replicate (min 5 (max 0 ⌊(mkRat 5 2 : ℚ)⌋)).toNat '★' ++
        List.replicate (5 - (min 5 (max 0 ⌊(mkRat 5 2 : ℚ)⌋)).toNat) '☆') :=
  ⟨stars_rating_spec.2.2.2.2.2.1 "invalid" (by rfl),
   stars_rating_spec.2.2.2.2.2.2.2 (mkRat 5 2) (by decide)⟩

/-- Does a text contain a raw markup-significant character. -/
def hasRawHtmlChar (l : List Char) : Bool :=
  l.any (fun c => c = '<' || c = '>' || c = '"' || c = apos)

theorem hasRawHtmlChar_append (a b : List Char) :
    hasRawHtmlChar (a ++ b) = (hasRawHtmlChar a || hasRawHtmlChar b) := by
  simp [hasRawHtmlChar]

theorem rep1_append (c : Char) (r a b : List Char) :
    rep1 c r (a ++ b) = rep1 c r a ++ rep1 c r b := by
  simp [rep1]

theorem escapeHtmlL_append (a b : List Char) :
    escapeHtmlL (a ++ b) = escapeHtmlL a ++ escapeHtmlL b := by
  simp [escapeHtmlL, rep1_append]

theorem hasRawHtmlChar_escapeHtmlL (l : List Char) :
    hasRawHtmlChar (escapeHtmlL l) = false := by
  induction l with
  | nil => rfl
  | cons c cs ih =>
    have h : escapeHtmlL (c :: cs) = escapeHtmlL [c] ++ escapeHtmlL cs := by
      have : c :: cs = [c] ++ cs := rfl
      rw [this, escapeHtmlL_append]
    rw [h, hasRawHtmlChar_append, ih, Bool.or_false]
    by_cases h1 : c = '&'
    · subst h1; decide
    · by_cases h2 : c = '<'
      · subst h2; decide
      · by_cases h3 : c = '>'
        · subst h3; decide
        · by_cases h4 : c = '"'
          · subst h4; decide
          · by_cases h5 : c = apos
            · subst h5; decide
            · have : escapeHtmlL [c] = [c] := by
                simp [escapeHtmlL, rep1, h1, h2, h3, h4, h5]
              rw [this]
              simp [hasRawHtmlChar, h2, h3, h4, h5]

/-- C9: for every value and every placeholder key other than addContact
    and stars, the generic rendering path substitutes a string that holds
    no raw open or close angle bracket, double quote or apostrophe: null
    and undefined render as the empty string and every other value is
    HTML-escaped, so a generically rendered value cannot inject markup. -/
theorem generic_render_no_raw_markup :
    (∀ (v : JSValue) (k : String), k ≠ "addContact" → k ≠ "stars" →
      hasRawHtmlChar (processSpecialPlaceholder v k).data = false) ∧
    escapeHtml .null = "" ∧ escapeHtml .undefined = "" ∧
    (∀ (v : JSValue) (k : String), k ≠ "addContact" → k ≠ "stars" →
      processSpecialPlaceholder v k = escapeHtml v) := by
  have hesc : ∀ v : JSValue, hasRawHtmlChar (escapeHtml v).data = false := by
    intro v
    cases v <;> simp [escapeHtml, hasRawHtmlChar_escapeHtmlL] <;> rfl
  refine ⟨?_, rfl, rfl, ?_⟩
  · intro v k hk1 hk2
    rw [show processSpecialPlaceholder v k = escapeHtml v by
      simp [processSpecialPlaceholder, hk1, hk2]]
    exact hesc v
  · intro v k hk1 hk2
    simp [processSpecialPlaceholder, hk1, hk2]

/-- Witness for C9 at a concrete hostile value under the key bio. -/
theorem generic_render_no_raw_markup_witness :
    hasRawHtmlChar (processSpecialPlaceholder
      (.str "<script>alert(1)</script>") "bio").data = false :=
  generic_render_no_raw_markup.1 (.str "<script>alert(1)</script>") "bio"
    (by decide) (by decide)

/-- C8 (corrected): the export operation returns a result without
    raising for each of the five recognized formats, and raises the
    explicit unsupported-format error, whose message names the offending
    format, for every other discriminator.  The original claim also
    called this the library's only hard failure mode, which is false:
    process throws a TypeError when a truthy non-string value reaches a
    trim guard. -/
theorem export_format_dispatch :
    (∀ t : String, exportTemplate t "html" = .ok (.str t)) ∧
    (∀ t : String, ∃ r, exportTemplate t "markdown" = .ok r) ∧
    (∀ t : String, ∃ r, exportTemplate t "text" = .ok r) ∧
    (∀ t : String, ∃ r, exportTemplate t "json" = .ok r) ∧
    (∀ t : String, ∃ r, exportTemplate t "ast" = .ok r) ∧
    (∀ t f : String, f ∉ getSupportedExportFormats →
      exportTemplate t f = .error ("Unsupported export format: " ++ f)) := by
  refine ⟨fun t => rfl,
    fun t => ⟨.str (htmlToMarkdown t), rfl⟩,
    fun t => ⟨.str (htmlToText t), rfl⟩,
    fun t => ⟨.tree (parseHtmlToAst t), rfl⟩,
    fun t => ⟨.tree (parseHtmlToAst t), rfl⟩,
    ?_⟩
  intro t f hf
  simp only [getSupportedExportFormats, List.mem_cons, List.not_mem_nil, or_false,
    not_or] at hf
  obtain ⟨h1, h2, h3, h4, h5⟩ := hf
  simp [exportTemplate, h1, h2, h3, h4, h5]

/-- Witness for C8 at the unrecognized discriminator pdf. -/
theorem export_format_dispatch_witness :
    exportTemplate "<p>x</p>" "pdf" = .error ("Unsupported export format: " ++ "pdf") :=
  export_format_dispatch.2.2.2.2.2 "<p>x</p>" "pdf" (by decide)

/-- C8 counterexample: the unsupported-format error is not the only hard
    failure — a truthy non-string website value reaches the trim guard of
    the conditional-element pass and process throws a TypeError. -/
theorem process_throws_on_num_website_cex :
    process defaultOptions "" [("website", JSValue.num 7)] =
      .error (.typeError "trim is not a function") := rfl

theorem takeWhile_append_stop {p : Char → Bool} :
    ∀ (l1 : List Char) (c : Char) (l2 : List Char), (∀ x ∈ l1, p x = true) → p c = false →
      (l1 ++ c :: l2).takeWhile p = l1 ∧ (l1 ++ c :: l2).dropWhile p = c :: l2 := by
  intro l1
  induction l1 with
  | nil =>
    intro c l2 _ hc
    simp [List.takeWhile, List.dropWhile, hc]
  | cons a as ih =>
    intro c l2 h hc
    have ha : p a = true := h a (by simp)
    have has : ∀ x ∈ as, p x = true := fun x hx => h x (by simp [hx])
    obtain ⟨h1, h2⟩ := ih c l2 has hc
    simp [List.takeWhile, List.dropWhile, ha, h1, h2]

/-- A valid placeholder token body: nonempty, all word characters. -/
def validTokenName (nm : String) : Prop :=
  nm.data ≠ [] ∧ ∀ c ∈ nm.data, isWordChar c = true

theorem tokenAt_at_head {nm : String} {rest : List Char} (h : validTokenName nm) :
    tokenAt (nm.data ++ cbr :: rest) = some (nm, rest) := by
  obtain ⟨hne, hall⟩ := h
  have hcbr : isWordChar cbr = false := by decide
  obtain ⟨h1, h2⟩ := takeWhile_append_stop nm.data cbr rest hall hcbr
  unfold tokenAt
  rw [h1, h2]
  cases hd : nm.data with
  | nil => exact absurd hd hne
  | cons a as => simp [← hd]

theorem scanTokensGo_fuel (cb : String → String → String) :
    ∀ (f1 : Nat) (l : List Char) (f2 : Nat), l.length < f1 → l.length < f2 →
      scanTokensGo cb f1 l = scanTokensGo cb f2 l := by
  intro f1
  induction f1 with
  | zero => intro l f2 h1 _; omega
  | succ f1 ih =>
    intro l f2 h1 h2
    match l, f2 with
    | _, 0 => omega
    | [], f2 + 1 => rfl
    | c :: cs, f2 + 1 =>
      simp only [List.length_cons] at h1 h2
      by_cases hc : c = obr
      · cases htok : tokenAt cs with
        | none =>
          simp only [scanTokensGo, hc, if_true, htok]
          rw [ih cs f2 (by omega) (by omega)]
        | some r =>
          obtain ⟨nm, rest⟩ := r
          have hlt := tokenAt_rest_length htok
          simp only [scanTokensGo, hc, if_true, htok]
          rw [ih rest f2 (by omega) (by omega)]
      · simp only [scanTokensGo, hc, if_false]
        rw [ih cs f2 (by omega) (by omega)]

theorem scanTokens_cons_nomatch (cb : String → String → String) {c : Char}
    (hc : c ≠ obr) (l : List Char) :
    scanTokens cb (c :: l) = c :: scanTokens cb l := by
  unfold scanTokens
  simp only [List.length_cons, scanTokensGo, hc, if_false]

theorem scanTokens_token_head (cb : String → String → String) {nm : String}
    (h : validTokenName nm) (rest : List Char) :
    scanTokens cb (obr :: (nm.data ++ cbr :: rest)) =
      (cb nm (String.mk (obr :: nm.data ++ [cbr]))).data ++ scanTokens cb rest := by
  unfold scanTokens
  simp only [scanTokensGo, List.length_cons, if_true]
  rw [tokenAt_at_head h]
  dsimp only
  have hlen : rest.length < (nm.data ++ cbr :: rest).length + 1 := by
    simp only [List.length_append, List.length_cons]
    omega
  rw [scanTokensGo_fuel cb ((nm.data ++ cbr :: rest).length + 1) rest
    (rest.length + 1) hlen (by omega)]

theorem scanTokens_append_nomatch (cb : String → String → String) :
    ∀ {pre : List Char}, (∀ c ∈ pre, c ≠ obr) → ∀ (rest : List Char),
      scanTokens cb (pre ++ rest) = pre ++ scanTokens cb rest := by
  intro pre
  induction pre with
  | nil => intro _ rest; rfl
  | cons c cs ih =>
    intro h rest
    have hc : c ≠ obr := h c (by simp)
    have hcs : ∀ x ∈ cs, x ≠ obr := fun x hx => h x (by simp [hx])
    rw [List.cons_append, scanTokens_cons_nomatch cb hc, ih hcs rest]
    rfl

theorem scanTokensEGo_fuel (cb : String → String → Except JSErr String) :
    ∀ (f1 : Nat) (l : List Char) (f2 : Nat), l.length < f1 → l.length < f2 →
      scanTokensEGo cb f1 l = scanTokensEGo cb f2 l := by
  intro f1
  induction f1 with
  | zero => intro l f2 h1 _; omega
  | succ f1 ih =>
    intro l f2 h1 h2
    match l, f2 with
    | _, 0 => omega
    | [], f2 + 1 => rfl
    | c :: cs, f2 + 1 =>
      simp only [List.length_cons] at h1 h2
      by_cases hc : c = obr
      · cases htok : tokenAt cs with
        | none =>
          simp only [scanTokensEGo, hc, if_true, htok]
          rw [ih cs f2 (by omega) (by omega)]
        | some r =>
          obtain ⟨nm, rest⟩ := r
          have hlt := tokenAt_rest_length htok
          simp only [scanTokensEGo, hc, if_true, htok]
          rw [ih rest f2 (by omega) (by omega)]
      · simp only [scanTokensEGo, hc, if_false]
        rw [ih cs f2 (by omega) (by omega)]

theorem scanTokensE_cons_nomatch (cb : String → String → Except JSErr String) {c : Char}
    (hc : c ≠ obr) (l : List Char) :
    scanTokensE cb (c :: l) = (do
      let tail ← scanTokensE cb l
      pure (c :: tail)) := by
  unfold scanTokensE
  simp only [List.length_cons, scanTokensEGo, hc, if_false]

theorem scanTokensE_token_head (cb : String → String → Except JSErr String) {nm : String}
    (h : validTokenName nm) (rest : List Char) :
    scanTokensE cb (obr :: (nm.data ++ cbr :: rest)) = (do
      let r ← cb nm (String.mk (obr :: nm.data ++ [cbr]))
      let tail ← scanTokensE cb rest
      pure (r.data ++ tail)) := by
  unfold scanTokensE
  simp only [scanTokensEGo, List.length_cons, if_true]
  rw [tokenAt_at_head h]
  dsimp only
  have hlen : rest.length < (nm.data ++ cbr :: rest).length + 1 := by
    simp only [List.length_append, List.length_cons]
    omega
  rw [scanTokensEGo_fuel cb ((nm.data ++ cbr :: rest).length + 1) rest
    (rest.length + 1) hlen (by omega)]

theorem scanTokensE_append_nomatch (cb : String → String → Except JSErr String) :
    ∀ {pre : List Char}, (∀ c ∈ pre, c ≠ obr) → ∀ (rest : List Char),
      scanTokensE cb (pre ++ rest) = (do
        let tail ← scanTokensE cb rest
        pure (pre ++ tail)) := by
  intro pre
  induction pre with
  | nil =>
    intro _ rest
    simp only [List.nil_append]
    cases scanTokensE cb rest <;> rfl
  | cons c cs ih =>
    intro h rest
    have hc : c ≠ obr := h c (by simp)
    have hcs : ∀ x ∈ cs, x ≠ obr := fun x hx => h x (by simp [hx])
    rw [List.cons_append, scanTokensE_cons_nomatch cb hc, ih hcs rest]
    cases scanTokensE cb rest <;> rfl

theorem bindE_ok {α β : Type} (a : α) (f : α → Except JSErr β) :
    (do let x ← Except.ok a; f x) = f a := rfl

theorem bindE_error {α β : Type} (e : JSErr) (f : α → Except JSErr β) :
    (do let x ← Except.error e; f x) = (Except.error e : Except JSErr β) := rfl

theorem pureE_eq_ok {α : Type} (a : α) : (pure a : Except JSErr α) = Except.ok a := rfl

/-- C1: placeholder resolution leaves a token whose key the context does
    not own as its own literal text, both in the standalone pass (key not
    owned by the data) and inside loop item expansion (key owned by
    neither the item nor the global fallback); the text around it is
    processed independently, so an unresolved token is never deleted and
    never raises. -/
theorem unresolved_token_preserved :
    (∀ (d : TemplateData) (pre : List Char) (nm : String) (post : List Char),
      (∀ c ∈ pre, c ≠ obr) → validTokenName nm → hasOwnData d nm = false →
      replacePlaceholders d (String.mk (pre ++ obr :: (nm.data ++ cbr :: post))) =
        String.mk (pre ++ obr :: (nm.data ++ cbr ::
          (replacePlaceholders d (String.mk post)).data))) ∧
    (∀ (item : JSValue) (d : TemplateData) (pre : List Char) (nm : String) (post : List Char),
      (∀ c ∈ pre, c ≠ obr) → validTokenName nm →
      jsHasOwn item nm = .ok false → hasOwnData d nm = false →
      processComplexDataInLoop (String.mk (pre ++ obr :: (nm.data ++ cbr :: post))) item d =
        (do
          let tail ← processComplexDataInLoop (String.mk post) item d
          pure (String.mk (pre ++ obr :: (nm.data ++ cbr :: tail.data))))) := by
  constructor
  · intro d pre nm post hpre hnm hown
    unfold replacePlaceholders
    have hdata : (String.mk (pre ++ obr :: (nm.data ++ cbr :: post))).data =
        pre ++ (obr :: (nm.data ++ cbr :: post)) := by simp
    rw [hdata, scanTokens_append_nomatch _ hpre, scanTokens_token_head _ hnm]
    have hcb : (if hasOwnData d nm then processSpecialPlaceholder (getProp d nm) nm
        else String.mk (obr :: nm.data ++ [cbr])) = String.mk (obr :: nm.data ++ [cbr]) := by
      rw [hown]; simp
    rw [hcb]
    simp
  · intro item d pre nm post hpre hnm hitem hglob
    unfold processComplexDataInLoop
    have hdata : (String.mk (pre ++ obr :: (nm.data ++ cbr :: post))).data =
        pre ++ (obr :: (nm.data ++ cbr :: post)) := by simp
    simp only [hdata]
    rw [scanTokensE_append_nomatch (loopTokenCb item d) hpre
      (obr :: (nm.data ++ cbr :: post))]
    rw [scanTokensE_token_head (loopTokenCb item d) hnm post]
    have hcb : loopTokenCb item d nm (String.mk (obr :: nm.data ++ [cbr])) =
        .ok (String.mk (obr :: nm.data ++ [cbr])) := by
      unfold loopTokenCb
      rw [hitem]
      simp [hglob, pureE_eq_ok]
    rw [hcb]
    cases hpost : scanTokensE (loopTokenCb item d) post with
    | error e => simp [hpost, bindE_ok, bindE_error]
    | ok tail => simp [hpost, bindE_ok, pureE_eq_ok, List.append_assoc]

/-- Witness for C1: a concrete missing key in both resolution paths. -/
theorem unresolved_token_preserved_witness :
    replacePlaceholders [("a", .num 1)]
        (String.mk ("x ".data ++ obr :: ("missingKey".data ++ cbr :: " y".data))) =
      String.mk ("x ".data ++ obr :: ("missingKey".data ++ cbr ::
        (replacePlaceholders [("a", .num 1)] (String.mk " y".data)).data)) ∧
    processComplexDataInLoop
        (String.mk ("x ".data ++ obr :: ("missingKey".data ++ cbr :: " y".data)))
        (.obj [("b", .str "v")]) [("a", .num 1)] =
      (do
        let tail ← processComplexDataInLoop (String.mk " y".data)
          (.obj [("b", .str "v")]) [("a", .num 1)]
        pure (String.mk ("x ".data ++ obr :: ("missingKey".data ++ cbr :: tail.data)))) :=
  ⟨unresolved_token_preserved.1 [("a", .num 1)] "x ".data "missingKey" " y".data
      (by decide) ⟨by decide, by decide⟩ (by rfl),
   unresolved_token_preserved.2 (.obj [("b", .str "v")]) [("a", .num 1)]
      "x ".data "missingKey" " y".data
      (by decide) ⟨by decide, by decide⟩ (by rfl) (by rfl)⟩

theorem stringMk_data (s : String) : String.mk s.data = s := rfl

theorem startsWith_append_self (pat x : List Char) : startsWith pat (pat ++ x) = true := by
  induction pat with
  | nil => rfl
  | cons p ps ih => simp [startsWith, ih]

theorem containsSub_cons {c : Char} {cs pat : List Char} (h : containsSub cs pat = true) :
    containsSub (c :: cs) pat = true := by
  unfold containsSub findSubIdx at h ⊢
  by_cases hs : startsWith pat (c :: cs) = true
  · simp [findSubIdx.go, hs]
  · simp only [findSubIdx.go, hs, if_false]
    obtain ⟨i, hi⟩ := Option.isSome_iff_exists.mp h
    have hgo : ∀ (l : List Char) (a b : Nat) (j : Nat), findSubIdx.go pat l a = some j →
        ∃ j2, findSubIdx.go pat l b = some j2 := by
      intro l
      induction l with
      | nil =>
        intro a b j hj
        unfold findSubIdx.go at hj ⊢
        by_cases hp : pat = [] <;> simp [hp] at hj ⊢
      | cons x xs ih =>
        intro a b j hj
        unfold findSubIdx.go at hj ⊢
        by_cases hx : startsWith pat (x :: xs) = true
        · simp [hx]
        · simp only [hx, if_false] at hj ⊢
          exact ih _ _ _ hj
    obtain ⟨j2, hj2⟩ := hgo cs 0 1 i hi
    simp [hj2]

theorem containsSub_of_startsWith {l pat : List Char} (h : startsWith pat l = true) :
    containsSub l pat = true := by
  unfold containsSub findSubIdx
  cases l with
  | nil =>
    cases pat with
    | nil => simp [findSubIdx.go]
    | cons p ps => simp [startsWith] at h
  | cons c cs => simp [findSubIdx.go, h]

theorem findLoopGo_some_contains :
    ∀ {l : List Char} {r}, findLoopGo l = some r → containsSub l loopStartPat = true := by
  intro l
  induction l with
  | nil => intro r h; simp [findLoopGo] at h
  | cons c cs ih =>
    intro r h
    unfold findLoopGo at h
    by_cases hs : startsWith loopStartPat (c :: cs) = true
    · exact containsSub_of_startsWith hs
    · simp only [hs, if_false] at h
      cases hrec : findLoopGo cs with
      | none => rw [hrec] at h; simp at h
      | some r2 => exact containsSub_cons (ih hrec)

theorem findLoopGo_none_of_not_contains {l : List Char}
    (h : containsSub l loopStartPat = false) : findLoopGo l = none := by
  cases hf : findLoopGo l with
  | none => rfl
  | some r => rw [findLoopGo_some_contains hf] at h; cases h

theorem findLoopGo_append_nomatch :
    ∀ {pre : List Char}, (∀ c ∈ pre, c ≠ obr) → ∀ (rest : List Char),
      findLoopGo (pre ++ rest) = (findLoopGo rest).map (fun r => (pre ++ r.1, r.2)) := by
  intro pre
  induction pre with
  | nil =>
    intro _ rest
    simp only [List.nil_append]
    cases findLoopGo rest with
    | none => simp
    | some r => simp
  | cons c cs ih =>
    intro h rest
    have hc : c ≠ obr := h c (by simp)
    have hcs : ∀ x ∈ cs, x ≠ obr := fun x hx => h x (by simp [hx])
    have hns : startsWith loopStartPat (c :: (cs ++ rest)) = false := by
      simp [startsWith, loopStartPat, Ne.symm hc]
    rw [List.cons_append]
    conv_lhs => unfold findLoopGo
    rw [hns]
    simp only [Bool.false_eq_true, if_false]
    rw [ih hcs rest]
    cases findLoopGo rest with
    | none => simp
    | some r => simp

/-- A valid loop, block or swap identifier: nonempty, all in the regex
    word class. -/
def validIdentName (nm : String) : Prop :=
  nm.data ≠ [] ∧ ∀ c ∈ nm.data, isIdentChar c = true

theorem findLoopGo_at_region {nm : String} {body post : List Char}
    (hnm : validIdentName nm)
    (hend : findSubIdx (body ++ (loopEndPat nm ++ post)) (loopEndPat nm) = some body.length) :
    findLoopGo (loopStartPat ++ (nm.data ++ cbr :: (body ++ (loopEndPat nm ++ post)))) =
      some ([], nm, body, post) := by
  obtain ⟨hne, hall⟩ := hnm
  have hstep : loopStartPat ++ (nm.data ++ cbr :: (body ++ (loopEndPat nm ++ post))) =
      obr :: ("LOOP_START:".data ++ (nm.data ++ cbr :: (body ++ (loopEndPat nm ++ post)))) := rfl
  rw [hstep]
  unfold findLoopGo
  have hsw : startsWith loopStartPat
      (obr :: ("LOOP_START:".data ++ (nm.data ++ cbr :: (body ++ (loopEndPat nm ++ post))))) = true := by
    have := startsWith_append_self loopStartPat (nm.data ++ cbr :: (body ++ (loopEndPat nm ++ post)))
    simpa [loopStartPat] using this
  rw [hsw]
  simp only [if_true]
  have hdrop : (obr :: ("LOOP_START:".data ++ (nm.data ++ cbr :: (body ++ (loopEndPat nm ++ post))))).drop
      loopStartPat.length = nm.data ++ cbr :: (body ++ (loopEndPat nm ++ post)) := by
    have : obr :: ("LOOP_START:".data ++ (nm.data ++ cbr :: (body ++ (loopEndPat nm ++ post)))) =
        loopStartPat ++ (nm.data ++ cbr :: (body ++ (loopEndPat nm ++ post))) := rfl
    rw [this, List.drop_left]
  rw [hdrop]
  have hcbr : isIdentChar cbr = false := by decide
  obtain ⟨htw, hdw⟩ := takeWhile_append_stop nm.data cbr
    (body ++ (loopEndPat nm ++ post)) hall hcbr
  rw [htw, hdw]
  have hemp : nm.data.isEmpty = false := by
    cases hd : nm.data with
    | nil => exact absurd hd hne
    | cons a as => rfl
  rw [hemp]
  simp only [Bool.false_eq_true, if_false, if_true]
  rw [stringMk_data, hend]
  have htake : (body ++ (loopEndPat nm ++ post)).take body.length = body := by
    rw [← List.append_assoc, List.take_append_of_le_length (by simp), List.take_left]
  have hdrop2 : (body ++ (loopEndPat nm ++ post)).drop (body.length + (loopEndPat nm).length) = post := by
    rw [← List.append_assoc]
    have : body.length + (loopEndPat nm).length = (body ++ loopEndPat nm).length := by simp
    rw [this, List.drop_left]
  dsimp only
  rw [htake, hdrop2]

theorem renderEntries_spec (d : TemplateData) (body : List Char) :
    ∀ (items : List JSValue) (k : Nat) (rs : List String),
      renderEntries d body k items = .ok rs →
      rs.length = items.length ∧
        ∀ (i : Nat) (hi : i < items.length),
          renderLoopEntry d body (k + i) (items.get ⟨i, hi⟩) =
            .ok (rs.getD i "") := by
  intro items
  induction items with
  | nil =>
    intro k rs h
    simp only [renderEntries] at h
    cases h
    exact ⟨rfl, fun i hi => absurd hi (by simp)⟩
  | cons item rest ih =>
    intro k rs h
    simp only [renderEntries] at h
    cases hr : renderLoopEntry d body k item with
    | error e => rw [hr] at h; simp [bindE_error] at h
    | ok r0 =>
      rw [hr] at h
      rw [bindE_ok] at h
      cases hrs : renderEntries d body (k + 1) rest with
      | error e => rw [hrs] at h; simp [bindE_error] at h
      | ok rs0 =>
        rw [hrs] at h
        rw [bindE_ok, pureE_eq_ok] at h
        cases h
        obtain ⟨hlen, hspec⟩ := ih (k + 1) rs0 hrs
        refine ⟨by simp [hlen], ?_⟩
        intro i hi
        match i with
        | 0 => simpa using hr
        | j + 1 =>
          have hj : j < rest.length := by simpa using hi
          have := hspec j hj
          simpa [Nat.add_assoc, Nat.add_comm 1 j] using this

theorem processLoopsF_done (d : TemplateData) {f : Nat} {l : List Char}
    (hf : 0 < f) (h : findLoopGo l = none) : processLoopsF d f l = .ok l := by
  match f with
  | 0 => omega
  | f + 1 => simp [processLoopsF, h]

theorem processLoopsF_step (d : TemplateData) {l pre : List Char} {nm : String}
    {body rest : List Char} {f : Nat} {out : String}
    (hfind : findLoopGo l = some (pre, nm, body, rest))
    (hout : loopOutput d nm body = .ok out)
    (hnod : ∀ c ∈ out.data, c ≠ '$') :
    processLoopsF d (f + 1) l = processLoopsF d f (pre ++ out.data ++ rest) := by
  simp only [processLoopsF, hfind]
  rw [hout, bindE_ok, getSubstitution_id _ _ _ _ hnod]

theorem loopOutput_empty (d : TemplateData) (nm : String) (body : List Char)
    (h : ∀ xs, getProp d nm = .arr xs → xs = []) : loopOutput d nm body = .ok "" := by
  unfold loopOutput jsOr
  cases hv : getProp d nm with
  | arr xs =>
    have hxs := h xs hv
    subst hxs
    simp [jsTruthy, pureE_eq_ok]
  | null => simp [jsTruthy, pureE_eq_ok]
  | undefined => simp [jsTruthy, pureE_eq_ok]
  | nan => simp [jsTruthy, pureE_eq_ok]
  | bool b => cases b <;> simp [jsTruthy, pureE_eq_ok]
  | num q =>
    by_cases hq : q = 0
    · simp [jsTruthy, hq, pureE_eq_ok]
    · simp [jsTruthy, hq, pureE_eq_ok]
  | str s =>
    by_cases hs : s = ""
    · simp [jsTruthy, hs, pureE_eq_ok]
    · simp [jsTruthy, hs, pureE_eq_ok]
  | obj fs => simp [jsTruthy, pureE_eq_ok]

/-- C2 (corrected): a loop region whose key does not hold a nonempty
    array is replaced by the empty string (both markers and body
    removed); over an array of entries whose joined rendering is free of
    the dollar character, the whole region is replaced by exactly one
    rendering per entry — the reserved index token substituted by the
    entry's zero-based position, placeholders resolved item-first with
    the outer data as fallback — joined by single newlines in original
    entry order.  The original claim fails when a rendering contains
    dollar patterns: the source splices the output with a string-valued
    replace, so GetSubstitution rewrites them (two dollars collapse to
    one, dollar-amp reinstates the matched region). -/
theorem loop_expansion_spec
    (d : TemplateData) (pre : List Char) (nm : String) (body post : List Char)
    (hpre : ∀ c ∈ pre, c ≠ obr) (hnm : validIdentName nm)
    (hend : findSubIdx (body ++ (loopEndPat nm ++ post)) (loopEndPat nm) = some body.length) :
    ((∀ xs, getProp d nm = .arr xs → xs = []) →
      containsSub (pre ++ post) loopStartPat = false →
      processLoops d (String.mk (pre ++ (loopStartPat ++ (nm.data ++ cbr ::
        (body ++ (loopEndPat nm ++ post)))))) = .ok (String.mk (pre ++ post))) ∧
    (∀ (items : List JSValue) (rs : List String),
      getProp d nm = .arr items → items ≠ [] →
      renderEntries d body 0 items = .ok rs →
      (∀ c ∈ (String.intercalate "\n" rs).data, c ≠ '$') →
      containsSub (pre ++ ((String.intercalate "\n" rs).data ++ post)) loopStartPat = false →
      processLoops d (String.mk (pre ++ (loopStartPat ++ (nm.data ++ cbr ::
          (body ++ (loopEndPat nm ++ post)))))) =
        .ok (String.mk (pre ++ ((String.intercalate "\n" rs).data ++ post))) ∧
      rs.length = items.length ∧
      ∀ (i : Nat) (hi : i < items.length),
        renderLoopEntry d body i (items.get ⟨i, hi⟩) = .ok (rs.getD i "")) := by
  set T := pre ++ (loopStartPat ++ (nm.data ++ cbr :: (body ++ (loopEndPat nm ++ post)))) with hT
  have hfind : findLoopGo T = some (pre, nm, body, post) := by
    rw [hT, findLoopGo_append_nomatch hpre, findLoopGo_at_region hnm hend]
    simp
  have hTpos : 0 < T.length := by
    rw [hT]
    simp [loopStartPat]
  constructor
  · intro hempty hno
    have hout := loopOutput_empty d nm body hempty
    unfold processLoops
    have hdata : (String.mk T).data = T := rfl
    rw [hdata]
    have hstep : processLoopsF d (T.length + 1) T =
        processLoopsF d T.length (pre ++ "".data ++ post) :=
      processLoopsF_step d hfind hout (fun c hc => absurd hc (List.not_mem_nil c))
    rw [hstep]
    have : pre ++ "".data ++ post = pre ++ post := by simp
    rw [this, processLoopsF_done d hTpos (findLoopGo_none_of_not_contains hno)]
    rfl
  · intro items rs hitems hne hrs hnod hno
    have hout : loopOutput d nm body = .ok (String.intercalate "\n" rs) := by
      unfold loopOutput jsOr
      rw [hitems]
      have hlen : 0 < items.length := List.length_pos.mpr hne
      simp only [jsTruthy, if_true, hlen, if_pos]
      rw [hrs, bindE_ok, pureE_eq_ok]
    refine ⟨?_, (renderEntries_spec d body items 0 rs hrs).1,
      fun i hi => by simpa using (renderEntries_spec d body items 0 rs hrs).2 i hi⟩
    unfold processLoops
    have hdata : (String.mk T).data = T := rfl
    rw [hdata]
    have hstep : processLoopsF d (T.length + 1) T =
        processLoopsF d T.length (pre ++ (String.intercalate "\n" rs).data ++ post) :=
      processLoopsF_step d hfind hout hnod
    rw [hstep]
    have hassoc : pre ++ (String.intercalate "\n" rs).data ++ post =
        pre ++ ((String.intercalate "\n" rs).data ++ post) := by
      rw [List.append_assoc]
    rw [hassoc, processLoopsF_done d hTpos (findLoopGo_none_of_not_contains hno)]
    rfl

/-- Witness for C2: a two-entry loop and an empty-data loop, concretely
    expanded. -/
theorem loop_expansion_spec_witness :
    processLoops [("items", .arr [.obj [("name", .str "A")], .obj [("name", .str "B")]])]
        (String.mk ("<ul>".data ++ (loopStartPat ++ ("items".data ++ cbr ::
          ("<li>".data ++ obr :: ("index".data ++ cbr :: ":".data ++ obr ::
            ("name".data ++ cbr :: "</li>".data)) ++
            (loopEndPat "items" ++ "</ul>".data)))))) =
      .ok (String.mk ("<ul>".data ++
        ((String.intercalate "\n" ["<li>0:A</li>", "<li>1:B</li>"]).data ++ "</ul>".data))) ∧
    processLoops [("other", .str "x")]
        (String.mk ("A".data ++ (loopStartPat ++ ("xs".data ++ cbr ::
          ("body".data ++ (loopEndPat "xs" ++ "B".data)))))) =
      .ok (String.mk ("A".data ++ "B".data)) := by
  constructor
  · have h := (loop_expansion_spec
      [("items", .arr [.obj [("name", .str "A")], .obj [("name", .str "B")]])]
      "<ul>".data "items"
      ("<li>".data ++ obr :: ("index".data ++ cbr :: ":".data ++ obr ::
        ("name".data ++ cbr :: "</li>".data)))
      "</ul>".data (by decide) ⟨by decide, by decide⟩ (by rfl)).2
      [.obj [("name", .str "A")], .obj [("name", .str "B")]]
      ["<li>0:A</li>", "<li>1:B</li>"]
      (by rfl) (by simp) (by rfl) (by decide) (by rfl)
    exact h.1
  · exact (loop_expansion_spec [("other", .str "x")] "A".data "xs" "body".data "B".data
      (by decide) ⟨by decide, by decide⟩ (by rfl)).1
      (by intro xs hxs; cases hxs) (by rfl)

/-- C2 counterexample: an entry whose rendering is two dollars is spliced
    through GetSubstitution, so the loop region expands to a single
    dollar instead of the asserted verbatim rendering. -/
theorem loop_dollar_output_cex :
    processLoops [("xs", JSValue.arr [JSValue.obj [("v", JSValue.str "$$")]])]
        (String.mk (loopStartPat ++ ("xs".data ++ cbr ::
          (obr :: ("v".data ++ cbr :: loopEndPat "xs"))))) = .ok "$" ∧
    ("$" : String) ≠ "$$" := ⟨rfl, by decide⟩

theorem findSubIdx_go_min {pat : List Char} :
    ∀ {l : List Char} {i0 j : Nat}, findSubIdx.go pat l i0 = some j →
      ∀ m, m < j - i0 → startsWith pat (l.drop m) = false := by
  intro l
  induction l with
  | nil =>
    intro i0 j h m hm
    unfold findSubIdx.go at h
    by_cases hp : pat = []
    · simp [hp] at h; omega
    · simp [hp] at h
  | cons c cs ih =>
    intro i0 j h m hm
    unfold findSubIdx.go at h
    by_cases hs : startsWith pat (c :: cs) = true
    · simp [hs] at h; omega
    · simp only [hs, if_false] at h
      have hspec := findSubIdx_go_spec h
      match m with
      | 0 => simpa using hs
      | m' + 1 =>
        have := ih h m' (by omega)
        simpa using this

theorem findSubIdx_min {l pat : List Char} {i : Nat} (h : findSubIdx l pat = some i) :
    ∀ j < i, startsWith pat (l.drop j) = false := by
  intro j hj
  exact findSubIdx_go_min h j (by omega)

theorem closingAt_some_startsWith {nm l : List Char} {cl : Nat}
    (h : closingAt nm l = some cl) : startsWith "<!--".data l = true := by
  unfold closingAt at h
  by_cases hs : startsWith "<!--".data l = true
  · exact hs
  · simp [hs] at h

theorem findClosing_skip {nm : List Char} {cl : Nat} :
    ∀ {Y Z : List Char},
      (∀ j < Y.length, startsWith "<!--".data ((Y ++ Z).drop j) = false) →
      closingAt nm Z = some cl →
      findClosing nm (Y ++ Z) = some (Y.length, cl) := by
  intro Y
  induction Y with
  | nil =>
    intro Z _ hcl
    cases Z with
    | nil => simp [closingAt, startsWith] at hcl
    | cons z zs => simp [findClosing, hcl]
  | cons y ys ih =>
    intro Z h hcl
    have h0 : startsWith "<!--".data (y :: (ys ++ Z)) = false := by
      have := h 0 (by simp)
      simpa using this
    have hclAt : closingAt nm (y :: (ys ++ Z)) = none := by
      cases hc : closingAt nm (y :: (ys ++ Z)) with
      | none => rfl
      | some c0 => rw [closingAt_some_startsWith hc] at h0; cases h0
    rw [List.cons_append]
    unfold findClosing
    rw [hclAt]
    have hys : ∀ j < ys.length, startsWith "<!--".data ((ys ++ Z).drop j) = false := by
      intro j hj
      have := h (j + 1) (by simp; omega)
      simpa using this
    rw [ih hys hcl]
    simp

/-- The two comment markers of the About Me wrapper. -/
def aboutMeOpen : List Char := "<!-- About Me section -->".data

/-- Closing marker of the About Me wrapper. -/
def aboutMeClose : List Char := "<!-- EndAbout Me section -->".data

theorem closingAt_aboutMe (post : List Char) :
    closingAt "About Me".data (aboutMeClose ++ post) = some 28 := by
  rfl

theorem matchSectionAt_aboutMe {body post : List Char}
    (hmin : ∀ j < body.length,
      startsWith "<!--".data ((body ++ (aboutMeClose ++ post)).drop j) = false) :
    matchSectionAt (aboutMeOpen ++ (body ++ (aboutMeClose ++ post))) =
      some ("About Me".data, body, 25 + (body.length + 28)) := by
  have hfc : findClosing "About Me".data (body ++ (aboutMeClose ++ post)) =
      some (body.length, 28) :=
    findClosing_skip hmin (closingAt_aboutMe post)
  unfold matchSectionAt
  have hsw : startsWith "<!--".data
      (aboutMeOpen ++ (body ++ (aboutMeClose ++ post))) = true := rfl
  rw [hsw]
  simp only [if_true]
  have hdrop4 : (aboutMeOpen ++ (body ++ (aboutMeClose ++ post))).drop 4 =
      " About Me section -->".data ++ (body ++ (aboutMeClose ++ post)) := rfl
  rw [hdrop4]
  have htw : ((" About Me section -->".data ++
      (body ++ (aboutMeClose ++ post))).takeWhile isSpaceChar).length = 1 := rfl
  rw [htw]
  have hws : sectWsLoop (" About Me section -->".data ++ (body ++ (aboutMeClose ++ post))) 1 =
      some (1, "About Me".data, 20, body.length, 28) := by
    unfold sectWsLoop sectAtWs
    have hd1 : (" About Me section -->".data ++ (body ++ (aboutMeClose ++ post))).drop 1 =
        'A' :: ("bout Me section -->".data ++ (body ++ (aboutMeClose ++ post))) := rfl
    rw [hd1]
    dsimp only
    have hchain : sectNameGo ['A'] ("bout Me section -->".data ++ (body ++ (aboutMeClose ++ post))) =
        (match findClosing "About Me".data (body ++ (aboutMeClose ++ post)) with
         | some (ci, cl) => some ("About Me".data, 8 + 12, ci, cl)
         | none => sectNameGo ("About Me".data ++ [' '])
             ("section -->".data ++ (body ++ (aboutMeClose ++ post)))) := rfl
    rw [hchain, hfc]
    simp
  rw [hws]
  dsimp only
  have hcontent : ((((" About Me section -->".data ++
      (body ++ (aboutMeClose ++ post))).drop 1).drop 20).take body.length) = body := by
    have : ((" About Me section -->".data ++
        (body ++ (aboutMeClose ++ post))).drop 1).drop 20 =
        body ++ (aboutMeClose ++ post) := by
      have h1 : (" About Me section -->".data ++
          (body ++ (aboutMeClose ++ post))).drop 1 =
          "About Me section -->".data ++ (body ++ (aboutMeClose ++ post)) := rfl
      rw [h1]
      have h2 : (20 : Nat) = ("About Me section -->".data).length := rfl
      rw [h2, List.drop_left]
    rw [this, List.take_left']
    rfl
  rw [hcontent]
  have harith : 4 + 1 + 20 + body.length + 28 = 25 + (body.length + 28) := by omega
  rw [harith]

theorem matchSectionAt_some_startsWith {l : List Char} {r}
    (h : matchSectionAt l = some r) : startsWith "<!--".data l = true := by
  unfold matchSectionAt at h
  by_cases hs : startsWith "<!--".data l = true
  · exact hs
  · simp [hs] at h

theorem findSection_skip {nm content : List Char} {n : Nat} :
    ∀ {Y rest : List Char},
      (∀ j < Y.length, startsWith "<!--".data ((Y ++ rest).drop j) = false) →
      matchSectionAt rest = some (nm, content, n) →
      findSection (Y ++ rest) = some (Y, nm, content, rest.drop n) := by
  intro Y
  induction Y with
  | nil =>
    intro rest _ hm
    cases rest with
    | nil => simp [matchSectionAt, startsWith] at hm
    | cons r rs => simp [findSection, hm]
  | cons y ys ih =>
    intro rest h hm
    have h0 : startsWith "<!--".data (y :: (ys ++ rest)) = false := by
      have := h 0 (by simp)
      simpa using this
    have hmAt : matchSectionAt (y :: (ys ++ rest)) = none := by
      cases hc : matchSectionAt (y :: (ys ++ rest)) with
      | none => rfl
      | some r0 => rw [matchSectionAt_some_startsWith hc] at h0; cases h0
    rw [List.cons_append]
    unfold findSection
    rw [hmAt]
    have hys : ∀ j < ys.length, startsWith "<!--".data ((ys ++ rest).drop j) = false := by
      intro j hj
      have := h (j + 1) (by simp; omega)
      simpa using this
    rw [ih hys hm]
    simp

theorem findSection_some_contains :
    ∀ {l : List Char} {r}, findSection l = some r → containsSub l "<!--".data = true := by
  intro l
  induction l with
  | nil => intro r h; simp [findSection] at h
  | cons c cs ih =>
    intro r h
    unfold findSection at h
    cases hm : matchSectionAt (c :: cs) with
    | some r0 => exact containsSub_of_startsWith (matchSectionAt_some_startsWith hm)
    | none =>
      rw [hm] at h
      cases hrec : findSection cs with
      | none => rw [hrec] at h; simp at h
      | some r2 => exact containsSub_cons (ih hrec)

theorem findSection_none_of_not_contains {l : List Char}
    (h : containsSub l "<!--".data = false) : findSection l = none := by
  cases hf : findSection l with
  | none => rfl
  | some r => rw [findSection_some_contains hf] at h; cases h

theorem removeEmptySectionsF_done (d : TemplateData) {f : Nat} {l : List Char}
    (hf : 0 < f) (h : findSection l = none) : removeEmptySectionsF d f l = .ok l := by
  match f with
  | 0 => omega
  | f + 1 => simp [removeEmptySectionsF, h]

theorem removeEmptySectionsF_step_keep (d : TemplateData) {l Y nm content rest : List Char}
    {f : Nat}
    (hfind : findSection l = some (Y, nm, content, rest))
    (hb : shouldRemoveSection (trimChars nm) content d = .ok false)
    (hnod : ∀ c ∈ content, c ≠ '$') :
    removeEmptySectionsF d (f + 1) l =
      removeEmptySectionsF d f (Y ++ content ++ rest) := by
  simp only [removeEmptySectionsF, hfind]
  rw [hb, bindE_ok]
  rw [if_neg (by simp), getSubstitution_id _ _ _ _ hnod]

/-- C7 (corrected): a well-formed About Me wrapper is dropped whole —
    markers and body — when the aboutMeText field is absent (or otherwise
    falsy) or a blank string; when aboutMeText is a non-blank string and
    the body is free of the dollar character, the wrapper is kept with
    only the two comment markers stripped.  The original claim fails for
    bodies holding dollar patterns: the keep branch is a string-valued
    replace, so GetSubstitution rewrites them (two dollars collapse to
    one, dollar-amp reinstates the markers and diverges the rescan). -/
theorem about_me_section_pruning
    (d : TemplateData) (pre body post : List Char)
    (hfirst : findSubIdx (pre ++ (aboutMeOpen ++ (body ++ (aboutMeClose ++ post))))
      "<!--".data = some pre.length)
    (hcfirst : findSubIdx (body ++ (aboutMeClose ++ post)) "<!--".data = some body.length) :
    ((jsTruthy (getProp d "aboutMeText") = false ∨
        (∃ s, getProp d "aboutMeText" = .str s ∧ trimChars s.data = [])) →
      containsSub (pre ++ post) "<!--".data = false →
      removeEmptySections d
          (String.mk (pre ++ (aboutMeOpen ++ (body ++ (aboutMeClose ++ post))))) =
        .ok (String.mk (pre ++ post))) ∧
    ((∃ s, getProp d "aboutMeText" = .str s ∧ trimChars s.data ≠ []) →
      (∀ c ∈ body, c ≠ '$') →
      containsSub (pre ++ (body ++ post)) "<!--".data = false →
      removeEmptySections d
          (String.mk (pre ++ (aboutMeOpen ++ (body ++ (aboutMeClose ++ post))))) =
        .ok (String.mk (pre ++ (body ++ post)))) := by
  set T := pre ++ (aboutMeOpen ++ (body ++ (aboutMeClose ++ post))) with hT
  have hmin1 : ∀ j < pre.length, startsWith "<!--".data (T.drop j) = false :=
    findSubIdx_min hfirst
  have hminC : ∀ j < body.length,
      startsWith "<!--".data ((body ++ (aboutMeClose ++ post)).drop j) = false :=
    findSubIdx_min hcfirst
  have hmatch := matchSectionAt_aboutMe hminC
  have hfind := findSection_skip (Y := pre) hmin1 hmatch
  have hdropPost : (aboutMeOpen ++ (body ++ (aboutMeClose ++ post))).drop
      (25 + (body.length + 28)) = post := by
    have hre : aboutMeOpen ++ (body ++ (aboutMeClose ++ post)) =
        (aboutMeOpen ++ body ++ aboutMeClose) ++ post := by
      simp [List.append_assoc]
    rw [hre]
    have hlen : (aboutMeOpen ++ body ++ aboutMeClose).length = 25 + (body.length + 28) := by
      simp only [List.length_append]
      have h1 : aboutMeOpen.length = 25 := rfl
      have h2 : aboutMeClose.length = 28 := rfl
      rw [h1, h2]
      omega
    rw [← hlen, List.drop_left]
  rw [hdropPost] at hfind
  have hshould : shouldRemoveSection (trimChars "About Me".data) body d =
      falsyOrTrimEq (getProp d "aboutMeText") "" := rfl
  have hTpos : 0 < T.length := by
    rw [hT]
    simp only [List.length_append]
    have h1 : aboutMeOpen.length = 25 := rfl
    omega
  constructor
  · intro hblank hno
    have hb : falsyOrTrimEq (getProp d "aboutMeText") "" = .ok true := by
      rcases hblank with hf | ⟨s, hs, ht⟩
      · unfold falsyOrTrimEq
        rw [hf]
        rfl
      · unfold falsyOrTrimEq
        rw [hs]
        by_cases htru : jsTruthy (.str s) = true
        · rw [if_pos htru]
          have : jsTrim (.str s) = .ok (String.mk (trimChars s.data)) := rfl
          rw [this, ht, bindE_ok]
          rfl
        · rw [if_neg htru]
          rfl
    unfold removeEmptySections
    have hdata : (String.mk T).data = T := rfl
    rw [hdata]
    have hstep : removeEmptySectionsF d (T.length + 1) T =
        removeEmptySectionsF d T.length (pre ++ post) := by
      simp only [removeEmptySectionsF]
      rw [hfind]
      dsimp only
      rw [hshould, hb, bindE_ok]
      simp
    rw [hstep, removeEmptySectionsF_done d hTpos (findSection_none_of_not_contains hno)]
    rfl
  · intro hfull hnod hno
    obtain ⟨s, hs, ht⟩ := hfull
    have hsne : s ≠ "" := by
      intro he
      subst he
      exact ht rfl
    have hb : falsyOrTrimEq (getProp d "aboutMeText") "" = .ok false := by
      unfold falsyOrTrimEq
      rw [hs]
      have htru : jsTruthy (.str s) = true := by simp [jsTruthy, hsne]
      rw [if_pos htru]
      have hjt : jsTrim (.str s) = .ok (String.mk (trimChars s.data)) := rfl
      rw [hjt, bindE_ok]
      have : (String.mk (trimChars s.data) = "") = False := by
        simp only [eq_iff_iff, iff_false]
        intro he
        apply ht
        have := congrArg String.data he
        simpa using this
      simp [this, pureE_eq_ok]
    unfold removeEmptySections
    have hdata : (String.mk T).data = T := rfl
    rw [hdata]
    have hstep : removeEmptySectionsF d (T.length + 1) T =
        removeEmptySectionsF d T.length (pre ++ (body ++ post)) := by
      rw [removeEmptySectionsF_step_keep d hfind (hshould.trans hb) hnod,
        List.append_assoc]
    rw [hstep, removeEmptySectionsF_done d hTpos (findSection_none_of_not_contains hno)]
    rfl

/-- Witness for C7: blank and non-blank aboutMeText on a concrete
    wrapper. -/
theorem about_me_section_pruning_witness :
    removeEmptySections [("aboutMeText", .str " ")]
        (String.mk ("A".data ++ (aboutMeOpen ++ ("<div>x</div>".data ++
          (aboutMeClose ++ "B".data))))) = .ok (String.mk ("A".data ++ "B".data)) ∧
    removeEmptySections [("aboutMeText", .str "hi")]
        (String.mk ("A".data ++ (aboutMeOpen ++ ("<div>x</div>".data ++
          (aboutMeClose ++ "B".data))))) =
      .ok (String.mk ("A".data ++ ("<div>x</div>".data ++ "B".data))) :=
  ⟨(about_me_section_pruning [("aboutMeText", .str " ")] "A".data "<div>x</div>".data
      "B".data (by rfl) (by rfl)).1 (Or.inr ⟨" ", rfl, by rfl⟩) (by rfl),
   (about_me_section_pruning [("aboutMeText", .str "hi")] "A".data "<div>x</div>".data
      "B".data (by rfl) (by rfl)).2 ⟨"hi", rfl, by decide⟩ (by decide) (by rfl)⟩

/-- C7 counterexample: a kept About Me body of two dollars is spliced
    through GetSubstitution, so the output holds a single dollar instead
    of the body verbatim. -/
theorem about_me_dollar_body_cex :
    removeEmptySections [("aboutMeText", JSValue.str "hi")]
        (String.mk (aboutMeOpen ++ ('$' :: '$' :: aboutMeClose))) = .ok "$" ∧
    ("$" : String) ≠ "$$" := ⟨rfl, by decide⟩

theorem containsSub_head_mem {l : List Char} {p : Char} {ps : List Char}
    (h : containsSub l (p :: ps) = true) : p ∈ l := by
  unfold containsSub at h
  obtain ⟨i, hi⟩ := Option.isSome_iff_exists.mp h
  have hdec := (findSubIdx_spec hi).1
  rw [hdec]
  simp

theorem containsSub_false_of_head_notMem {l : List Char} {p : Char} {ps : List Char}
    (h : ∀ c ∈ l, c ≠ p) : containsSub l (p :: ps) = false := by
  cases hc : containsSub l (p :: ps) with
  | false => rfl
  | true => exact absurd rfl (h p (containsSub_head_mem hc))

theorem startsWith_cons_ne {p c : Char} (ps cs : List Char) (h : c ≠ p) :
    startsWith (p :: ps) (c :: cs) = false := by
  simp [startsWith, Ne.symm h]

theorem startsWith_comment_head {c : Char} (cs : List Char) (h : c ≠ '<') :
    startsWith "<!--".data (c :: cs) = false := by
  have he : ("<!--".data : List Char) = '<' :: "!--".data := rfl
  rw [he, startsWith_cons_ne _ _ h]

theorem scanTokens_id (cb : String → String → String) :
    ∀ {l : List Char}, (∀ c ∈ l, c ≠ obr) → scanTokens cb l = l := by
  intro l
  induction l with
  | nil => intro _; rfl
  | cons c cs ih =>
    intro h
    rw [scanTokens_cons_nomatch cb (h c (by simp)) cs,
      ih (fun x hx => h x (by simp [hx]))]

theorem scanRemove_id (tm : List Char → Option Nat)
    (htm : ∀ (c : Char) (cs : List Char), c ≠ '<' → tm (c :: cs) = none) :
    ∀ {l : List Char}, (∀ c ∈ l, c ≠ '<') → scanRemove tm l = l := by
  intro l
  induction l with
  | nil => intro _; rfl
  | cons c cs ih =>
    intro h
    unfold scanRemove
    simp only [List.length_cons, scanRemoveGo, htm c cs (h c (by simp))]
    exact congrArg (fun x => c :: x) (ih (fun x hx => h x (by simp [hx])))

theorem scanReplace_id (tm : List Char → Option Nat) (rep : List Char)
    (htm : ∀ (c : Char) (cs : List Char), c ≠ '<' → tm (c :: cs) = none) :
    ∀ {l : List Char}, (∀ c ∈ l, c ≠ '<') → scanReplace tm rep l = l := by
  intro l
  induction l with
  | nil => intro _; rfl
  | cons c cs ih =>
    intro h
    unfold scanReplace
    simp only [List.length_cons, scanReplaceGo, htm c cs (h c (by simp))]
    exact congrArg (fun x => c :: x) (ih (fun x hx => h x (by simp [hx])))

theorem tryAnchor_head (idStr : String) {c : Char} (cs : List Char) (h : c ≠ '<') :
    tryAnchor idStr (c :: cs) = none := by
  unfold tryAnchor
  split
  · rename_i rest heq
    exact absurd (List.cons.inj heq).1 h
  · rfl

theorem tryAnyElem_head (idStr : String) {c : Char} (cs : List Char) (h : c ≠ '<') :
    tryAnyElem idStr (c :: cs) = none := by
  unfold tryAnyElem
  split
  · rename_i rest heq
    exact absurd (List.cons.inj heq).1 h
  · rfl

theorem tryClassPara_head (cls : String) {c : Char} (cs : List Char) (h : c ≠ '<') :
    tryClassPara cls (c :: cs) = none := by
  unfold tryClassPara
  split
  · rename_i rest heq
    exact absurd (List.cons.inj heq).1 h
  · rfl

theorem tryIdPara_head (idStr : String) {c : Char} (cs : List Char) (h : c ≠ '<') :
    tryIdPara idStr (c :: cs) = none := by
  unfold tryIdPara
  split
  · rename_i rest heq
    exact absurd (List.cons.inj heq).1 h
  · rfl

theorem blockOpenAt_head {c : Char} (cs : List Char) (h : c ≠ '<') :
    blockOpenAt (c :: cs) = none := by
  unfold blockOpenAt
  rw [startsWith_comment_head cs h]
  simp

theorem findBlock_none_of_no_lt :
    ∀ {l : List Char}, (∀ c ∈ l, c ≠ '<') → findBlock l = none := by
  intro l
  induction l with
  | nil => intro _; rfl
  | cons c cs ih =>
    intro h
    unfold findBlock
    rw [blockOpenAt_head cs (h c (by simp))]
    exact ih (fun x hx => h x (by simp [hx]))

theorem extractBlocksGo_none {l : List Char} {f : Nat} (h : findBlock l = none) :
    extractBlocksGo (f + 1) l = [] := by
  simp [extractBlocksGo, h]

theorem collectBlocks_nil {l : List Char} (h : ∀ c ∈ l, c ≠ '<') :
    collectBlocks l = [] := by
  unfold collectBlocks extractBlocks
  rw [extractBlocksGo_none (findBlock_none_of_no_lt h)]
  rfl

theorem swapAt_head {c : Char} (cs : List Char) (h : c ≠ obr) :
    swapAt (c :: cs) = none := by
  unfold swapAt
  rw [startsWith_cons_ne _ _ h]
  simp

theorem collectSwaps_nil : ∀ {l : List Char}, (∀ c ∈ l, c ≠ obr) → collectSwaps l = [] := by
  intro l
  induction l with
  | nil => intro _; rfl
  | cons c cs ih =>
    intro h
    unfold collectSwaps
    simp only [List.length_cons, collectSwapsGo, swapAt_head cs (h c (by simp))]
    exact ih (fun x hx => h x (by simp [hx]))

theorem reorderOpenAt_head {c : Char} (cs : List Char) (h : c ≠ '<') :
    reorderOpenAt (c :: cs) = none := by
  unfold reorderOpenAt
  rw [startsWith_comment_head cs h]
  simp

theorem tryReorderSpan_head {c : Char} (cs : List Char) (h : c ≠ '<') :
    tryReorderSpan (c :: cs) = none := by
  unfold tryReorderSpan
  rw [reorderOpenAt_head cs h]

theorem tryBlockSpan_head (nm : String) {c : Char} (cs : List Char) (h : c ≠ '<') :
    tryBlockSpan nm (c :: cs) = none := by
  unfold tryBlockSpan
  rw [blockOpenAt_head cs h]

theorem swapBlocks_nil (a b : String) : swapBlocks [] a b = [] := rfl

theorem dataSwapStep_nil_ok {sw : JSValue} (hn : sw ≠ .null) (hu : sw ≠ .undefined) :
    dataSwapStep [] sw = .ok [] := by
  cases sw
  case null => exact absurd rfl hn
  case undefined => exact absurd rfl hu
  all_goals rfl

theorem dataSwapFold_nil :
    ∀ {sws : List JSValue} {m : List (String × List Char)},
      List.foldlM dataSwapStep ([] : List (String × List Char)) sws = .ok m → m = [] := by
  intro sws
  induction sws with
  | nil =>
    intro m h
    have h2 : (Except.ok ([] : List (String × List Char)) : Except JSErr _) = .ok m := h
    cases h2
    rfl
  | cons sw rest ih =>
    intro m h
    rw [List.foldlM_cons] at h
    by_cases hn : sw = .null
    · subst hn
      rw [show dataSwapStep ([] : List (String × List Char)) .null =
          .error (.typeError "Cannot read properties of null") from rfl, bindE_error] at h
      simp at h
    · by_cases hu : sw = .undefined
      · subst hu
        rw [show dataSwapStep ([] : List (String × List Char)) .undefined =
            .error (.typeError "Cannot read properties of undefined") from rfl,
          bindE_error] at h
        simp at h
      · rw [dataSwapStep_nil_ok hn hu, bindE_ok] at h
        exact ih h

theorem condSocialStep_id (d : TemplateData) {acc : List Char} (fld id : String)
    (hl : ∀ c ∈ acc, c ≠ '<') {r : List Char}
    (h : condSocialStep d acc fld id = .ok r) : r = acc := by
  unfold condSocialStep at h
  cases hb : falsyOrTrimEq (socialFieldValue d fld) "" with
  | error e => rw [hb, bindE_error] at h; simp at h
  | ok b =>
    rw [hb, bindE_ok] at h
    cases b with
    | false =>
      rw [if_neg (by simp), pureE_eq_ok] at h
      exact (Except.ok.inj h).symm
    | true =>
      rw [if_pos rfl] at h
      rw [scanRemove_id (tryAnchor id) (fun c cs hc => tryAnchor_head id cs hc) hl] at h
      rw [scanRemove_id (tryAnyElem id) (fun c cs hc => tryAnyElem_head id cs hc) hl] at h
      rw [pureE_eq_ok] at h
      exact (Except.ok.inj h).symm

theorem condSocialFold_id (d : TemplateData) :
    ∀ (fs : List (String × String)) {acc r : List Char}, (∀ c ∈ acc, c ≠ '<') →
      List.foldlM (fun a p => condSocialStep d a p.1 p.2) acc fs = .ok r → r = acc := by
  intro fs
  induction fs with
  | nil =>
    intro acc r _ h
    have h2 : (Except.ok acc : Except JSErr _) = .ok r := h
    cases h2
    rfl
  | cons p rest ih =>
    intro acc r hl h
    rw [List.foldlM_cons] at h
    cases hs : condSocialStep d acc p.1 p.2 with
    | error e => rw [hs, bindE_error] at h; simp at h
    | ok a1 =>
      have ha1 : a1 = acc := condSocialStep_id d p.1 p.2 hl hs
      rw [hs, bindE_ok, ha1] at h
      exact ih hl h

theorem condElements_id {d : TemplateData} {t s : String}
    (hl : ∀ c ∈ t.data, c ≠ '<')
    (h : processConditionalElements d t = .ok s) : s = t := by
  unfold processConditionalElements at h
  cases hf : List.foldlM (fun acc p => condSocialStep d acc p.1 p.2) t.data
      socialMediaFields with
  | error e => rw [hf, bindE_error] at h; simp at h
  | ok l1 =>
    have hl1 : l1 = t.data := condSocialFold_id d socialMediaFields hl hf
    rw [hf, bindE_ok, hl1] at h
    try dsimp only at h
    cases hp : falsyOrTrimEq (getProp d "phone") "" with
    | error e => rw [hp, bindE_error] at h; simp at h
    | ok bPhone =>
      rw [hp, bindE_ok] at h
      try dsimp only at h
      have e1 : (if bPhone = true then scanRemove (tryClassPara "phone") t.data
          else t.data) = t.data := by
        cases bPhone
        · simp
        · rw [if_pos rfl]
          exact scanRemove_id _ (fun c cs hc => tryClassPara_head "phone" cs hc) hl
      rw [e1] at h
      cases hw : falsyOrTrimEq (getProp d "website") "" with
      | error e => rw [hw, bindE_error] at h; simp at h
      | ok bWeb =>
        rw [hw, bindE_ok] at h
        try dsimp only at h
        have e2 : (if bWeb = true then scanRemove (tryClassPara "website") t.data
            else t.data) = t.data := by
          cases bWeb
          · simp
          · rw [if_pos rfl]
            exact scanRemove_id _ (fun c cs hc => tryClassPara_head "website" cs hc) hl
        rw [e2] at h
        have e3 : (if !jsTruthy (getProp d "address") ||
              (jsTypeofObject (getProp d "address") &&
                !jsTruthy (jsGetProp (getProp d "address") "streetAddress1")) then
            scanRemove (tryClassPara "address") t.data else t.data) = t.data := by
          split
          · exact scanRemove_id _ (fun c cs hc => tryClassPara_head "address" cs hc) hl
          · rfl
        rw [e3] at h
        cases ht : falsyOrTrimEq (getProp d "title") "" with
        | error e => rw [ht, bindE_error] at h; simp at h
        | ok bTitle =>
          rw [ht, bindE_ok] at h
          try dsimp only at h
          have e4 : (if bTitle = true then scanRemove (tryIdPara "title") t.data
              else t.data) = t.data := by
            cases bTitle
            · simp
            · rw [if_pos rfl]
              exact scanRemove_id _ (fun c cs hc => tryIdPara_head "title" cs hc) hl
          rw [e4, pureE_eq_ok] at h
          exact (Except.ok.inj h).symm

theorem layout_id_core {d : TemplateData} {t s : String}
    (hB : collectBlocks t.data = []) (hS : collectSwaps t.data = [])
    (hlt : ∀ c ∈ t.data, c ≠ '<')
    (h : processLayoutReordering d t = .ok s) : s = t := by
  have hW2 : ∀ rep, scanReplace tryReorderSpan rep t.data = t.data :=
    fun rep => scanReplace_id tryReorderSpan rep (fun c cs hc => tryReorderSpan_head cs hc) hlt
  unfold processLayoutReordering at h
  try dsimp only at h
  rw [hB, hS] at h
  simp only [List.foldl_nil, List.isEmpty_nil, if_true] at h
  cases hsw : getProp d "swaps" <;> rw [hsw] at h <;> try dsimp only at h
  case arr sws =>
    cases hfold : List.foldlM dataSwapStep ([] : List (String × List Char)) sws with
    | error e => rw [hfold, bindE_error] at h; simp at h
    | ok m =>
      have hm : m = [] := dataSwapFold_nil hfold
      subst hm
      rw [hfold, bindE_ok] at h
      try dsimp only at h
      simp only [List.foldl_nil] at h
      cases hlo : getProp d "layoutOrder" <;> rw [hlo] at h <;> (try dsimp only at h) <;>
        simp only [hW2, pureE_eq_ok] at h <;> exact (Except.ok.inj h).symm
  all_goals
    simp only [pureE_eq_ok, bindE_ok, List.foldl_nil] at h
  all_goals
    cases hlo : getProp d "layoutOrder" <;> rw [hlo] at h <;> (try dsimp only at h) <;>
      (try simp only [hW2, pureE_eq_ok] at h) <;> exact (Except.ok.inj h).symm

theorem layout_id {d : TemplateData} {t s : String}
    (hobr : ∀ c ∈ t.data, c ≠ obr) (hlt : ∀ c ∈ t.data, c ≠ '<')
    (h : processLayoutReordering d t = .ok s) : s = t :=
  layout_id_core (collectBlocks_nil hlt) (collectSwaps_nil hobr) hlt h

/-- A template with none of the structural markers, checked syntactically:
    no placeholder tokens, no loop start or end marker text, no section
    comment region, no block region, no reorder container open and no
    swap directives. -/
def hasNoMarkers (l : List Char) : Bool :=
  (listTokens l).isEmpty &&
  !containsSub l loopStartPat &&
  !containsSub l (obr :: "LOOP_END:".data) &&
  (findSection l).isNone &&
  (findBlock l).isNone &&
  (findFirstMatch reorderOpenAt l).isNone &&
  (collectSwaps l).isEmpty

/-- C4 counterexample: a marker-free template whose anchor element
    carries a social-link id is still rewritten when the data lacks that
    field — the conditional-element pass deletes the anchor — so process
    does not return it unchanged up to whitespace cleanup (which is the
    identity here). -/
theorem markerless_not_preserved_cex :
    hasNoMarkers "<a id=\"instagram\" href=\"https://x\">I</a>".data = true ∧
    cleanupTemplate "<a id=\"instagram\" href=\"https://x\">I</a>" =
      "<a id=\"instagram\" href=\"https://x\">I</a>" ∧
    process defaultOptions "<a id=\"instagram\" href=\"https://x\">I</a>" [] = .ok "" ∧
    ("" : String) ≠ "<a id=\"instagram\" href=\"https://x\">I</a>" :=
  ⟨by rfl, by rfl, by rfl, by decide⟩

/-- C4 (corrected): on a template containing neither an opening brace nor
    an open angle bracket — so in particular no markers, but also no HTML
    elements the conditional-element pass could delete — any normal
    result of process under the default options is exactly the whitespace
    cleanup of the input. -/
theorem markerless_template_cleanup_only (t : String) (d : TemplateData) (s : String)
    (hc : ∀ c ∈ t.data, c ≠ obr ∧ c ≠ '<')
    (h : process defaultOptions t d = .ok s) : s = cleanupTemplate t := by
  have hobr : ∀ c ∈ t.data, c ≠ obr := fun c hm => (hc c hm).1
  have hlt : ∀ c ∈ t.data, c ≠ '<' := fun c hm => (hc c hm).2
  have hstart : containsSub t.data loopStartPat = false :=
    containsSub_false_of_head_notMem hobr
  have hfl : findLoopGo t.data = none := findLoopGo_none_of_not_contains hstart
  have hloop : processLoops d t = .ok t := by
    unfold processLoops
    rw [processLoopsF_done d (Nat.succ_pos _) hfl]
    rfl
  have hnl : processNestedLoops d t = .ok t := by
    unfold processNestedLoops
    show nestedLoopsGo d (3 + 1) t = .ok t
    unfold nestedLoopsGo
    rw [hloop, bindE_ok]
    simp [pureE_eq_ok]
  have hrp : replacePlaceholders d t = t := by
    unfold replacePlaceholders
    rw [scanTokens_id _ hobr]
  have hcomment : containsSub t.data "<!--".data = false := by
    have he : ("<!--".data : List Char) = '<' :: "!--".data := rfl
    rw [he]
    exact containsSub_false_of_head_notMem hlt
  have hre : removeEmptySections d t = .ok t := by
    unfold removeEmptySections
    rw [removeEmptySectionsF_done d (Nat.succ_pos _)
      (findSection_none_of_not_contains hcomment)]
    rfl
  unfold process processAdvancedStructures at h
  simp only [defaultOptions, if_true] at h
  rw [hloop, bindE_ok] at h
  try dsimp only at h
  rw [hrp] at h
  rw [hnl, bindE_ok] at h
  try dsimp only at h
  cases hce : processConditionalElements d t with
  | error e => rw [hce, bindE_error] at h; simp at h
  | ok s3 =>
    have hs3 : s3 = t := condElements_id hlt hce
    rw [hce, bindE_ok] at h
    rw [hs3] at h
    try dsimp only at h
    cases hlay : processLayoutReordering d t with
    | error e => rw [hlay, bindE_error] at h; simp at h
    | ok s4 =>
      have hs4 : s4 = t := layout_id hobr hlt hlay
      rw [hlay, bindE_ok] at h
      rw [hs4] at h
      try dsimp only at h
      rw [hre, bindE_ok] at h
      try dsimp only at h
      rw [pureE_eq_ok] at h
      exact (Except.ok.inj h).symm

/-- Witness for the corrected C4: a brace-free, bracket-free template
    with a blank-line run and trailing spaces comes back from process
    exactly whitespace-cleaned. -/
theorem markerless_template_cleanup_only_witness :
    (∀ c ∈ ("hi there\n\n\n\nbye  " : String).data, c ≠ obr ∧ c ≠ '<') ∧
    process defaultOptions "hi there\n\n\n\nbye  " [] = .ok "hi there\n\nbye" ∧
    ("hi there\n\nbye" : String) = cleanupTemplate "hi there\n\n\n\nbye  " :=
  ⟨by decide, by rfl,
   markerless_template_cleanup_only "hi there\n\n\n\nbye  " [] "hi there\n\nbye"
     (by decide) (by rfl)⟩

/-- All top-level values of the data are strings. -/
def allStrData (d : TemplateData) : Bool :=
  List.all d (fun p => match p.2 with | .str _ => true | _ => false)

/-- A value that is either a string or falsy: the shape every value the
    trim guards can receive keeps when the data is all strings. -/
def strOrFalsy (v : JSValue) : Prop :=
  (∃ s, v = .str s) ∨ jsTruthy v = false

theorem getProp_allStr {d : TemplateData} (hd : allStrData d = true) (k : String) :
    getProp d k = .undefined ∨ ∃ s, getProp d k = .str s := by
  unfold getProp
  cases hf : List.find? (fun kv => kv.1 = k) d with
  | none => exact Or.inl rfl
  | some kv =>
    right
    dsimp only
    have hmem := List.mem_of_find?_eq_some hf
    unfold allStrData at hd
    have hkv := List.all_eq_true.mp hd kv hmem
    cases hv : kv.2 with
    | str s => exact ⟨s, rfl⟩
    | _ => rw [hv] at hkv; simp at hkv

theorem getProp_strOrFalsy {d : TemplateData} (hd : allStrData d = true) (k : String) :
    strOrFalsy (getProp d k) := by
  rcases getProp_allStr hd k with hu | ⟨s, hs⟩
  · exact Or.inr (by rw [hu]; rfl)
  · exact Or.inl ⟨s, hs⟩

theorem strOrFalsy_or {a b : JSValue} (ha : strOrFalsy a) (hb : strOrFalsy b) :
    strOrFalsy (jsOr a b) := by
  unfold jsOr
  cases hT : jsTruthy a with
  | false => rw [if_neg (by simp)]; exact hb
  | true => rw [if_pos rfl]; exact ha

theorem jsGetProp_str_undef (s : String) {k : String} (hk : k ≠ "length")
    (hi : canonIndex k = none) : jsGetProp (.str s) k = .undefined := by
  unfold jsGetProp
  dsimp only
  rw [if_neg hk, hi]

theorem jsAnd_getProp_strOrFalsy {sm : JSValue} (hsm : strOrFalsy sm) {k : String}
    (hk : k ≠ "length") (hi : canonIndex k = none) :
    strOrFalsy (jsAnd sm (jsGetProp sm k)) := by
  unfold jsAnd
  cases hT : jsTruthy sm with
  | false => rw [if_neg (by simp)]; exact hsm
  | true =>
    rw [if_pos rfl]
    rcases hsm with ⟨s, hs⟩ | hfal
    · subst hs
      rw [jsGetProp_str_undef s hk hi]
      exact Or.inr rfl
    · rw [hfal] at hT; cases hT

theorem falsyOrTrimEq_ok {v : JSValue} (h : strOrFalsy v) (s0 : String) :
    ∃ b, falsyOrTrimEq v s0 = .ok b := by
  unfold falsyOrTrimEq
  cases hT : jsTruthy v with
  | false => exact ⟨true, by rw [if_neg (by simp)]; rfl⟩
  | true =>
    rcases h with ⟨s, hs⟩ | hfal
    · subst hs
      exact ⟨_, by rw [if_pos rfl]; rfl⟩
    · rw [hfal] at hT; cases hT

/-- The keys a social field name yields never collide with the own
    properties of a string value (length or an index). -/
def socialKeyOk (fld : String) : Bool :=
  let k1 := String.mk (replaceFirstSub fld.data "Link".data [])
  let k2 := String.mk (replaceFirstSub (lowerChars fld.data) "link".data [])
  (k1 != "length") && (canonIndex k1).isNone &&
    (k2 != "length") && (canonIndex k2).isNone

theorem socialFieldValue_strOrFalsy {d : TemplateData} {fld : String}
    (hfld : strOrFalsy (getProp d fld)) (hsm : strOrFalsy (getProp d "socialMedia"))
    (hf : socialKeyOk fld = true) : strOrFalsy (socialFieldValue d fld) := by
  unfold socialKeyOk at hf
  simp only [Bool.and_eq_true, bne_iff_ne, Option.isNone_iff_eq_none] at hf
  obtain ⟨⟨⟨hk1, hi1⟩, hk2⟩, hi2⟩ := hf
  unfold socialFieldValue
  exact strOrFalsy_or
    (strOrFalsy_or
      (strOrFalsy_or hfld
        (jsAnd_getProp_strOrFalsy hsm hk1 hi1))
      (jsAnd_getProp_strOrFalsy hsm hk2 hi2))
    (Or.inl ⟨"", rfl⟩)

theorem condSocialStep_ok {d : TemplateData} (acc : List Char)
    {fld : String} (hfld : strOrFalsy (getProp d fld))
    (hsm : strOrFalsy (getProp d "socialMedia"))
    (hf : socialKeyOk fld = true) (id : String) :
    ∃ r, condSocialStep d acc fld id = .ok r := by
  unfold condSocialStep
  obtain ⟨b, hb⟩ := falsyOrTrimEq_ok (socialFieldValue_strOrFalsy hfld hsm hf) ""
  rw [hb, bindE_ok]
  cases b with
  | false => exact ⟨acc, by rw [if_neg (by simp)]; rfl⟩
  | true => exact ⟨_, by rw [if_pos rfl]; rfl⟩

theorem condSocialFold_ok {d : TemplateData}
    (hsm : strOrFalsy (getProp d "socialMedia")) :
    ∀ (fs : List (String × String)),
      (∀ p ∈ fs, socialKeyOk p.1 = true ∧ strOrFalsy (getProp d p.1)) →
      ∀ (acc : List Char),
        ∃ r, List.foldlM (fun a p => condSocialStep d a p.1 p.2) acc fs = .ok r := by
  intro fs
  induction fs with
  | nil => intro _ acc; exact ⟨acc, rfl⟩
  | cons p rest ih =>
    intro hall acc
    rw [List.foldlM_cons]
    obtain ⟨r1, h1⟩ := condSocialStep_ok acc (hall p (by simp)).2 hsm
      (hall p (by simp)).1 p.2
    rw [h1, bindE_ok]
    exact ih (fun q hq => hall q (by simp [hq])) r1

theorem processConditionalElements_ok {d : TemplateData}
    (hsm : strOrFalsy (getProp d "socialMedia"))
    (hflds : ∀ p ∈ socialMediaFields, strOrFalsy (getProp d p.1))
    (hphone : strOrFalsy (getProp d "phone"))
    (hweb : strOrFalsy (getProp d "website"))
    (htitle : strOrFalsy (getProp d "title"))
    (t : String) : ∃ s, processConditionalElements d t = .ok s := by
  unfold processConditionalElements
  obtain ⟨l1, h1⟩ := condSocialFold_ok hsm socialMediaFields
    (fun p hp => ⟨by revert p hp; decide, hflds p hp⟩) t.data
  rw [h1, bindE_ok]
  try dsimp only
  obtain ⟨b1, hb1⟩ := falsyOrTrimEq_ok hphone ""
  rw [hb1, bindE_ok]
  try dsimp only
  obtain ⟨b2, hb2⟩ := falsyOrTrimEq_ok hweb ""
  rw [hb2, bindE_ok]
  try dsimp only
  obtain ⟨b3, hb3⟩ := falsyOrTrimEq_ok htitle ""
  rw [hb3, bindE_ok]
  exact ⟨_, rfl⟩

theorem startsWith_length_le {pat l : List Char} (h : startsWith pat l = true) :
    pat.length ≤ l.length := by
  have hd := startsWith_decomp h
  have hlen := congrArg List.length hd
  simp only [List.length_append] at hlen
  omega

theorem findLoopGo_some_length :
    ∀ {l pre : List Char} {nm : String} {body rest : List Char},
      findLoopGo l = some (pre, nm, body, rest) → pre.length + rest.length < l.length := by
  intro l
  induction l with
  | nil => intro pre nm body rest h; simp [findLoopGo] at h
  | cons c cs ih =>
    intro pre nm body rest h
    unfold findLoopGo at h
    have hskip : (findLoopGo cs).map (fun r => (c :: r.1, r.2)) = some (pre, nm, body, rest) →
        pre.length + rest.length < (c :: cs).length := by
      intro h2
      cases hr : findLoopGo cs with
      | none => rw [hr] at h2; simp at h2
      | some q =>
        obtain ⟨qpre, qnm, qbody, qrest⟩ := q
        rw [hr] at h2
        simp only [Option.map_some', Option.some.injEq, Prod.mk.injEq] at h2
        obtain ⟨h3, h4, h5, h6⟩ := h2
        have hq := ih hr
        subst h3
        subst h6
        simp only [List.length_cons]
        omega
    by_cases hs : startsWith loopStartPat (c :: cs) = true
    · rw [if_pos hs] at h
      try dsimp only at h
      by_cases hemp : (((c :: cs).drop loopStartPat.length).takeWhile isIdentChar).isEmpty
        = true
      · rw [if_pos hemp] at h
        exact hskip h
      · rw [if_neg hemp] at h
        cases hAn : ((c :: cs).drop loopStartPat.length).dropWhile isIdentChar with
        | nil => rw [hAn] at h; exact hskip h
        | cons d0 rest0 =>
          rw [hAn] at h
          try dsimp only at h
          by_cases hd0 : d0 = cbr
          · rw [if_pos hd0] at h
            cases hfs : findSubIdx rest0
                (loopEndPat (String.mk
                  (((c :: cs).drop loopStartPat.length).takeWhile isIdentChar))) with
            | none => rw [hfs] at h; exact hskip h
            | some i =>
              rw [hfs] at h
              simp only [Option.some.injEq, Prod.mk.injEq] at h
              obtain ⟨h1, h2, h3, h4⟩ := h
              subst h1
              subst h4
              have hwl : 12 ≤ (c :: cs).length := by
                have hx := startsWith_length_le hs
                rw [show loopStartPat.length = 12 from rfl] at hx
                exact hx
              have hAol : ((c :: cs).drop loopStartPat.length).length =
                  (c :: cs).length - 12 := by
                rw [show loopStartPat.length = 12 from rfl, List.length_drop]
              have hdw : (((c :: cs).drop loopStartPat.length).dropWhile
                  isIdentChar).length ≤ ((c :: cs).drop loopStartPat.length).length :=
                dropWhile_length_le _ _
              rw [hAn, hAol] at hdw
              simp only [List.length_cons] at hdw hwl ⊢
              simp only [List.length_nil, List.length_drop]
              omega
          · rw [if_neg hd0] at h
            exact hskip h
    · rw [if_neg hs] at h
      exact hskip h

theorem loopOutput_allStr {d : TemplateData} (hd : allStrData d = true) (nm : String)
    (body : List Char) : loopOutput d nm body = .ok "" := by
  unfold loopOutput
  rcases getProp_allStr hd nm with hu | ⟨s, hs⟩
  · rw [hu]
    rfl
  · rw [hs]
    unfold jsOr
    by_cases hT : jsTruthy (.str s) = true
    · rw [if_pos hT]
      rfl
    · rw [if_neg hT]
      rfl

theorem processLoopsF_ok {d : TemplateData} (hd : allStrData d = true) :
    ∀ (f : Nat) (l : List Char), l.length < f → ∃ r, processLoopsF d f l = .ok r := by
  intro f
  induction f with
  | zero => intro l h; omega
  | succ f ih =>
    intro l hl
    cases hfl : findLoopGo l with
    | none => exact ⟨l, processLoopsF_done d (Nat.succ_pos f) hfl⟩
    | some q =>
      obtain ⟨pre, nm, body, rest⟩ := q
      rw [processLoopsF_step d hfl (loopOutput_allStr hd nm body)
        (fun c hc => absurd hc (List.not_mem_nil c))]
      have hlen := findLoopGo_some_length hfl
      exact ih (pre ++ ("" : String).data ++ rest)
        (by
          simp only [List.length_append, List.length_nil]
          omega)

theorem processLoops_ok {d : TemplateData} (hd : allStrData d = true) (t : String) :
    ∃ s, processLoops d t = .ok s := by
  unfold processLoops
  obtain ⟨r, hr⟩ := processLoopsF_ok hd (t.data.length + 1) t.data (by omega)
  rw [hr, bindE_ok]
  exact ⟨_, rfl⟩

theorem nestedLoopsGo_ok {d : TemplateData} (hd : allStrData d = true) :
    ∀ (k : Nat) (cur : String), ∃ s, nestedLoopsGo d k cur = .ok s := by
  intro k
  induction k with
  | zero =>
    intro cur
    obtain ⟨r, hr⟩ := processLoops_ok hd cur
    exact ⟨cur, by unfold nestedLoopsGo; rw [hr, bindE_ok]; rfl⟩
  | succ k ih =>
    intro cur
    obtain ⟨nxt, hn⟩ := processLoops_ok hd cur
    unfold nestedLoopsGo
    rw [hn, bindE_ok]
    by_cases hne : nxt ≠ cur
    · rw [if_pos hne]
      exact ih nxt
    · rw [if_neg hne]
      exact ⟨cur, rfl⟩

theorem processNestedLoops_ok {d : TemplateData} (hd : allStrData d = true) (t : String) :
    ∃ s, processNestedLoops d t = .ok s := by
  unfold processNestedLoops
  exact nestedLoopsGo_ok hd 4 t

theorem trimNeEmpty_ok {v : JSValue} (h : strOrFalsy v) :
    ∃ b, ((if jsTruthy v then do
        let t ← jsTrim v
        pure (t != "")
      else pure false) : Except JSErr Bool) = .ok b := by
  cases hT : jsTruthy v with
  | false => exact ⟨false, by rw [if_neg (by simp)]; rfl⟩
  | true =>
    rcases h with ⟨s, hs⟩ | hfal
    · subst hs
      exact ⟨_, by rw [if_pos rfl]; rfl⟩
    · rw [hfal] at hT; cases hT

theorem socialsSomeCheck_ok {d : TemplateData} (hd : allStrData d = true) :
    ∀ (fs : List String), (∀ f ∈ fs, socialKeyOk f = true) →
      ∃ b, socialsSomeCheck d fs = .ok b := by
  intro fs
  induction fs with
  | nil => intro _; exact ⟨false, rfl⟩
  | cons f rest ih =>
    intro hall
    have hf := hall f (by simp)
    unfold socialKeyOk at hf
    simp only [Bool.and_eq_true, bne_iff_ne, Option.isNone_iff_eq_none] at hf
    obtain ⟨⟨⟨hk1, hi1⟩, hk2⟩, hi2⟩ := hf
    unfold socialsSomeCheck
    try dsimp only
    have hv : strOrFalsy (jsOr (jsOr (getProp d f)
        (jsAnd (getProp d "socialMedia") (jsGetProp (getProp d "socialMedia")
          (String.mk (replaceFirstSub f.data "Link".data []))))) (.str "")) :=
      strOrFalsy_or (strOrFalsy_or (getProp_strOrFalsy hd f)
        (jsAnd_getProp_strOrFalsy (getProp_strOrFalsy hd "socialMedia") hk1 hi1))
        (Or.inl ⟨"", rfl⟩)
    obtain ⟨b, hb⟩ := trimNeEmpty_ok hv
    rw [hb, bindE_ok]
    cases b with
    | true => exact ⟨true, by rw [if_pos rfl]; rfl⟩
    | false =>
      rw [if_neg (by simp)]
      exact ih (fun g hg => hall g (by simp [hg]))

theorem shouldRemoveSection_ok {d : TemplateData} (hd : allStrData d = true)
    (nm content : List Char) : ∃ b, shouldRemoveSection nm content d = .ok b := by
  unfold shouldRemoveSection
  try dsimp only
  by_cases h1 : containsSub (lowerChars nm) "about me".data = true
  · rw [if_pos h1]
    exact falsyOrTrimEq_ok (getProp_strOrFalsy hd "aboutMeText") ""
  · rw [if_neg h1]
    by_cases h2 : containsSub (lowerChars nm) "logo".data = true
    · rw [if_pos h2]; exact ⟨_, rfl⟩
    · rw [if_neg h2]
      by_cases h3 : containsSub (lowerChars nm) "services".data = true
      · rw [if_pos h3]; exact falsyOrTrimEq_ok (getProp_strOrFalsy hd "service") ""
      · rw [if_neg h3]
        by_cases h4 : containsSub (lowerChars nm) "reviews".data = true
        · rw [if_pos h4]; exact ⟨_, rfl⟩
        · rw [if_neg h4]
          by_cases h5 : (containsSub (lowerChars nm) "buttons".data ||
              containsSub (lowerChars nm) "custom buttons".data) = true
          · rw [if_pos h5]; exact ⟨_, rfl⟩
          · rw [if_neg h5]
            by_cases h6 : containsSub (lowerChars nm) "contact info".data = true
            · rw [if_pos h6]; exact ⟨_, rfl⟩
            · rw [if_neg h6]
              by_cases h7 : (containsSub (lowerChars nm) "socials".data ||
                  containsSub (lowerChars nm) "social".data) = true
              · rw [if_pos h7]
                obtain ⟨b, hb⟩ := socialsSomeCheck_ok hd socialsRuleFields (by decide)
                exact ⟨!b, by rw [hb, bindE_ok]; rfl⟩
              · rw [if_neg h7]
                exact ⟨_, rfl⟩

theorem matchSectionAt_some_length {l : List Char} {nm content : List Char} {n : Nat}
    (h : matchSectionAt l = some (nm, content, n)) :
    content.length + (l.length - n) < l.length := by
  unfold matchSectionAt at h
  by_cases hs : startsWith "<!--".data l = true
  · rw [if_pos hs] at h
    try dsimp only at h
    cases hw : sectWsLoop (l.drop 4) (((l.drop 4).takeWhile isSpaceChar).length) with
    | none => rw [hw] at h; simp at h
    | some r =>
      obtain ⟨w, nm2, nt, ci, cl⟩ := r
      rw [hw] at h
      try dsimp only at h
      simp only [Option.some.injEq, Prod.mk.injEq] at h
      obtain ⟨h1, h2, h3⟩ := h
      have h4 : 4 ≤ l.length := by
        have hx := startsWith_length_le hs
        rw [show ("<!--".data : List Char).length = 4 from rfl] at hx
        exact hx
      have h5 : content.length = min ci ((((l.drop 4).drop w).drop nt).length) := by
        rw [← h2, List.length_take]
      simp only [List.length_drop] at h5
      omega
  · rw [if_neg hs] at h
    simp at h

theorem findSection_some_length :
    ∀ {l pre nm content rest : List Char},
      findSection l = some (pre, nm, content, rest) →
      pre.length + content.length + rest.length < l.length := by
  intro l
  induction l with
  | nil => intro pre nm content rest h; simp [findSection] at h
  | cons c cs ih =>
    intro pre nm content rest h
    unfold findSection at h
    cases hm : matchSectionAt (c :: cs) with
    | some r =>
      obtain ⟨nm0, content0, n⟩ := r
      rw [hm] at h
      try dsimp only at h
      simp only [Option.some.injEq, Prod.mk.injEq] at h
      obtain ⟨h1, h2, h3, h4⟩ := h
      subst h1
      subst h3
      subst h4
      have hlen := matchSectionAt_some_length hm
      simp only [List.length_nil, List.length_drop]
      simp only [List.length_cons] at hlen ⊢
      omega
    | none =>
      rw [hm] at h
      cases hr : findSection cs with
      | none => rw [hr] at h; simp at h
      | some q =>
        obtain ⟨qpre, qnm, qcontent, qrest⟩ := q
        rw [hr] at h
        simp only [Option.map_some', Option.some.injEq, Prod.mk.injEq] at h
        obtain ⟨h1, h2, h3, h4⟩ := h
        have hq := ih hr
        subst h1
        subst h3
        subst h4
        simp only [List.length_cons]
        omega

theorem removeEmptySectionsF_noThrow {d : TemplateData} (hd : allStrData d = true) :
    ∀ (f : Nat) (l : List Char), (∃ r, removeEmptySectionsF d f l = .ok r) ∨
      removeEmptySectionsF d f l = .error .fuelOut := by
  intro f
  induction f with
  | zero => intro l; exact Or.inr rfl
  | succ f ih =>
    intro l
    unfold removeEmptySectionsF
    cases hfs : findSection l with
    | none => exact Or.inl ⟨l, rfl⟩
    | some q =>
      obtain ⟨pre, nm, content, rest⟩ := q
      try dsimp only
      obtain ⟨b, hb⟩ := shouldRemoveSection_ok hd (trimChars nm) content
      rw [hb, bindE_ok]
      cases b with
      | true =>
        rw [if_pos rfl]
        exact ih (pre ++ rest)
      | false =>
        rw [if_neg (by simp)]
        exact ih _

theorem removeEmptySections_noThrow {d : TemplateData} (hd : allStrData d = true)
    (t : String) : (∃ s, removeEmptySections d t = .ok s) ∨
      removeEmptySections d t = .error .fuelOut := by
  unfold removeEmptySections
  rcases removeEmptySectionsF_noThrow hd (t.data.length + 1) t.data with ⟨r, hr⟩ | hr
  · rw [hr, bindE_ok]
    exact Or.inl ⟨_, rfl⟩
  · rw [hr, bindE_error]
    exact Or.inr rfl

theorem processLayoutReordering_ok {d : TemplateData} (hd : allStrData d = true)
    (t : String) : ∃ s, processLayoutReordering d t = .ok s := by
  unfold processLayoutReordering
  try dsimp only
  rcases getProp_allStr hd "swaps" with hsw | ⟨s0, hsw⟩ <;> rw [hsw] <;> exact ⟨_, rfl⟩

/-- C5 counterexample: a numeric phone value is truthy, so the
    conditional-element pass calls trim on it and process throws a
    TypeError instead of returning normally. -/
theorem process_throws_on_num_phone_cex :
    process defaultOptions "" [("phone", JSValue.num 5)] =
      .error (.typeError "trim is not a function") := rfl

/-- C5 (corrected): when every top-level data value is a string, process
    under the default options never throws — it returns a string, or (as
    fuelOut models here) the unbounded rescan loop of the section pass
    fails to terminate, which happens when a kept section's content
    carries GetSubstitution dollar patterns that re-create the match.
    The original claim fails twice over: a truthy non-string value for a
    field a pruning pass trims (phone, website, title, a social link,
    aboutMeText, service) reaches the trim call and throws a TypeError
    rather than degrading to a permissive default, and a template whose
    kept section re-creates itself diverges. -/
theorem all_string_data_no_throw (t : String) (d : TemplateData)
    (hd : allStrData d = true) :
    (∃ s, process defaultOptions t d = .ok s) ∨
      process defaultOptions t d = .error .fuelOut := by
  obtain ⟨s1, h1⟩ := processLoops_ok hd t
  obtain ⟨s2, h2⟩ := processNestedLoops_ok hd (replacePlaceholders d s1)
  obtain ⟨s3, h3⟩ := processConditionalElements_ok (getProp_strOrFalsy hd "socialMedia")
    (fun p _ => getProp_strOrFalsy hd p.1) (getProp_strOrFalsy hd "phone")
    (getProp_strOrFalsy hd "website") (getProp_strOrFalsy hd "title") s2
  obtain ⟨s4, h4⟩ := processLayoutReordering_ok hd s3
  rcases removeEmptySections_noThrow hd s4 with ⟨s5, h5⟩ | h5
  · refine Or.inl ⟨cleanupTemplate s5, ?_⟩
    unfold process processAdvancedStructures
    simp only [defaultOptions, if_true]
    rw [h1, bindE_ok]
    try dsimp only
    rw [h2, bindE_ok]
    try dsimp only
    rw [h3, bindE_ok]
    try dsimp only
    rw [h4, bindE_ok]
    try dsimp only
    rw [h5, bindE_ok]
    rfl
  · refine Or.inr ?_
    unfold process processAdvancedStructures
    simp only [defaultOptions, if_true]
    rw [h1, bindE_ok]
    try dsimp only
    rw [h2, bindE_ok]
    try dsimp only
    rw [h3, bindE_ok]
    try dsimp only
    rw [h4, bindE_ok]
    try dsimp only
    rw [h5, bindE_error]

/-- Witness for the corrected C5: all-string data on a template that
    exercises a trim guard returns without a thrown error. -/
theorem all_string_data_no_throw_witness :
    allStrData [("phone", JSValue.str "123")] = true ∧
    ((∃ s, process defaultOptions "x" [("phone", JSValue.str "123")] = .ok s) ∨
      process defaultOptions "x" [("phone", JSValue.str "123")] = .error .fuelOut) :=
  ⟨by rfl, all_string_data_no_throw "x" [("phone", JSValue.str "123")] (by rfl)⟩

/-- The fuelOut arm of the corrected C5 is real: a kept section whose
    content is dollar-amp re-creates the whole match under
    GetSubstitution, so the rescan loop of the section pass never
    terminates (every fuel is exhausted). -/
theorem removeEmptySections_keep_diverges :
    removeEmptySections [] "<!-- X section -->$&<!-- EndX section -->" =
      .error .fuelOut := by
  have hstep : ∀ f : Nat,
      removeEmptySectionsF [] (f + 1)
        ("<!-- X section -->$&<!-- EndX section -->" : String).data =
      removeEmptySectionsF [] f
        ("<!-- X section -->$&<!-- EndX section -->" : String).data := by
    intro f
    simp only [removeEmptySectionsF]
    rw [show findSection ("<!-- X section -->$&<!-- EndX section -->" : String).data =
      some ([], "X".data, '$' :: '&' :: [], []) from rfl]
    try dsimp only
    rw [show shouldRemoveSection (trimChars "X".data) ('$' :: '&' :: []) [] =
      (.ok false : Except JSErr Bool) from rfl, bindE_ok]
    rw [if_neg (by simp)]
    rfl
  have hdiv : ∀ f : Nat, removeEmptySectionsF ([] : TemplateData) f
      ("<!-- X section -->$&<!-- EndX section -->" : String).data = .error .fuelOut := by
    intro f
    induction f with
    | zero => rfl
    | succ f ih => rw [hstep f, ih]
  unfold removeEmptySections
  rw [hdiv, bindE_error]

/-- Literal text of a block open marker with single spaces. -/
def blockOpenMarker (nm : String) : List Char :=
  "<!-- BLOCK:".data ++ (nm.data ++ " -->".data)

/-- Literal text of a block close marker with single spaces. -/
def blockCloseMarker (nm : String) : List Char :=
  "<!-- ENDBLOCK:".data ++ (nm.data ++ " -->".data)

/-- A whole block region: open marker, content, close marker. -/
def blockRegion (nm : String) (c : List Char) : List Char :=
  blockOpenMarker nm ++ (c ++ blockCloseMarker nm)

theorem blockOpenMarker_length (nm : String) :
    (blockOpenMarker nm).length = nm.data.length + 15 := by
  unfold blockOpenMarker
  rw [List.length_append, List.length_append,
    show ("<!-- BLOCK:".data : List Char).length = 11 from rfl,
    show (" -->".data : List Char).length = 4 from rfl]
  omega

theorem blockCloseMarker_length (nm : String) :
    (blockCloseMarker nm).length = nm.data.length + 18 := by
  unfold blockCloseMarker
  rw [List.length_append, List.length_append,
    show ("<!-- ENDBLOCK:".data : List Char).length = 14 from rfl,
    show (" -->".data : List Char).length = 4 from rfl]
  omega

theorem blockRegion_length (nm : String) (c : List Char) :
    (blockRegion nm c).length = c.length + (2 * nm.data.length + 33) := by
  unfold blockRegion
  rw [List.length_append, List.length_append, blockOpenMarker_length,
    blockCloseMarker_length]
  omega

theorem blockOpenAt_none_of_not_comment {l : List Char}
    (h : startsWith "<!--".data l = false) : blockOpenAt l = none := by
  unfold blockOpenAt
  rw [h]
  simp

theorem blockCloseAt_none_of_not_comment (nm : List Char) {l : List Char}
    (h : startsWith "<!--".data l = false) : blockCloseAt nm l = none := by
  unfold blockCloseAt
  rw [h]
  simp

theorem tryBlockSpan_none_of_not_comment (nm : String) {l : List Char}
    (h : startsWith "<!--".data l = false) : tryBlockSpan nm l = none := by
  unfold tryBlockSpan
  rw [blockOpenAt_none_of_not_comment h]

theorem blockOpenAt_marker {nm : String} (hnm : validIdentName nm) (X : List Char) :
    blockOpenAt (blockOpenMarker nm ++ X) = some (nm.data, nm.data.length + 15) := by
  obtain ⟨hne, hall⟩ := hnm
  have hsp : isIdentChar ' ' = false := by decide
  obtain ⟨htw, hdw⟩ := takeWhile_append_stop nm.data ' '
    ("-->".data ++ X) hall hsp
  have hshape : blockOpenMarker nm ++ X =
      "<!-- BLOCK:".data ++ (nm.data ++ (' ' :: ("-->".data ++ X))) := by
    unfold blockOpenMarker
    rw [show (" -->".data : List Char) = ' ' :: "-->".data from rfl]
    simp [List.append_assoc]
  rw [hshape]
  unfold blockOpenAt
  rw [if_pos (show startsWith "<!--".data ("<!-- BLOCK:".data ++
    (nm.data ++ (' ' :: ("-->".data ++ X)))) = true from rfl)]
  try dsimp only
  rw [show ("<!-- BLOCK:".data ++ (nm.data ++ (' ' :: ("-->".data ++ X)))).drop 4 =
    " BLOCK:".data ++ (nm.data ++ (' ' :: ("-->".data ++ X))) from rfl]
  rw [show ((" BLOCK:".data ++ (nm.data ++ (' ' :: ("-->".data ++ X)))).takeWhile
    isSpaceChar) = [' '] from rfl]
  rw [show (" BLOCK:".data ++ (nm.data ++ (' ' :: ("-->".data ++ X)))).drop
    ([' '] : List Char).length = "BLOCK:".data ++ (nm.data ++ (' ' :: ("-->".data ++ X)))
    from rfl]
  rw [if_pos (show startsWith "BLOCK:".data ("BLOCK:".data ++
    (nm.data ++ (' ' :: ("-->".data ++ X)))) = true from startsWith_append_self _ _)]
  try dsimp only
  rw [show ("BLOCK:".data ++ (nm.data ++ (' ' :: ("-->".data ++ X)))).drop 6 =
    nm.data ++ (' ' :: ("-->".data ++ X)) from rfl]
  rw [htw]
  rw [if_neg (by simpa using hne)]
  rw [show (nm.data ++ (' ' :: ("-->".data ++ X))).drop nm.data.length =
    ' ' :: ("-->".data ++ X) from by
      rw [show nm.data ++ (' ' :: ("-->".data ++ X)) =
        nm.data ++ (' ' :: ("-->".data ++ X)) from rfl]
      exact List.drop_left nm.data _]
  rw [show ((' ' :: ("-->".data ++ X)).takeWhile isSpaceChar) = [' '] from rfl]
  rw [show (' ' :: ("-->".data ++ X)).drop ([' '] : List Char).length =
    "-->".data ++ X from rfl]
  rw [if_pos (startsWith_append_self "-->".data X)]
  simp only [Option.some.injEq, Prod.mk.injEq]
  refine ⟨by trivial, ?_⟩
  simp only [List.length_cons, List.length_nil]
  omega

theorem blockCloseAt_marker {nm : String} (X : List Char) :
    blockCloseAt nm.data (blockCloseMarker nm ++ X) = some (nm.data.length + 18) := by
  have hshape : blockCloseMarker nm ++ X =
      "<!-- ENDBLOCK:".data ++ (nm.data ++ (' ' :: ("-->".data ++ X))) := by
    unfold blockCloseMarker
    rw [show (" -->".data : List Char) = ' ' :: "-->".data from rfl]
    simp [List.append_assoc]
  rw [hshape]
  unfold blockCloseAt
  rw [if_pos (show startsWith "<!--".data ("<!-- ENDBLOCK:".data ++
    (nm.data ++ (' ' :: ("-->".data ++ X)))) = true from rfl)]
  try dsimp only
  rw [show ("<!-- ENDBLOCK:".data ++ (nm.data ++ (' ' :: ("-->".data ++ X)))).drop 4 =
    " ENDBLOCK:".data ++ (nm.data ++ (' ' :: ("-->".data ++ X))) from rfl]
  rw [show ((" ENDBLOCK:".data ++ (nm.data ++ (' ' :: ("-->".data ++ X)))).takeWhile
    isSpaceChar) = [' '] from rfl]
  rw [show (" ENDBLOCK:".data ++ (nm.data ++ (' ' :: ("-->".data ++ X)))).drop
    ([' '] : List Char).length =
    "ENDBLOCK:".data ++ (nm.data ++ (' ' :: ("-->".data ++ X))) from rfl]
  rw [if_pos (show startsWith "ENDBLOCK:".data ("ENDBLOCK:".data ++
    (nm.data ++ (' ' :: ("-->".data ++ X)))) = true from startsWith_append_self _ _)]
  try dsimp only
  rw [show ("ENDBLOCK:".data ++ (nm.data ++ (' ' :: ("-->".data ++ X)))).drop 9 =
    nm.data ++ (' ' :: ("-->".data ++ X)) from rfl]
  rw [if_pos (startsWith_append_self nm.data _)]
  rw [show (nm.data ++ (' ' :: ("-->".data ++ X))).drop nm.data.length =
    ' ' :: ("-->".data ++ X) from List.drop_left nm.data _]
  rw [show ((' ' :: ("-->".data ++ X)).takeWhile isSpaceChar) = [' '] from rfl]
  rw [show (' ' :: ("-->".data ++ X)).drop ([' '] : List Char).length =
    "-->".data ++ X from rfl]
  rw [if_pos (startsWith_append_self "-->".data X)]
  simp only [Option.some.injEq]
  simp only [List.length_cons, List.length_nil]
  omega

theorem findFirstMatch_at (m : List Char → Option Nat) :
    ∀ {Y rest : List Char} {n : Nat}, (∀ j < Y.length, m ((Y ++ rest).drop j) = none) →
      m rest = some n → rest ≠ [] →
      findFirstMatch m (Y ++ rest) = some (Y.length, n) := by
  intro Y
  induction Y with
  | nil =>
    intro rest n _ hm hne
    cases rest with
    | nil => exact absurd rfl hne
    | cons c cs =>
      simp only [List.nil_append]
      unfold findFirstMatch
      rw [hm]
      simp
  | cons c cs ih =>
    intro rest n h hm hne
    rw [List.cons_append]
    unfold findFirstMatch
    have h0 : m (c :: (cs ++ rest)) = none := by
      have := h 0 (by simp)
      simpa using this
    rw [h0]
    rw [ih (fun j hj => by
      have := h (j + 1) (by simp; omega)
      simpa using this) hm hne]
    simp

theorem findBlock_skip :
    ∀ {Y rest : List Char},
      (∀ j < Y.length, startsWith "<!--".data ((Y ++ rest).drop j) = false) →
      findBlock (Y ++ rest) = findBlock rest := by
  intro Y
  induction Y with
  | nil => intro rest _; rfl
  | cons c cs ih =>
    intro rest h
    rw [List.cons_append]
    have h0 : startsWith "<!--".data (c :: (cs ++ rest)) = false := by
      have := h 0 (by simp)
      simpa using this
    conv_lhs => unfold findBlock
    rw [blockOpenAt_none_of_not_comment h0]
    try dsimp only
    exact ih (fun j hj => by
      have := h (j + 1) (by simp; omega)
      simpa using this)

theorem findBlock_cons_open {c0 : Char} {cs : List Char} {nm0 : List Char} {ol : Nat}
    (hop : blockOpenAt (c0 :: cs) = some (nm0, ol))
    {ci cl : Nat} (hcl : findFirstMatch (blockCloseAt nm0) ((c0 :: cs).drop ol) =
      some (ci, cl)) :
    findBlock (c0 :: cs) = some (String.mk nm0, ((c0 :: cs).drop ol).take ci,
      ((c0 :: cs).drop ol).drop (ci + cl)) := by
  unfold findBlock
  rw [hop]
  try dsimp only
  rw [hcl]

theorem findBlock_region {nm : String} (hnm : validIdentName nm) {c rest : List Char}
    (hcfirst : findSubIdx (c ++ (blockCloseMarker nm ++ rest)) "<!--".data =
      some c.length) :
    findBlock (blockRegion nm c ++ rest) = some (nm, c, rest) := by
  have hT : blockRegion nm c ++ rest =
      blockOpenMarker nm ++ (c ++ (blockCloseMarker nm ++ rest)) := by
    unfold blockRegion
    simp [List.append_assoc]
  have hcons : blockOpenMarker nm ++ (c ++ (blockCloseMarker nm ++ rest)) =
      '<' :: ("!-- BLOCK:".data ++ (nm.data ++ " -->".data) ++
        (c ++ (blockCloseMarker nm ++ rest))) := by
    unfold blockOpenMarker
    rfl
  have hop : blockOpenAt (blockOpenMarker nm ++ (c ++ (blockCloseMarker nm ++ rest))) =
      some (nm.data, nm.data.length + 15) := blockOpenAt_marker hnm _
  have hdrop : (blockOpenMarker nm ++ (c ++ (blockCloseMarker nm ++ rest))).drop
      (nm.data.length + 15) = c ++ (blockCloseMarker nm ++ rest) := by
    rw [← blockOpenMarker_length nm, List.drop_left]
  have hclose : findFirstMatch (blockCloseAt nm.data)
      (c ++ (blockCloseMarker nm ++ rest)) = some (c.length, nm.data.length + 18) := by
    refine findFirstMatch_at _ (fun j hj => ?_) (blockCloseAt_marker rest) ?_
    · exact blockCloseAt_none_of_not_comment nm.data (findSubIdx_min hcfirst j hj)
    · intro he
      have := congrArg List.length he
      simp only [List.length_append, blockCloseMarker_length, List.length_nil] at this
      omega
  rw [hT, hcons]
  rw [findBlock_cons_open (by rw [← hcons]; exact hop)
    (by rw [← hcons, hdrop]; exact hclose)]
  rw [← hcons, hdrop]
  have htake : (c ++ (blockCloseMarker nm ++ rest)).take c.length = c := by
    rw [List.take_left]
  have hdrop2 : (c ++ (blockCloseMarker nm ++ rest)).drop
      (c.length + (nm.data.length + 18)) = rest := by
    rw [show c ++ (blockCloseMarker nm ++ rest) =
      (c ++ blockCloseMarker nm) ++ rest from by simp [List.append_assoc]]
    rw [show c.length + (nm.data.length + 18) = (c ++ blockCloseMarker nm).length from by
      simp only [List.length_append, blockCloseMarker_length]]
    rw [List.drop_left]
  rw [htake, hdrop2, stringMk_data]

theorem findBlock_none_of_no_comment :
    ∀ {l : List Char}, containsSub l "<!--".data = false → findBlock l = none := by
  intro l
  induction l with
  | nil => intro _; rfl
  | cons c cs ih =>
    intro h
    have h1 : startsWith "<!--".data (c :: cs) = false := by
      cases hs : startsWith "<!--".data (c :: cs) with
      | false => rfl
      | true => rw [containsSub_of_startsWith hs] at h; cases h
    have h2 : containsSub cs "<!--".data = false := by
      cases hc : containsSub cs "<!--".data with
      | false => rfl
      | true => rw [containsSub_cons hc] at h; cases h
    unfold findBlock
    rw [blockOpenAt_none_of_not_comment h1]
    exact ih h2

theorem extractBlocksGo_cons {n : Nat} {l : List Char} {nm : String} {c rest : List Char}
    (h : findBlock l = some (nm, c, rest)) :
    extractBlocksGo (n + 1) l = (nm, c) :: extractBlocksGo n rest := by
  simp [extractBlocksGo, h]

theorem scanReplaceGo_fuel (tm : List Char → Option Nat) (rep : List Char) :
    ∀ (f1 : Nat) (l : List Char) (f2 : Nat), l.length < f1 → l.length < f2 →
      scanReplaceGo tm rep f1 l = scanReplaceGo tm rep f2 l := by
  intro f1
  induction f1 with
  | zero => intro l f2 h; omega
  | succ f1 ih =>
    intro l f2 hl hl2
    cases l with
    | nil =>
      cases f2 with
      | zero => omega
      | succ f2 => rfl
    | cons c cs =>
      cases f2 with
      | zero => omega
      | succ f2 =>
        simp only [List.length_cons] at hl hl2
        simp only [scanReplaceGo]
        cases htm : tm (c :: cs) with
        | none => rw [ih cs f2 (by omega) (by omega)]
        | some n =>
          try dsimp only
          by_cases hn : n = 0
          · subst hn
            rw [if_pos rfl, if_pos rfl, ih cs f2 (by omega) (by omega)]
          · rw [if_neg hn, if_neg hn]
            have hdl : ((c :: cs).drop n).length ≤ cs.length := by
              simp only [List.length_drop, List.length_cons]
              omega
            rw [ih ((c :: cs).drop n) f2 (by omega) (by omega)]

theorem scanReplace_append (tm : List Char → Option Nat) (rep : List Char) :
    ∀ {Y rest : List Char}, (∀ j < Y.length, tm ((Y ++ rest).drop j) = none) →
      scanReplace tm rep (Y ++ rest) = Y ++ scanReplace tm rep rest := by
  intro Y
  induction Y with
  | nil => intro rest _; rfl
  | cons c cs ih =>
    intro rest h
    have h0 : tm (c :: (cs ++ rest)) = none := by
      have := h 0 (by simp)
      simpa using this
    rw [List.cons_append]
    unfold scanReplace
    simp only [List.length_cons, scanReplaceGo, h0]
    rw [show scanReplaceGo tm rep ((cs ++ rest).length + 1) (cs ++ rest) =
      scanReplace tm rep (cs ++ rest) from rfl]
    rw [ih (fun j hj => by
      have := h (j + 1) (by simp; omega)
      simpa using this)]
    rfl

theorem scanReplace_match_head (tm : List Char → Option Nat) (rep : List Char)
    {l : List Char} {n : Nat} (h : tm l = some n) (hn : n ≠ 0) (hl : l ≠ []) :
    scanReplace tm rep l = rep ++ scanReplace tm rep (l.drop n) := by
  cases l with
  | nil => exact absurd rfl hl
  | cons c cs =>
    unfold scanReplace
    simp only [List.length_cons, scanReplaceGo, h]
    rw [if_neg hn]
    have hdl : ((c :: cs).drop n).length ≤ cs.length := by
      simp only [List.length_drop, List.length_cons]
      omega
    rw [scanReplaceGo_fuel tm rep (cs.length + 1) ((c :: cs).drop n)
      (((c :: cs).drop n).length + 1) (by omega) (by omega)]

theorem scanReplace_id_of_none (tm : List Char → Option Nat) (rep : List Char) :
    ∀ {l : List Char}, (∀ j < l.length, tm (l.drop j) = none) →
      scanReplace tm rep l = l := by
  intro l
  induction l with
  | nil => intro _; rfl
  | cons c cs ih =>
    intro h
    have h0 : tm (c :: cs) = none := by
      have := h 0 (by simp)
      simpa using this
    unfold scanReplace
    simp only [List.length_cons, scanReplaceGo, h0]
    exact congrArg (fun x => c :: x) (ih (fun j hj => by
      have := h (j + 1) (by simp; omega)
      simpa using this))

theorem scanReplaceSubGo_eq (tm : List Char → Option Nat) {rep : List Char}
    (hrep : ∀ c ∈ rep, c ≠ '$') :
    ∀ (f : Nat) (pre l : List Char),
      scanReplaceSubGo tm rep f pre l = scanReplaceGo tm rep f l := by
  intro f
  induction f with
  | zero => intro pre l; cases l <;> rfl
  | succ f ih =>
    intro pre l
    cases l with
    | nil => rfl
    | cons c cs =>
      simp only [scanReplaceSubGo, scanReplaceGo]
      cases htm : tm (c :: cs) with
      | none => rw [ih]
      | some n =>
        try dsimp only
        by_cases hn : n = 0
        · subst hn
          rw [if_pos rfl, if_pos rfl, ih]
        · rw [if_neg hn, if_neg hn, getSubstitution_id _ _ _ _ hrep, ih]

theorem scanReplaceSub_eq (tm : List Char → Option Nat) {rep : List Char}
    (hrep : ∀ c ∈ rep, c ≠ '$') (l : List Char) :
    scanReplaceSub tm rep l = scanReplace tm rep l :=
  scanReplaceSubGo_eq tm hrep (l.length + 1) [] l

theorem tryBlockSpan_region {nm : String} (hnm : validIdentName nm) {c rest : List Char}
    (hcfirst : findSubIdx (c ++ (blockCloseMarker nm ++ rest)) "<!--".data =
      some c.length) :
    tryBlockSpan nm (blockRegion nm c ++ rest) = some ((blockRegion nm c).length) := by
  have hT : blockRegion nm c ++ rest =
      blockOpenMarker nm ++ (c ++ (blockCloseMarker nm ++ rest)) := by
    unfold blockRegion
    simp [List.append_assoc]
  have hdrop : (blockOpenMarker nm ++ (c ++ (blockCloseMarker nm ++ rest))).drop
      (nm.data.length + 15) = c ++ (blockCloseMarker nm ++ rest) := by
    rw [← blockOpenMarker_length nm, List.drop_left]
  have hclose : findFirstMatch (blockCloseAt nm.data)
      (c ++ (blockCloseMarker nm ++ rest)) = some (c.length, nm.data.length + 18) := by
    refine findFirstMatch_at _ (fun j hj => ?_) (blockCloseAt_marker rest) ?_
    · exact blockCloseAt_none_of_not_comment nm.data (findSubIdx_min hcfirst j hj)
    · intro he
      have := congrArg List.length he
      simp only [List.length_append, blockCloseMarker_length, List.length_nil] at this
      omega
  rw [hT]
  unfold tryBlockSpan
  rw [blockOpenAt_marker hnm]
  try dsimp only
  rw [if_pos (stringMk_data nm)]
  rw [hdrop, hclose]
  simp only [Option.map_some', Option.some.injEq]
  rw [blockRegion_length]
  omega

theorem layout_two_blocks_run
    (pre cA mid cB post : List Char) (A B TO : String) (rA rB : List Char)
    (hA : validIdentName A) (hB : validIdentName B) (hAB : A ≠ B)
    (hobr : ∀ ch ∈ pre ++ (blockRegion A cA ++ (mid ++ (blockRegion B cB ++ post))),
      ch ≠ obr)
    (h1 : findSubIdx (pre ++ (blockRegion A cA ++ (mid ++ (blockRegion B cB ++ post))))
      "<!--".data = some pre.length)
    (h2 : findSubIdx (cA ++ (blockCloseMarker A ++ (mid ++ (blockRegion B cB ++ post))))
      "<!--".data = some cA.length)
    (h3 : findSubIdx (mid ++ (blockRegion B cB ++ post)) "<!--".data = some mid.length)
    (h4 : findSubIdx (cB ++ (blockCloseMarker B ++ post)) "<!--".data = some cB.length)
    (h5 : containsSub post "<!--".data = false)
    (h6 : ∀ j < (blockRegion B cB ++ post).length,
      tryBlockSpan A ((blockRegion B cB ++ post).drop j) = none)
    (h7 : ∀ j < (pre ++ (rA ++ mid)).length,
      tryBlockSpan B ((pre ++ (rA ++ (mid ++ (blockRegion B cB ++ post)))).drop j) = none)
    (h8 : ∀ j < post.length, tryBlockSpan B (post.drop j) = none)
    (h9 : ∀ c ∈ rA, c ≠ '$') (h10 : ∀ c ∈ rB, c ≠ '$')
    (hswap : swapBlocks [(A, cA), (B, cB)] A TO = [(A, rA), (B, rB)]) :
    processLayoutReordering
        [("swaps", JSValue.arr [JSValue.obj [("from", JSValue.str A),
          ("to", JSValue.str TO)]])]
        (String.mk (pre ++ (blockRegion A cA ++ (mid ++ (blockRegion B cB ++ post)))))
      = .ok (String.mk (pre ++ (rA ++ (mid ++ (rB ++ post))))) := by
  have hREST2 : findBlock (mid ++ (blockRegion B cB ++ post)) = some (B, cB, post) := by
    rw [findBlock_skip (findSubIdx_min h3)]
    exact findBlock_region hB h4
  have hfb1 : findBlock (pre ++ (blockRegion A cA ++ (mid ++ (blockRegion B cB ++ post))))
      = some (A, cA, mid ++ (blockRegion B cB ++ post)) := by
    rw [findBlock_skip (findSubIdx_min h1)]
    exact findBlock_region hA h2
  have hLT : 2 ≤ (pre ++ (blockRegion A cA ++ (mid ++ (blockRegion B cB ++ post)))).length
      := by
    simp only [List.length_append, blockRegion_length]
    omega
  have hext : extractBlocks
      (pre ++ (blockRegion A cA ++ (mid ++ (blockRegion B cB ++ post)))) =
      [(A, cA), (B, cB)] := by
    unfold extractBlocks
    rw [extractBlocksGo_cons hfb1]
    rw [show (pre ++ (blockRegion A cA ++ (mid ++ (blockRegion B cB ++ post)))).length =
      ((pre ++ (blockRegion A cA ++ (mid ++ (blockRegion B cB ++ post)))).length - 1) + 1
      from by omega]
    rw [extractBlocksGo_cons hREST2]
    rw [show (pre ++ (blockRegion A cA ++ (mid ++ (blockRegion B cB ++ post)))).length - 1
      = ((pre ++ (blockRegion A cA ++ (mid ++ (blockRegion B cB ++ post)))).length - 2) + 1
      from by omega]
    rw [extractBlocksGo_none (findBlock_none_of_no_comment h5)]
  have hcoll : collectBlocks
      (pre ++ (blockRegion A cA ++ (mid ++ (blockRegion B cB ++ post)))) =
      [(A, cA), (B, cB)] := by
    unfold collectBlocks
    rw [hext]
    simp only [List.foldl_cons, List.foldl_nil]
    simp [upsert, hAB]
  have hswaps : collectSwaps
      (pre ++ (blockRegion A cA ++ (mid ++ (blockRegion B cB ++ post)))) = [] :=
    collectSwaps_nil hobr
  have hnA0 : (blockRegion A cA).length ≠ 0 := by
    rw [blockRegion_length]
    omega
  have hnB0 : (blockRegion B cB).length ≠ 0 := by
    rw [blockRegion_length]
    omega
  have hlneA : blockRegion A cA ++ (mid ++ (blockRegion B cB ++ post)) ≠ [] := by
    intro he
    have := congrArg List.length he
    simp only [List.length_append, blockRegion_length, List.length_nil] at this
    omega
  have hlneB : blockRegion B cB ++ post ≠ [] := by
    intro he
    have := congrArg List.length he
    simp only [List.length_append, blockRegion_length, List.length_nil] at this
    omega
  have hscanA : scanReplace (tryBlockSpan A) rA
      (pre ++ (blockRegion A cA ++ (mid ++ (blockRegion B cB ++ post)))) =
      pre ++ (rA ++ (mid ++ (blockRegion B cB ++ post))) := by
    rw [scanReplace_append (tryBlockSpan A) rA
      (fun j hj => tryBlockSpan_none_of_not_comment A (findSubIdx_min h1 j hj))]
    congr 1
    rw [scanReplace_match_head _ _ (tryBlockSpan_region hA h2) hnA0 hlneA]
    rw [List.drop_left]
    congr 1
    rw [scanReplace_append (tryBlockSpan A) rA
      (fun j hj => tryBlockSpan_none_of_not_comment A (findSubIdx_min h3 j hj))]
    congr 1
    exact scanReplace_id_of_none _ _ h6
  have hassoc : pre ++ (rA ++ (mid ++ (blockRegion B cB ++ post))) =
      (pre ++ (rA ++ mid)) ++ (blockRegion B cB ++ post) := by
    simp [List.append_assoc]
  have hscanB : scanReplace (tryBlockSpan B) rB
      (pre ++ (rA ++ (mid ++ (blockRegion B cB ++ post)))) =
      pre ++ (rA ++ (mid ++ (rB ++ post))) := by
    rw [hassoc]
    rw [scanReplace_append (tryBlockSpan B) rB (fun j hj => by
      have hj2 := h7 j hj
      rw [hassoc] at hj2
      exact hj2)]
    rw [scanReplace_match_head _ _ (tryBlockSpan_region hB h4) hnB0 hlneB]
    rw [List.drop_left]
    rw [scanReplace_id_of_none _ _ h8]
    simp [List.append_assoc]
  unfold processLayoutReordering
  try dsimp only
  rw [hcoll, hswaps]
  simp only [List.foldl_nil, List.isEmpty_nil, if_true]
  rw [show getProp [("swaps", JSValue.arr [JSValue.obj [("from", JSValue.str A),
    ("to", JSValue.str TO)]])] "swaps" =
    JSValue.arr [JSValue.obj [("from", JSValue.str A), ("to", JSValue.str TO)]] from rfl]
  try dsimp only
  rw [show List.foldlM dataSwapStep [(A, cA), (B, cB)]
    [JSValue.obj [("from", JSValue.str A), ("to", JSValue.str TO)]] =
    (pure (swapBlocks [(A, cA), (B, cB)] A TO) :
      Except JSErr (List (String × List Char))) from rfl]
  rw [hswap]
  simp only [pureE_eq_ok, bindE_ok]
  try dsimp only
  rw [show getProp [("swaps", JSValue.arr [JSValue.obj [("from", JSValue.str A),
    ("to", JSValue.str TO)]])] "layoutOrder" = JSValue.undefined from rfl]
  try dsimp only
  simp only [List.foldl_cons, List.foldl_nil]
  rw [scanReplaceSub_eq (tryBlockSpan A) h9, hscanA,
    scanReplaceSub_eq (tryBlockSpan B) h10, hscanB]

theorem swapBlocks_two (A B : String) (cA cB : List Char) (hAB : A ≠ B)
    (hcA : cA ≠ []) (hcB : cB ≠ []) :
    swapBlocks [(A, cA), (B, cB)] A B = [(A, cB), (B, cA)] := by
  unfold swapBlocks blockTruthy lookupBlocks
  simp [upsert, hAB, Ne.symm hAB, hcA, hcB]

theorem swapBlocks_missing (A B C : String) (cA cB : List Char)
    (hCA : C ≠ A) (hCB : C ≠ B) :
    swapBlocks [(A, cA), (B, cB)] A C = [(A, cA), (B, cB)] := by
  unfold swapBlocks blockTruthy lookupBlocks
  simp [Ne.symm hCA, Ne.symm hCB]

set_option maxRecDepth 4000 in
/-- C6 counterexample: both identifiers name real blocks and the data
    supplies the swap directive, but because block A has empty content
    the truthiness guard skips the exchange: the contents stay in place
    instead of trading positions. -/
theorem empty_block_swap_skipped_cex :
    process defaultOptions
      "<!-- BLOCK:A --><!-- ENDBLOCK:A -->|<!-- BLOCK:B -->x<!-- ENDBLOCK:B -->"
      [("swaps", JSValue.arr [JSValue.obj [("from", JSValue.str "A"),
        ("to", JSValue.str "B")]])] = .ok "|x" ∧
    ("|x" : String) ≠ "x|" :=
  ⟨rfl, by decide⟩

/-- C6 (corrected): on a template holding exactly the two well-formed
    block regions A and B, a data-supplied directive swaps: from A to B
    puts A's content at B's position and B's at A's — provided both
    contents are nonempty (the source guards each swap by content
    truthiness, so an empty block never swaps) and free of the dollar
    character (the final per-block replace is string-valued, so
    GetSubstitution rewrites dollar patterns in a spliced content); and a
    directive whose target names no block is a no-op: every region is
    then replaced by its own content. -/
theorem data_swap_exchange_spec
    (pre cA mid cB post : List Char) (A B C : String)
    (hA : validIdentName A) (hB : validIdentName B) (hAB : A ≠ B)
    (hCA : C ≠ A) (hCB : C ≠ B)
    (hcA : cA ≠ []) (hcB : cB ≠ [])
    (hdA : ∀ c ∈ cA, c ≠ '$') (hdB : ∀ c ∈ cB, c ≠ '$')
    (hobr : ∀ ch ∈ pre ++ (blockRegion A cA ++ (mid ++ (blockRegion B cB ++ post))),
      ch ≠ obr)
    (h1 : findSubIdx (pre ++ (blockRegion A cA ++ (mid ++ (blockRegion B cB ++ post))))
      "<!--".data = some pre.length)
    (h2 : findSubIdx (cA ++ (blockCloseMarker A ++ (mid ++ (blockRegion B cB ++ post))))
      "<!--".data = some cA.length)
    (h3 : findSubIdx (mid ++ (blockRegion B cB ++ post)) "<!--".data = some mid.length)
    (h4 : findSubIdx (cB ++ (blockCloseMarker B ++ post)) "<!--".data = some cB.length)
    (h5 : containsSub post "<!--".data = false)
    (h6 : ∀ j < (blockRegion B cB ++ post).length,
      tryBlockSpan A ((blockRegion B cB ++ post).drop j) = none)
    (h7 : ∀ j < (pre ++ (cB ++ mid)).length,
      tryBlockSpan B ((pre ++ (cB ++ (mid ++ (blockRegion B cB ++ post)))).drop j) = none)
    (h7b : ∀ j < (pre ++ (cA ++ mid)).length,
      tryBlockSpan B ((pre ++ (cA ++ (mid ++ (blockRegion B cB ++ post)))).drop j) = none)
    (h8 : ∀ j < post.length, tryBlockSpan B (post.drop j) = none) :
    processLayoutReordering
        [("swaps", JSValue.arr [JSValue.obj [("from", JSValue.str A),
          ("to", JSValue.str B)]])]
        (String.mk (pre ++ (blockRegion A cA ++ (mid ++ (blockRegion B cB ++ post)))))
      = .ok (String.mk (pre ++ (cB ++ (mid ++ (cA ++ post))))) ∧
    processLayoutReordering
        [("swaps", JSValue.arr [JSValue.obj [("from", JSValue.str A),
          ("to", JSValue.str C)]])]
        (String.mk (pre ++ (blockRegion A cA ++ (mid ++ (blockRegion B cB ++ post)))))
      = .ok (String.mk (pre ++ (cA ++ (mid ++ (cB ++ post))))) :=
  ⟨layout_two_blocks_run pre cA mid cB post A B B cB cA hA hB hAB hobr
      h1 h2 h3 h4 h5 h6 h7 h8 hdB hdA (swapBlocks_two A B cA cB hAB hcA hcB),
   layout_two_blocks_run pre cA mid cB post A B C cA cB hA hB hAB hobr
      h1 h2 h3 h4 h5 h6 h7b h8 hdA hdB (swapBlocks_missing A B C cA cB hCA hCB)⟩

/-- Witness for the corrected C6: concrete one-character contents around
    the two regions, swapped by a data directive, and left alone by one
    naming a missing block. -/
theorem data_swap_exchange_spec_witness :
    processLayoutReordering
        [("swaps", JSValue.arr [JSValue.obj [("from", JSValue.str "A"),
          ("to", JSValue.str "B")]])]
        (String.mk ("P".data ++ (blockRegion "A" "a".data ++
          ("M".data ++ (blockRegion "B" "b".data ++ "Q".data)))))
      = .ok (String.mk ("P".data ++ ("b".data ++ ("M".data ++ ("a".data ++ "Q".data))))) ∧
    processLayoutReordering
        [("swaps", JSValue.arr [JSValue.obj [("from", JSValue.str "A"),
          ("to", JSValue.str "C")]])]
        (String.mk ("P".data ++ (blockRegion "A" "a".data ++
          ("M".data ++ (blockRegion "B" "b".data ++ "Q".data)))))
      = .ok (String.mk ("P".data ++ ("a".data ++ ("M".data ++ ("b".data ++ "Q".data))))) :=
  data_swap_exchange_spec "P".data "a".data "M".data "b".data "Q".data "A" "B" "C"
    ⟨by decide, by decide⟩ ⟨by decide, by decide⟩ (by decide) (by decide) (by decide)
    (by decide) (by decide) (by decide) (by decide)
    (by decide) (by rfl) (by rfl) (by rfl) (by rfl) (by rfl)
    (by decide) (by decide) (by decide) (by decide)

theorem rep1_id {c : Char} (r : List Char) :
    ∀ {l : List Char}, (∀ x ∈ l, x ≠ c) → rep1 c r l = l := by
  intro l
  induction l with
  | nil => intro _; rfl
  | cons a as ih =>
    intro h
    unfold rep1
    rw [List.flatMap_cons, if_neg (h a (by simp))]
    rw [show (as.flatMap fun ch => if ch = c then r else [ch]) = rep1 c r as from rfl]
    rw [ih (fun x hx => h x (by simp [hx]))]
    rfl

theorem escapeHtmlL_id {l : List Char} (h : ∀ x ∈ l, isWordChar x = true) :
    escapeHtmlL l = l := by
  have hne : ∀ (cc : Char), isWordChar cc = false → ∀ x ∈ l, x ≠ cc := by
    intro cc hcc x hx he
    subst he
    rw [h x hx] at hcc
    cases hcc
  unfold escapeHtmlL
  rw [rep1_id _ (hne '&' (by decide)), rep1_id _ (hne '<' (by decide)),
    rep1_id _ (hne '>' (by decide)), rep1_id _ (hne '"' (by decide)),
    rep1_id _ (hne apos (by decide))]

theorem processSpecialPlaceholder_word {v : String}
    (hv : ∀ c ∈ v.data, isWordChar c = true) {pl : String}
    (h1 : pl ≠ "addContact") (h2 : pl ≠ "stars") :
    processSpecialPlaceholder (.str v) pl = v := by
  unfold processSpecialPlaceholder
  rw [if_neg h1, if_neg h2]
  unfold escapeHtml
  try dsimp only
  rw [show (jsToString (JSValue.str v)).data = v.data from rfl]
  rw [escapeHtmlL_id hv]

theorem startsWith_head_false_all {p : Char} (ps : List Char) {l : List Char}
    (h : ∀ c ∈ l, c ≠ p) (j : Nat) : startsWith (p :: ps) (l.drop j) = false := by
  cases hd : l.drop j with
  | nil => rfl
  | cons c cs =>
    have hcm : c ∈ l := by
      have hm : c ∈ l.drop j := by rw [hd]; simp
      exact List.mem_of_mem_drop hm
    exact startsWith_cons_ne ps cs (h c hcm)

theorem startsWith_pat_false_all_cons {p : Char} {ps : List Char} {c0 : Char}
    {tl : List Char} (h0 : startsWith (p :: ps) (c0 :: tl) = false)
    (htl : ∀ c ∈ tl, c ≠ p) :
    ∀ j, startsWith (p :: ps) ((c0 :: tl).drop j) = false := by
  intro j
  cases j with
  | zero => exact h0
  | succ k =>
    rw [List.drop_succ_cons]
    exact startsWith_head_false_all ps htl k

theorem containsSub_false_of_startsWith_false {l pat : List Char}
    (h : ∀ j, startsWith pat (l.drop j) = false) : containsSub l pat = false := by
  cases hc : containsSub l pat with
  | false => rfl
  | true =>
    obtain ⟨i, hi⟩ := Option.isSome_iff_exists.mp hc
    obtain ⟨hdec, hle⟩ := findSubIdx_spec hi
    have hdrop : l.drop i = pat ++ l.drop (i + pat.length) := by
      conv_lhs => rw [hdec]
      rw [List.append_assoc]
      rw [List.drop_left' (by simp [List.length_take]; omega)]
    have := h i
    rw [hdrop, startsWith_append_self] at this
    cases this

theorem swapAt_none_of_not_startsWith {l : List Char}
    (h : startsWith (obr :: "SWAP:".data) l = false) : swapAt l = none := by
  unfold swapAt
  rw [h]
  simp

theorem collectSwaps_nil_of_none :
    ∀ {l : List Char}, (∀ j < l.length, swapAt (l.drop j) = none) →
      collectSwaps l = [] := by
  intro l
  induction l with
  | nil => intro _; rfl
  | cons c cs ih =>
    intro h
    have h0 : swapAt (c :: cs) = none := h 0 (by simp)
    unfold collectSwaps
    simp only [List.length_cons, collectSwapsGo, h0]
    exact ih (fun j hj => by
      have := h (j + 1) (by simp; omega)
      simpa using this)

theorem intercalate_single (s x : String) : String.intercalate s [x] = x := by
  cases x
  rfl

/-- The constructor options of C10: the standalone placeholder pass off,
    loop processing on, section pruning at its default. -/
def opts10 : TemplateOptions := { processPlaceholders := false }

/-- Loop body with one item-resolved and one global-fallback token. -/
def loopBodyTl : List Char :=
  obr :: ("name".data ++ cbr :: (obr :: ("greet".data ++ [cbr])))

/-- A template with a standalone token before a loop whose body holds the
    two tokens of `loopBodyTl`. -/
def loopOptTemplate : List Char :=
  obr :: ("greet".data ++ cbr :: ('\n' ::
    (loopStartPat ++ ("xs".data ++ cbr :: (loopBodyTl ++ loopEndPat "xs")))))

theorem loopOpt_tail_no_obr {v g : String}
    (hv : ∀ c ∈ v.data, isWordChar c = true) (hg : ∀ c ∈ g.data, isWordChar c = true) :
    ∀ c ∈ ("greet".data ++ cbr :: ('\n' :: (v.data ++ g.data))), c ≠ obr := by
  intro c hc
  rcases List.mem_append.mp hc with h | h
  · have hall : ∀ x ∈ ("greet".data : List Char), x ≠ obr := by decide
    exact hall c h
  rcases List.mem_cons.mp h with rfl | h2
  · decide
  rcases List.mem_cons.mp h2 with rfl | h3
  · decide
  rcases List.mem_append.mp h3 with h4 | h4
  · intro he; subst he; exact absurd (hv _ h4) (by decide)
  · intro he; subst he; exact absurd (hg _ h4) (by decide)

theorem loopOpt_s1_no_lt {v g : String}
    (hv : ∀ c ∈ v.data, isWordChar c = true) (hg : ∀ c ∈ g.data, isWordChar c = true) :
    ∀ c ∈ (obr :: ("greet".data ++ cbr :: ('\n' :: (v.data ++ g.data)))), c ≠ '<' := by
  intro c hc
  rcases List.mem_cons.mp hc with rfl | hc2
  · decide
  rcases List.mem_append.mp hc2 with h | h
  · have hall : ∀ x ∈ ("greet".data : List Char), x ≠ '<' := by decide
    exact hall c h
  rcases List.mem_cons.mp h with rfl | h2
  · decide
  rcases List.mem_cons.mp h2 with rfl | h3
  · decide
  rcases List.mem_append.mp h3 with h4 | h4
  · intro he; subst he; exact absurd (hv _ h4) (by decide)
  · intro he; subst he; exact absurd (hg _ h4) (by decide)

set_option maxHeartbeats 1000000 in
/-- C10: with processPlaceholders false and processLoops true, tokens in
    a loop body are still resolved during loop expansion — the item
    context first (name), then the outer data as fallback (greet) — while
    the standalone token before the loop stays literal; under the default
    options the same run substitutes the standalone token too, so the
    option disables only the standalone pass. -/
theorem loop_body_substitution_with_placeholders_off (v g : String)
    (hv : ∀ c ∈ v.data, isWordChar c = true)
    (hg : ∀ c ∈ g.data, isWordChar c = true) :
    processComplexDataInLoop (String.mk loopBodyTl)
        (JSValue.obj [("name", JSValue.str v)])
        [("greet", JSValue.str g),
          ("xs", JSValue.arr [JSValue.obj [("name", JSValue.str v)]])]
      = .ok (String.mk (v.data ++ g.data)) ∧
    process opts10 (String.mk loopOptTemplate)
        [("greet", JSValue.str g),
          ("xs", JSValue.arr [JSValue.obj [("name", JSValue.str v)]])]
      = .ok (cleanupTemplate (String.mk (obr :: ("greet".data ++ cbr :: ('\n' ::
          (v.data ++ g.data)))))) ∧
    process defaultOptions (String.mk loopOptTemplate)
        [("greet", JSValue.str g),
          ("xs", JSValue.arr [JSValue.obj [("name", JSValue.str v)]])]
      = .ok (cleanupTemplate (String.mk (g.data ++ ('\n' :: (v.data ++ g.data))))) := by
  set dd : TemplateData := [("greet", JSValue.str g),
    ("xs", JSValue.arr [JSValue.obj [("name", JSValue.str v)]])] with hdd
  set item : JSValue := JSValue.obj [("name", JSValue.str v)] with hitem
  have hwordvg : ∀ c ∈ v.data ++ g.data, c ≠ obr := by
    intro c hc he
    subst he
    rcases List.mem_append.mp hc with h | h
    · exact absurd (hv _ h) (by decide)
    · exact absurd (hg _ h) (by decide)
  have ha : processComplexDataInLoop (String.mk loopBodyTl) item dd
      = .ok (String.mk (v.data ++ g.data)) := by
    unfold processComplexDataInLoop
    rw [show (String.mk loopBodyTl).data = loopBodyTl from rfl]
    rw [show loopBodyTl =
      obr :: ("name".data ++ cbr :: (obr :: ("greet".data ++ cbr :: []))) from rfl]
    rw [scanTokensE_token_head _ ⟨by decide, by decide⟩]
    rw [show loopTokenCb item dd "name" (String.mk (obr :: "name".data ++ [cbr])) =
      (pure (processSpecialPlaceholder (JSValue.str v) "name") :
        Except JSErr String) from rfl]
    rw [processSpecialPlaceholder_word hv (by decide) (by decide)]
    rw [pureE_eq_ok, bindE_ok]
    rw [scanTokensE_token_head _ ⟨by decide, by decide⟩]
    rw [show loopTokenCb item dd "greet" (String.mk (obr :: "greet".data ++ [cbr])) =
      (pure (processSpecialPlaceholder (JSValue.str g) "greet") :
        Except JSErr String) from rfl]
    rw [processSpecialPlaceholder_word hg (by decide) (by decide)]
    rw [pureE_eq_ok, bindE_ok]
    rw [show scanTokensE (loopTokenCb item dd) [] =
      (.ok [] : Except JSErr (List Char)) from rfl]
    simp only [pureE_eq_ok, bindE_ok, List.append_nil]
  have hfind : findLoopGo loopOptTemplate =
      some (obr :: ("greet".data ++ cbr :: ['\n']), "xs", loopBodyTl, []) := by rfl
  have hout : loopOutput dd "xs" loopBodyTl = .ok (String.mk (v.data ++ g.data)) := by
    unfold loopOutput
    rw [show getProp dd "xs" = JSValue.arr [item] from rfl]
    rw [show jsOr (JSValue.arr [item]) (JSValue.arr []) = JSValue.arr [item] from rfl]
    try dsimp only
    rw [if_pos (by simp)]
    rw [show renderEntries dd loopBodyTl 0 [item] = (do
      let r ← renderLoopEntry dd loopBodyTl 0 item
      let rs ← renderEntries dd loopBodyTl 1 []
      pure (r :: rs)) from rfl]
    rw [show renderLoopEntry dd loopBodyTl 0 item =
      processComplexDataInLoop (String.mk loopBodyTl) item dd from rfl]
    rw [ha, bindE_ok]
    rw [show renderEntries dd loopBodyTl 1 [] =
      (.ok [] : Except JSErr (List String)) from rfl]
    simp only [pureE_eq_ok, bindE_ok]
    rw [intercalate_single]
  have htlObr := loopOpt_tail_no_obr hv hg
  have hlt1 := loopOpt_s1_no_lt hv hg
  have hnoLoop : ∀ j, startsWith loopStartPat
      ((obr :: ("greet".data ++ cbr :: ('\n' :: (v.data ++ g.data)))).drop j) = false :=
    startsWith_pat_false_all_cons (by rfl) htlObr
  have hnoSwap : ∀ j, startsWith (obr :: "SWAP:".data)
      ((obr :: ("greet".data ++ cbr :: ('\n' :: (v.data ++ g.data)))).drop j) = false :=
    startsWith_pat_false_all_cons (by rfl) htlObr
  have hnone1 : findLoopGo (obr :: ("greet".data ++ cbr :: ('\n' :: (v.data ++ g.data))))
      = none :=
    findLoopGo_none_of_not_contains (containsSub_false_of_startsWith_false hnoLoop)
  have hnodvg : ∀ c ∈ (String.mk (v.data ++ g.data)).data, c ≠ '$' := by
    intro c hc he
    subst he
    rcases List.mem_append.mp hc with h | h
    · exact absurd (hv _ h) (by decide)
    · exact absurd (hg _ h) (by decide)
  have hloopT : processLoops dd (String.mk loopOptTemplate) =
      .ok (String.mk (obr :: ("greet".data ++ cbr :: ('\n' :: (v.data ++ g.data))))) := by
    unfold processLoops
    rw [show (String.mk loopOptTemplate).data = loopOptTemplate from rfl]
    have hstep : processLoopsF dd (loopOptTemplate.length + 1) loopOptTemplate =
        processLoopsF dd loopOptTemplate.length
          ((obr :: ("greet".data ++ cbr :: ['\n'])) ++
            (String.mk (v.data ++ g.data)).data ++ []) :=
      processLoopsF_step dd hfind hout hnodvg
    rw [hstep]
    rw [show ((obr :: ("greet".data ++ cbr :: ['\n'])) ++
        (String.mk (v.data ++ g.data)).data ++ [] : List Char) =
      obr :: ("greet".data ++ cbr :: ('\n' :: (v.data ++ g.data))) from by simp]
    rw [processLoopsF_done dd (by simp [loopOptTemplate]) hnone1]
    rfl
  have hloop1 : processLoops dd
      (String.mk (obr :: ("greet".data ++ cbr :: ('\n' :: (v.data ++ g.data))))) =
      .ok (String.mk (obr :: ("greet".data ++ cbr :: ('\n' :: (v.data ++ g.data))))) := by
    unfold processLoops
    rw [show (String.mk (obr :: ("greet".data ++ cbr :: ('\n' ::
      (v.data ++ g.data))))).data =
      obr :: ("greet".data ++ cbr :: ('\n' :: (v.data ++ g.data))) from rfl]
    rw [processLoopsF_done dd (Nat.succ_pos _) hnone1]
    rfl
  have hnl1 : processNestedLoops dd
      (String.mk (obr :: ("greet".data ++ cbr :: ('\n' :: (v.data ++ g.data))))) =
      .ok (String.mk (obr :: ("greet".data ++ cbr :: ('\n' :: (v.data ++ g.data))))) := by
    unfold processNestedLoops
    show nestedLoopsGo dd (3 + 1) _ = _
    unfold nestedLoopsGo
    rw [hloop1, bindE_ok]
    simp [pureE_eq_ok]
  have hstrk : ∀ k : String, k ≠ "greet" → k ≠ "xs" → getProp dd k = JSValue.undefined := by
    intro k h1 h2
    unfold getProp
    rw [hdd]
    simp [List.find?, Ne.symm h1, Ne.symm h2]
  have hsofa : ∀ k : String, k ≠ "greet" → k ≠ "xs" → strOrFalsy (getProp dd k) := by
    intro k h1 h2
    rw [hstrk k h1 h2]
    exact Or.inr rfl
  have hcond1 : ∀ t : String, (∀ c ∈ t.data, c ≠ '<') →
      processConditionalElements dd t = .ok t := by
    intro t hl
    obtain ⟨s3, hs3⟩ := processConditionalElements_ok
      (hsofa "socialMedia" (by decide) (by decide))
      (fun p hp => by
        refine hsofa p.1 ?_ ?_ <;> revert p hp <;> decide)
      (hsofa "phone" (by decide) (by decide))
      (hsofa "website" (by decide) (by decide))
      (hsofa "title" (by decide) (by decide)) t
    rw [hs3, condElements_id hl hs3]
  have hlay1 : ∀ t : String, collectBlocks t.data = [] → collectSwaps t.data = [] →
      (∀ c ∈ t.data, c ≠ '<') → processLayoutReordering dd t = .ok t := by
    intro t hB hS hl
    have hok : ∃ sx, processLayoutReordering dd t = .ok sx := by
      unfold processLayoutReordering
      try dsimp only
      rw [hstrk "swaps" (by decide) (by decide)]
      exact ⟨_, rfl⟩
    obtain ⟨sx, hsx⟩ := hok
    rw [hsx, layout_id_core hB hS hl hsx]
  have hsect1 : ∀ t : String, (∀ c ∈ t.data, c ≠ '<') →
      removeEmptySections dd t = .ok t := by
    intro t hl
    have hcom : containsSub t.data "<!--".data = false := by
      rw [show ("<!--".data : List Char) = '<' :: "!--".data from rfl]
      exact containsSub_false_of_head_notMem hl
    unfold removeEmptySections
    rw [removeEmptySectionsF_done dd (Nat.succ_pos _)
      (findSection_none_of_not_contains hcom)]
    rfl
  refine ⟨ha, ?_, ?_⟩
  · -- placeholders off
    have hS1 : collectSwaps
        (obr :: ("greet".data ++ cbr :: ('\n' :: (v.data ++ g.data)))) = [] :=
      collectSwaps_nil_of_none (fun j _ => swapAt_none_of_not_startsWith (hnoSwap j))
    have hB1 : collectBlocks
        (obr :: ("greet".data ++ cbr :: ('\n' :: (v.data ++ g.data)))) = [] :=
      collectBlocks_nil hlt1
    unfold process processAdvancedStructures
    simp only [opts10, Bool.false_eq_true, if_false, if_true]
    rw [hloopT, bindE_ok]
    try dsimp only
    rw [hnl1, bindE_ok]
    try dsimp only
    rw [hcond1 _ hlt1, bindE_ok]
    try dsimp only
    rw [hlay1 _ hB1 hS1 hlt1, bindE_ok]
    try dsimp only
    rw [hsect1 _ hlt1, bindE_ok]
    rfl
  · -- default options
    have hrp : replacePlaceholders dd
        (String.mk (obr :: ("greet".data ++ cbr :: ('\n' :: (v.data ++ g.data))))) =
        String.mk (g.data ++ ('\n' :: (v.data ++ g.data))) := by
      unfold replacePlaceholders
      rw [show (String.mk (obr :: ("greet".data ++ cbr :: ('\n' ::
        (v.data ++ g.data))))).data =
        obr :: ("greet".data ++ cbr :: ('\n' :: (v.data ++ g.data))) from rfl]
      rw [scanTokens_token_head _ ⟨by decide, by decide⟩]
      rw [show (if hasOwnData dd "greet" = true then
          processSpecialPlaceholder (getProp dd "greet") "greet"
          else String.mk (obr :: "greet".data ++ [cbr])) =
        processSpecialPlaceholder (JSValue.str g) "greet" from rfl]
      rw [processSpecialPlaceholder_word hg (by decide) (by decide)]
      rw [scanTokens_cons_nomatch _ (by decide)]
      rw [scanTokens_id _ hwordvg]
    have hlt2 : ∀ c ∈ (g.data ++ ('\n' :: (v.data ++ g.data))), c ≠ '<' := by
      intro c hc he
      subst he
      rcases List.mem_append.mp hc with h | h
      · exact absurd (hg _ h) (by decide)
      rcases List.mem_cons.mp h with h2 | h3
      · cases h2
      rcases List.mem_append.mp h3 with h4 | h4
      · exact absurd (hv _ h4) (by decide)
      · exact absurd (hg _ h4) (by decide)
    have hobr2 : ∀ c ∈ (g.data ++ ('\n' :: (v.data ++ g.data))), c ≠ obr := by
      intro c hc he
      subst he
      rcases List.mem_append.mp hc with h | h
      · exact absurd (hg _ h) (by decide)
      rcases List.mem_cons.mp h with h2 | h3
      · cases h2
      rcases List.mem_append.mp h3 with h4 | h4
      · exact absurd (hv _ h4) (by decide)
      · exact absurd (hg _ h4) (by decide)
    have hnone2 : findLoopGo (g.data ++ ('\n' :: (v.data ++ g.data))) = none :=
      findLoopGo_none_of_not_contains (containsSub_false_of_head_notMem hobr2)
    have hloop2 : processLoops dd
        (String.mk (g.data ++ ('\n' :: (v.data ++ g.data)))) =
        .ok (String.mk (g.data ++ ('\n' :: (v.data ++ g.data)))) := by
      unfold processLoops
      rw [show (String.mk (g.data ++ ('\n' :: (v.data ++ g.data)))).data =
        g.data ++ ('\n' :: (v.data ++ g.data)) from rfl]
      rw [processLoopsF_done dd (Nat.succ_pos _) hnone2]
      rfl
    have hnl2 : processNestedLoops dd
        (String.mk (g.data ++ ('\n' :: (v.data ++ g.data)))) =
        .ok (String.mk (g.data ++ ('\n' :: (v.data ++ g.data)))) := by
      unfold processNestedLoops
      show nestedLoopsGo dd (3 + 1) _ = _
      unfold nestedLoopsGo
      rw [hloop2, bindE_ok]
      simp [pureE_eq_ok]
    have hS2 : collectSwaps (g.data ++ ('\n' :: (v.data ++ g.data))) = [] :=
      collectSwaps_nil hobr2
    have hB2 : collectBlocks (g.data ++ ('\n' :: (v.data ++ g.data))) = [] :=
      collectBlocks_nil hlt2
    unfold process processAdvancedStructures
    simp only [defaultOptions, if_true]
    rw [hloopT, bindE_ok]
    try dsimp only
    rw [hrp]
    rw [hnl2, bindE_ok]
    try dsimp only
    rw [hcond1 _ hlt2, bindE_ok]
    try dsimp only
    rw [hlay1 _ hB2 hS2 hlt2, bindE_ok]
    try dsimp only
    rw [hsect1 _ hlt2, bindE_ok]
    rfl

/-- Witness for C10: a concrete item value and global value flow into the
    loop body while the standalone token survives or not with the
    option. -/
theorem loop_body_substitution_with_placeholders_off_witness :
    (∀ c ∈ ("Ann" : String).data, isWordChar c = true) ∧
    process opts10 (String.mk loopOptTemplate)
        [("greet", JSValue.str "Hi"),
          ("xs", JSValue.arr [JSValue.obj [("name", JSValue.str "Ann")]])]
      = .ok (cleanupTemplate (String.mk (obr :: ("greet".data ++ cbr :: ('\n' ::
          ("Ann".data ++ "Hi".data)))))) :=
  ⟨by decide,
   (loop_body_substitution_with_placeholders_off "Ann" "Hi"
     (by decide) (by decide)).2.1⟩

end QuickPlate
